import Mathlib

/-!
TBTK: IndexedDataTree, the property extractors and the Chebyshev expander.

A shallow embedding of

* `src/Lib/include/Utilities/IndexedDataTree.h` (`add`, `get`, `clear`, the default constructor,
  `serialize` and the deserialising constructor),
* `src/Lib/src/PropertyExtractor/ExactDiagonalizer.cpp` (`calculateGreensFunction`,
  `calculateMagnetization`, `calculateSpinPolarizedLDOS`),
* `src/Lib/src/PropertyExtractors/APropertyExtractor/APropertyExtractor.cpp` (`calculateDOS`,
  `calculateSpinPolarizedLDOS`),
* `src/Lib/include/TBTK/Solver/ChebyshevExpander.h` (the inline members; the members that are
  only declared there are modelled from the specification),

followed by theorems about these definitions.

Conventions.  C++ `int` subindices are carried as integers (`Int`), and the bound `INT_MAX` is
written out where the range of `int` decides what the code does; `double` and
`complex<double>` are taken with exact rational arithmetic.  A call that ends the process
(`TBTKAssert`, `TBTKExit`, an uncaught exception) is a value `Except.error _`, and so is a call
that cannot return because a loop of it does not finish; a call that returns is `Except.ok _`.
A member function that mutates `this` returns the new object.
-/

namespace TBTK

/-! ## Index -/

/-- An `Index` is a finite sequence of `int` subindices (`Index.h` is not part of the sources
that are embedded here; only `getSize()` and `at(n)` are used).  The subindices are carried as
integers; where the range of `int` decides what the code does (`pushEmptyNodes`), the bound
`INT_MAX = 2147483647` is written out. -/
abbrev Index := List Int

/-! ## TBTKMacros -/

/-- Modelled from the spec: the macro `TBTKAssert(expression, function, message, hint)` of
`TBTKMacros.h`, which is not among the sources.  When `expression` is false the error is reported
and the process ends (section 7: configuration errors are fatal, reported immediately and not
retried); otherwise the statements that follow are executed. -/
def TBTKAssert {ε α : Type} (expression : Prop) [Decidable expression] (error : ε)
    (continuation : Except ε α) : Except ε α :=
  if expression then continuation else .error error

/-- Modelled from the spec: the macro `TBTKExit(function, message, hint)` of `TBTKMacros.h`,
which is not among the sources: the error is reported and the process ends (section 7). -/
def TBTKExit {ε α : Type} (error : ε) : Except ε α :=
  .error error

/-! ## IndexedDataTree -/

/-- The ways in which `IndexedDataTree::add` and `IndexedDataTree::get` end the process.

* `negativeIndex`: "Invalid Index. Negative indices not allowed, ...".
* `shorterIndexAdded`: "Incompatible indices. ... an Index of length n which exactly agrees with
  the n first indices of the current Index has already been added."
* `longerIndexAdded`: "Incompatible indices. ... a longer Index which exactly agrees with the
  current Index in the common indices has already been added."
* `outOfRange`: `std::out_of_range` thrown by `children.at(currentIndex)`.
* `emptyNodesLoop`: no error message; the loop of `add` that creates the empty nodes cannot
  finish (see `pushEmptyNodes`), so the call never returns and reports nothing. -/
inductive TreeError where
  | negativeIndex
  | shorterIndexAdded
  | longerIndexAdded
  | outOfRange
  | emptyNodesLoop
  deriving DecidableEq, Repr

/-- Whether an outcome is a fatal error that the process reports when it ends: a failed
`TBTKAssert` or a thrown exception.  The loop that cannot finish is none. -/
def TreeError.isFatalError : TreeError → Bool
  | .emptyNodesLoop => false
  | _ => true

/-- The class `IndexedDataTree<Data>`: the private members `children`, `indexIncluded`, `data`. -/
inductive IndexedDataTree (Data : Type) where
  | mk (children : List (IndexedDataTree Data)) (indexIncluded : Bool) (data : Data)

namespace IndexedDataTree

variable {Data : Type}

/-- Member `children`. -/
def children : IndexedDataTree Data → List (IndexedDataTree Data)
  | mk c _ _ => c

/-- Member `indexIncluded`. -/
def indexIncluded : IndexedDataTree Data → Bool
  | mk _ b _ => b

/-- Member `data`. -/
def data : IndexedDataTree Data → Data
  | mk _ _ d => d

/-- The default constructor `IndexedDataTree()`: `indexIncluded = false`, no children, and a
default-constructed `data` member (`default`). -/
def new [Inhabited Data] : IndexedDataTree Data :=
  mk [] false default

/-- The statement of `add` that creates empty nodes:
`if(currentIndex >= children.size()) for(int n = children.size(); n <= currentIndex; n++)
children.push_back(IndexedDataTree());` for a non-negative `currentIndex`; the result is the
vector `children` after it.  The counter `n` is an `int`, as `currentIndex` is: for
`currentIndex = INT_MAX = 2147483647` the condition `n <= currentIndex` holds for every value
of `n`, so the loop cannot finish (`emptyNodesLoop`).  For a smaller `currentIndex` the loop
pushes one node for each of the positions `children.size(), ..., currentIndex`.  (No `int` is
above `INT_MAX`; such a value of the model is treated as `INT_MAX`.) -/
def pushEmptyNodes [Inhabited Data] (children : List (IndexedDataTree Data)) (currentIndex : Int) :
    Except TreeError (List (IndexedDataTree Data)) :=
  if (children.length : Int) ≤ currentIndex then
    if currentIndex < 2147483647 then
      .ok (children ++ List.replicate (currentIndex.toNat + 1 - children.length) new)
    else .error .emptyNodesLoop
  else .ok children

/-- The private `add(data, index, subindex)`.  The pair `(index, subindex)` is carried as the
list of the subindices from position `subindex` on, so `subindex < index.getSize()` reads
"the list is not empty" and `index.at(subindex)` is its head.  The statements are taken in the
order of the source: the assertion `currentIndex >= 0`, the creation of empty nodes (which
may not finish), the assertion `!indexIncluded`, the call on `children.at(currentIndex)`; in
the last level the assertion `children.size() == 0` and the two assignments. -/
def addRec [Inhabited Data] (data : Data) :
    Index → IndexedDataTree Data → Except TreeError (IndexedDataTree Data)
  | [], t =>
    TBTKAssert (t.children.length = 0) TreeError.longerIndexAdded
      (.ok (mk t.children true data))
  | currentIndex :: rest, t =>
    TBTKAssert (currentIndex ≥ 0) TreeError.negativeIndex
      (match pushEmptyNodes t.children currentIndex with
      | .error e => .error e
      | .ok children =>
        TBTKAssert (!t.indexIncluded) TreeError.shorterIndexAdded
          (match children[currentIndex.toNat]? with
          | none => .error .outOfRange
          | some child =>
            match addRec data rest child with
            | .error e => .error e
            | .ok child' =>
              .ok (mk (children.set currentIndex.toNat child') t.indexIncluded t.data)))

/-- The public `add(data, index)`, which calls `add(data, index, 0)`. -/
def add [Inhabited Data] (t : IndexedDataTree Data) (data : Data) (index : Index) :
    Except TreeError (IndexedDataTree Data) :=
  addRec data index t

/-- The private `get(data, index, subindex)`; `(index, subindex)` is carried as in `addRec`.
The first argument of the result is the returned `bool`, the second the content of the
reference parameter `data` after the call (written only when the Index is included). -/
def getRec (data : Data) : Index → IndexedDataTree Data → Except TreeError (Bool × Data)
  | [], t => if t.indexIncluded then .ok (true, t.data) else .ok (false, data)
  | currentIndex :: rest, t =>
    TBTKAssert (currentIndex ≥ 0) TreeError.negativeIndex
      (if currentIndex.toNat ≥ t.children.length then .ok (false, data)
      else
        match t.children[currentIndex.toNat]? with
        | none => .error .outOfRange
        | some child => getRec data rest child)

/-- The public `get(data, index)`, which calls `get(data, index, 0)`. -/
def get (t : IndexedDataTree Data) (data : Data) (index : Index) : Except TreeError (Bool × Data) :=
  getRec data index t

/-- The member `clear()`: `indexIncluded = false; children.clear();` (`data` is left as it is). -/
def clear (t : IndexedDataTree Data) : IndexedDataTree Data :=
  mk [] false t.data

/-- The node reached from `t` by following the subindices of a path with `children.at(_)`, if
every subindex is non-negative and inside the `children` vector of the node it is applied to. -/
def nodeAt : Index → IndexedDataTree Data → Option (IndexedDataTree Data)
  | [], t => some t
  | k :: rest, t =>
    if k < 0 then none
    else
      match t.children[k.toNat]? with
      | none => none
      | some child => nodeAt rest child

/-- A tree is reachable when it is obtained from a freshly constructed tree by calls of `add`
that return and calls of `clear`. -/
inductive Reachable [Inhabited Data] : IndexedDataTree Data → Prop where
  | new : Reachable new
  | add {t t' : IndexedDataTree Data} (d : Data) (i : Index) :
      Reachable t → t.add d i = .ok t' → Reachable t'
  | clear {t : IndexedDataTree Data} : Reachable t → Reachable t.clear

/-- Invariant of reachable trees: below every node that has children there is a marked node. -/
def ChildrenLeadToIncluded (t : IndexedDataTree Data) : Prop :=
  ∀ p n, nodeAt p t = some n → n.children ≠ [] →
    ∃ q n', q ≠ [] ∧ nodeAt q n = some n' ∧ n'.indexIncluded = true

/-- Invariant of reachable trees: a marked node has no children. -/
def IncludedHaveNoChildren (t : IndexedDataTree Data) : Prop :=
  ∀ p n, nodeAt p t = some n → n.indexIncluded = true → n.children = []

/-- The tree `{[0] ↦ 7}`: the result of `add(7, {0})` on a fresh `IndexedDataTree<unsigned>`. -/
def exampleTree : IndexedDataTree Nat :=
  mk [mk [] true 7] false 0

/-- The tree `{[0] ↦ 7, [2, 1] ↦ 9}`: the result of `add(9, {2, 1})` on `exampleTree`. -/
def exampleTree2 : IndexedDataTree Nat :=
  mk [mk [] true 7, mk [] false 0, mk [mk [] false 0, mk [] true 9] false 0] false 0

end IndexedDataTree

/-! ## Exact complex arithmetic and the Green's function of the exact diagonaliser -/

/-- The type `complex<double>` with exact arithmetic: real and imaginary part are rationals. -/
structure Cplx where
  re : ℚ
  im : ℚ
  deriving DecidableEq

namespace Cplx

instance : Zero Cplx := ⟨⟨0, 0⟩⟩
instance : Add Cplx := ⟨fun a b => ⟨a.re + b.re, a.im + b.im⟩⟩
instance : Sub Cplx := ⟨fun a b => ⟨a.re - b.re, a.im - b.im⟩⟩
instance : Neg Cplx := ⟨fun a => ⟨-a.re, -a.im⟩⟩
instance : Mul Cplx := ⟨fun a b => ⟨a.re * b.re - a.im * b.im, a.re * b.im + a.im * b.re⟩⟩
/-- Division `complex<double> / double`. -/
instance : HDiv Cplx ℚ Cplx := ⟨fun a r => ⟨a.re / r, a.im / r⟩⟩
/-- Product `complex<double> * double`. -/
instance : HMul Cplx ℚ Cplx := ⟨fun a r => ⟨a.re * r, a.im * r⟩⟩

/-- The function `conj`. -/
def conj (a : Cplx) : Cplx := ⟨a.re, -a.im⟩

/-- The file-level constant `static complex<double> i(0, 1)`. -/
def i : Cplx := ⟨0, 1⟩

end Cplx

/-- The ways in which the property extractors end the process. -/
inductive Fatal where
  /-- `TBTKExit`: "Only support for ChebyshevSolver::GreensFunctionType::Retarded implemented so
  far." -/
  | onlyRetardedSupported
  /-- `TBTKExit`: "Unknown BitRegister type." -/
  | unknownBitRegisterType
  /-- `TBTKExit`: "No spin index found." -/
  | noSpinIndexFound
  /-- `new complex<double>[n]` with a negative `n` (`std::bad_array_new_length`). -/
  | badArrayNewLength
  /-- `std::out_of_range` thrown by an `at(n)`. -/
  | outOfRange
  /-- A fatal error raised inside a collaborator whose source is not embedded here. -/
  | collaborator (code : Nat)
  deriving DecidableEq, Repr

namespace Property

/-- The enumeration `Property::GreensFunction::Type`. -/
inductive GreensFunction.Type where
  | Advanced
  | Retarded
  | Principal
  | NonPrincipal
  deriving DecidableEq, Repr

/-- The class `Property::GreensFunction`, as far as the extractor uses it: the arguments of its
constructor; `data` is the copy of the array handed to the constructor (`getData()`). -/
structure GreensFunction (Layout : Type) where
  memoryLayout : Layout
  type : GreensFunction.Type
  lowerBound : ℚ
  upperBound : ℚ
  energyResolution : Int
  data : List Cplx

end Property

/-- The class `FockStateMap::FockStateMap<BIT_REGISTER>` as used by the extractor. -/
structure FockStateMap (FockState : Type) where
  getBasisSize : Nat
  getFockState : Nat → FockState
  getBasisIndex : FockState → Nat

/-- The class `FockSpace<BIT_REGISTER>` with its ladder operators and Fock states, as used by the
extractor (the sources of these classes are not embedded; their operations are parameters).
`getBasisIndex` stands for `getHoppingAmplitudeSet()->getBasisIndex(_)`, `getOperators b k` for
`getOperators()[b][k]`, `apply o psi` for the state `psi` after `o*psi`, and `ruleSetProduct o r`
for `o*r`. -/
structure FockSpace (RuleSet : Type) where
  LadderOperator : Type
  FockState : Type
  getBasisIndex : Index → Except Fatal Nat
  getOperators : Nat → Nat → LadderOperator
  createFockStateMap : RuleSet → FockStateMap FockState
  apply : LadderOperator → FockState → FockState
  isNull : FockState → Bool
  getPrefactor : FockState → Int
  ruleSetProduct : LadderOperator → RuleSet → RuleSet

namespace PropertyExtractor

/-- What `PropertyExtractor::ExactDiagonalizer` holds and calls: the energy window of the base
class (`lowerBound`, `upperBound`, `energyResolution`), the solver `edSolver` (an object of state
`Solver`, with `addSubspace`, `run`, `getEigenValue`, `getAmplitude`), its many-body context
(`getFockStateRuleSet`, `wrapsBitRegister`, `wrapsExtensiveBitRegister`, the two Fock spaces), and
`memoryLayout`, the `IndexTree` built by `memoryLayout.add({to, from});
memoryLayout.generateLinearMap();`.  `indefinite` is the `int` that the platform yields when a
`double` that no `int` represents is converted. -/
structure ExactDiagonalizer where
  lowerBound : ℚ
  upperBound : ℚ
  energyResolution : Int
  Layout : Type
  memoryLayout : Index → Index → Except Fatal Layout
  RuleSet : Type
  Solver : Type
  addSubspace : Solver → RuleSet → Nat × Solver
  run : Solver → Nat → Solver
  getEigenValue : Solver → Nat → Nat → ℚ
  getAmplitude : Solver → Nat → Nat → Index → Cplx
  getFockStateRuleSet : RuleSet
  wrapsBitRegister : Bool
  wrapsExtensiveBitRegister : Bool
  getFockSpaceBitRegister : FockSpace RuleSet
  getFockSpaceExtensiveBitRegister : FockSpace RuleSet
  indefinite : Int

/-- The value of a `double` expression: `none` when it is not finite (a division by zero). -/
def divide (a b : ℚ) : Option ℚ :=
  if b = 0 then none else some (a / b)

/-- Conversion of a `double` to `int`: the fractional part is discarded (truncation towards
zero); a value that is not finite or outside the range of `int` gives `indefinite`. -/
def toInt (indefinite : Int) : Option ℚ → Int
  | none => indefinite
  | some x =>
    let t : Int := if 0 ≤ x then ⌊x⌋ else ⌈x⌉
    if -2147483648 ≤ t ∧ t ≤ 2147483647 then t else indefinite

/-- The statement `greensFunctionData[e] += x;`. -/
def addAt (greensFunctionData : List Cplx) (e : Nat) (x : Cplx) : List Cplx :=
  greensFunctionData.set e (greensFunctionData.getD e 0 + x)

namespace ExactDiagonalizer

variable (pe : ExactDiagonalizer)

/-- The bin of an eigenstate: `int e = energyResolution*((-lowerBound + energySign*(E -
groundStateEnergy))/(upperBound - lowerBound));`. -/
def energyBin (energySign E groundStateEnergy : ℚ) : Int :=
  toInt pe.indefinite
    ((divide (-pe.lowerBound + energySign * (E - groundStateEnergy))
      (pe.upperBound - pe.lowerBound)).map (fun q => (pe.energyResolution : ℚ) * q))

/-- The loops that compute `amplitude0` and `amplitude1`: the sum over the basis states `c` of
`source` of `conj(a1)*a0*(double)psi.getPrefactor()`, where `psi` is the `c`-th state after the
operator has been applied (states that become null are skipped), `a0` the amplitude of
`(subspaceA, stateA)` at `c` and `a1` the amplitude of `(subspaceB, stateB)` at the basis index of
`psi` in `target`. -/
def amplitude (fockSpace : FockSpace pe.RuleSet) (solver : pe.Solver)
    (operator : fockSpace.LadderOperator)
    (source target : FockStateMap fockSpace.FockState)
    (subspaceA stateA subspaceB stateB : Nat) : Cplx :=
  (List.range source.getBasisSize).foldl (fun acc c =>
    let psi := fockSpace.apply operator (source.getFockState c)
    if fockSpace.isNull psi then acc
    else
      let index := target.getBasisIndex psi
      let a0 := pe.getAmplitude solver subspaceA stateA [(c : Int)]
      let a1 := pe.getAmplitude solver subspaceB stateB [(index : Int)]
      acc + Cplx.conj a1 * a0 * (fockSpace.getPrefactor psi : ℚ)) 0

/-- One round of the loop over the eigenstates `n` of subspace 1 (lines 155-190): the two
amplitudes, the bin `e`, and `if(e >= 0 && e < energyResolution) greensFunctionData[e] +=
amplitude1*amplitude0;`. -/
def accumulate (fockSpace : FockSpace pe.RuleSet) (solver : pe.Solver)
    (fromOperator toOperator : fockSpace.LadderOperator) (energySign : ℚ)
    (fockStateMap0 fockStateMap1 : FockStateMap fockSpace.FockState)
    (subspaceID0 subspaceID1 : Nat) (groundStateEnergy : ℚ)
    (greensFunctionData : List Cplx) (n : Nat) : List Cplx :=
  let E := pe.getEigenValue solver subspaceID1 n
  let amplitude0 := pe.amplitude fockSpace solver fromOperator fockStateMap0 fockStateMap1
    subspaceID0 0 subspaceID1 n
  let amplitude1 := pe.amplitude fockSpace solver toOperator fockStateMap1 fockStateMap0
    subspaceID1 n subspaceID0 0
  let e := pe.energyBin energySign E groundStateEnergy
  if 0 ≤ e ∧ e < pe.energyResolution then addAt greensFunctionData e.toNat (amplitude1 * amplitude0)
  else greensFunctionData

/-- The body of one of the two identical branches `wrapsBitRegister()` /
`wrapsExtensiveBitRegister()` (lines 112-206 and 209-303) for the Fock space of that branch. -/
def calculateForFockSpace (fockSpace : FockSpace pe.RuleSet) (layout : pe.Layout)
    (toIndex fromIndex : Index) (type : Property.GreensFunction.Type) (subspaceID0 : Nat)
    (solver : pe.Solver) : Except Fatal (Property.GreensFunction pe.Layout × pe.Solver) := do
  let ruleSet0 := pe.getFockStateRuleSet
  let (fromOperator, toOperator, energySign) ←
    (match type with
    | .Retarded => do
      let f ← fockSpace.getBasisIndex fromIndex
      let t ← fockSpace.getBasisIndex toIndex
      pure (fockSpace.getOperators f 0, fockSpace.getOperators t 1, (1 : ℚ))
    | .Advanced => do
      let f ← fockSpace.getBasisIndex fromIndex
      let t ← fockSpace.getBasisIndex toIndex
      pure (fockSpace.getOperators f 1, fockSpace.getOperators t 0, (-1 : ℚ))
    | _ => TBTKExit Fatal.onlyRetardedSupported :
      Except Fatal (fockSpace.LadderOperator × fockSpace.LadderOperator × ℚ))
  let ruleSet1 := fockSpace.ruleSetProduct fromOperator ruleSet0
  let (subspaceID1, solver) := pe.addSubspace solver ruleSet1
  let solver := pe.run solver subspaceID0
  let solver := pe.run solver subspaceID1
  let fockStateMap0 := fockSpace.createFockStateMap ruleSet0
  let fockStateMap1 := fockSpace.createFockStateMap ruleSet1
  if pe.energyResolution < 0 then throw Fatal.badArrayNewLength
  let greensFunctionData : List Cplx := List.replicate pe.energyResolution.toNat 0
  let groundStateEnergy := pe.getEigenValue solver subspaceID0 0
  let greensFunctionData := (List.range fockStateMap1.getBasisSize).foldl
    (pe.accumulate fockSpace solver fromOperator toOperator energySign fockStateMap0 fockStateMap1
      subspaceID0 subspaceID1 groundStateEnergy) greensFunctionData
  let greensFunctionData := greensFunctionData.map (fun x => x * -Cplx.i)
  pure (⟨layout, type, pe.lowerBound, pe.upperBound, pe.energyResolution, greensFunctionData⟩,
    solver)

/-- The number of nested calls `calculateGreensFunction` makes for a type. -/
def depth : Property.GreensFunction.Type → Nat
  | .Principal => 1
  | .NonPrincipal => 1
  | _ => 0

/-- The function `ExactDiagonalizer::calculateGreensFunction(to, from, type)`; the state of the
solver is passed in and returned. -/
def calculateGreensFunction (toIndex fromIndex : Index) :
    Property.GreensFunction.Type → pe.Solver →
      Except Fatal (Property.GreensFunction pe.Layout × pe.Solver)
  | .Principal, solver => do
    let memoryLayout ← pe.memoryLayout toIndex fromIndex
    let (greensFunctionA, solver) ← calculateGreensFunction toIndex fromIndex .Advanced solver
    let (greensFunctionR, solver) ← calculateGreensFunction toIndex fromIndex .Retarded solver
    if pe.energyResolution < 0 then throw Fatal.badArrayNewLength
    let greensFunctionData := (List.range pe.energyResolution.toNat).map (fun n =>
      (greensFunctionA.data.getD n 0 + greensFunctionR.data.getD n 0) / (2 : ℚ))
    pure (⟨memoryLayout, .Principal, pe.lowerBound, pe.upperBound, pe.energyResolution,
      greensFunctionData⟩, solver)
  | .NonPrincipal, solver => do
    let memoryLayout ← pe.memoryLayout toIndex fromIndex
    let (greensFunctionA, solver) ← calculateGreensFunction toIndex fromIndex .Advanced solver
    let (greensFunctionR, solver) ← calculateGreensFunction toIndex fromIndex .Retarded solver
    if pe.energyResolution < 0 then throw Fatal.badArrayNewLength
    let greensFunctionData := (List.range pe.energyResolution.toNat).map (fun n =>
      (greensFunctionA.data.getD n 0 - greensFunctionR.data.getD n 0) / (2 : ℚ))
    pure (⟨memoryLayout, .NonPrincipal, pe.lowerBound, pe.upperBound, pe.energyResolution,
      greensFunctionData⟩, solver)
  | type, solver => do
    let memoryLayout ← pe.memoryLayout toIndex fromIndex
    let (subspaceID0, solver) := pe.addSubspace solver pe.getFockStateRuleSet
    if pe.wrapsBitRegister then
      pe.calculateForFockSpace pe.getFockSpaceBitRegister memoryLayout toIndex fromIndex type
        subspaceID0 solver
    else if pe.wrapsExtensiveBitRegister then
      pe.calculateForFockSpace pe.getFockSpaceExtensiveBitRegister memoryLayout toIndex fromIndex type
        subspaceID0 solver
    else TBTKExit Fatal.unknownBitRegisterType
termination_by type _ => depth type
decreasing_by all_goals simp [depth]

end ExactDiagonalizer
end PropertyExtractor

/-! ## Magnetization and spin-polarised LDOS -/

namespace PropertyExtractor

/-- The observable steps of `calculateMagnetization` and `calculateSpinPolarizedLDOS`, in the
order in which they are recorded: `hint = new int[1]`, `delete [] (int*)hint`, the calls of
`ensureCompliantRanges` and `getLoopRanges`, the construction of the property object, the
call of `calculate`, and `Streams::err << message`, the writing of a message to the error
stream. -/
inductive Step where
  | newHint
  | deleteHint
  | ensureCompliantRanges
  | getLoopRanges
  | newProperty
  | calculate
  | streamsErr (message : String)
  deriving DecidableEq, Repr

/-- The callbacks handed to `calculate`. -/
inductive Callback where
  | calculateMagnetizationCallback
  | calculateSpinPolarizedLDOSCallback
  deriving DecidableEq, Repr

/-- The members of the base class `PropertyExtractor` and the constants that the two functions use
and whose sources are not embedded: the flag value `IDX_SPIN`, `ensureCompliantRanges(pattern,
ranges)` (returns the new `ranges`), `getLoopRanges` (returns `lRanges`, whose length is
`lDimensions`), the constructors of the two properties, and `calculate(callback, data, pattern,
ranges, 0, 1)` (returns the property with the filled data; the last argument here is `hint[0]`). -/
structure Base where
  IDX_SPIN : Int
  ensureCompliantRanges : Index → Index → Index
  getLoopRanges : Index → Index → List Int
  Magnetization : Type
  newMagnetization : List Int → Magnetization
  SpinPolarizedLDOS : Type
  newSpinPolarizedLDOS : List Int → ℚ → ℚ → Int → SpinPolarizedLDOS
  calculateMagnetization : Callback → Magnetization → Index → Index → Int →
    Except Fatal Magnetization
  calculateSpinPolarizedLDOS : Callback → SpinPolarizedLDOS → Index → Index → Int →
    Except Fatal SpinPolarizedLDOS

/-- The loop
`for(unsigned int n = 0; n < pattern.getSize(); n++){ if(pattern.at(n) == IDX_SPIN){
((int*)hint)[0] = n; pattern.at(n) = 0; ranges.at(n) = 1; break; } }`
started with `hint[0] = -1`: `spinIndexLoop k n` runs the loop from counter `n` for the `k`
positions that are left and returns `hint[0]`, `pattern` and `ranges`. -/
def spinIndexLoop (IDX_SPIN : Int) (pattern ranges : Index) :
    Nat → Nat → Except Fatal (Int × Index × Index)
  | 0, _ => .ok (-1, pattern, ranges)
  | k + 1, n =>
    match pattern[n]? with
    | none => .error .outOfRange
    | some p =>
      if p = IDX_SPIN then
        if n < ranges.length then .ok ((n : Int), pattern.set n 0, ranges.set n 1)
        else .error .outOfRange
      else spinIndexLoop IDX_SPIN pattern ranges k (n + 1)

namespace ExactDiagonalizer

/-- The function `ExactDiagonalizer::calculateMagnetization(pattern, ranges)`: the steps it takes
and its result. -/
def calculateMagnetization (base : Base) (pattern ranges : Index) :
    List Step × Except Fatal base.Magnetization :=
  match spinIndexLoop base.IDX_SPIN pattern ranges pattern.length 0 with
  | .error e => ([.newHint], .error e)
  | .ok (hint, pattern, ranges) =>
    if hint = -1 then ([.newHint, .deleteHint], TBTKExit Fatal.noSpinIndexFound)
    else
      let ranges := base.ensureCompliantRanges pattern ranges
      let lRanges := base.getLoopRanges pattern ranges
      let magnetization := base.newMagnetization lRanges
      match base.calculateMagnetization .calculateMagnetizationCallback magnetization pattern
          ranges hint with
      | .error e =>
        ([.newHint, .ensureCompliantRanges, .getLoopRanges, .newProperty, .calculate], .error e)
      | .ok magnetization =>
        ([.newHint, .ensureCompliantRanges, .getLoopRanges, .newProperty, .calculate,
          .deleteHint], .ok magnetization)

/-- The function `ExactDiagonalizer::calculateSpinPolarizedLDOS(pattern, ranges)`: the steps it
takes and its result. -/
def calculateSpinPolarizedLDOS (pe : ExactDiagonalizer) (base : Base) (pattern ranges : Index) :
    List Step × Except Fatal base.SpinPolarizedLDOS :=
  match spinIndexLoop base.IDX_SPIN pattern ranges pattern.length 0 with
  | .error e => ([.newHint], .error e)
  | .ok (hint, pattern, ranges) =>
    if hint = -1 then ([.newHint, .deleteHint], TBTKExit Fatal.noSpinIndexFound)
    else
      let ranges := base.ensureCompliantRanges pattern ranges
      let lRanges := base.getLoopRanges pattern ranges
      let spinPolarizedLDOS := base.newSpinPolarizedLDOS lRanges pe.lowerBound pe.upperBound
        pe.energyResolution
      match base.calculateSpinPolarizedLDOS .calculateSpinPolarizedLDOSCallback spinPolarizedLDOS
          pattern ranges hint with
      | .error e =>
        ([.newHint, .ensureCompliantRanges, .getLoopRanges, .newProperty, .calculate], .error e)
      | .ok spinPolarizedLDOS =>
        ([.newHint, .ensureCompliantRanges, .getLoopRanges, .newProperty, .calculate,
          .deleteHint], .ok spinPolarizedLDOS)

end ExactDiagonalizer

/-! ## Example objects -/

/-- A Fock space with one basis state per subspace, on which every ladder operator acts as the
identity with prefactor 1. -/
def exampleFockSpace : FockSpace Nat where
  LadderOperator := Nat
  FockState := Nat
  getBasisIndex := fun _ => .ok 0
  getOperators := fun b k => 2 * b + k
  createFockStateMap := fun _ => ⟨1, fun c => c, fun psi => psi⟩
  apply := fun _ psi => psi
  isNull := fun _ => false
  getPrefactor := fun _ => 1
  ruleSetProduct := fun _ r => r + 1

/-- An extractor on the window `[-2, 2)` with four bins: the ground state of subspace 0 has
energy 0, the state of subspace 1 energy 1, and every amplitude is 1. -/
def exampleExtractor : ExactDiagonalizer where
  lowerBound := -2
  upperBound := 2
  energyResolution := 4
  Layout := Index × Index
  memoryLayout := fun t f => .ok (t, f)
  RuleSet := Nat
  Solver := Unit
  addSubspace := fun s r => (r, s)
  run := fun s _ => s
  getEigenValue := fun _ subspace _ => subspace
  getAmplitude := fun _ _ _ _ => ⟨1, 0⟩
  getFockStateRuleSet := 0
  wrapsBitRegister := true
  wrapsExtensiveBitRegister := false
  getFockSpaceBitRegister := exampleFockSpace
  getFockSpaceExtensiveBitRegister := exampleFockSpace
  indefinite := -2147483648

/-- A base class for the examples: `IDX_SPIN` is -2, every range is compliant, one loop range,
properties are arrays, `calculate` leaves the property as it is. -/
def exampleBase : Base where
  IDX_SPIN := -2
  ensureCompliantRanges := fun _ ranges => ranges
  getLoopRanges := fun _ ranges => ranges
  Magnetization := List Int
  newMagnetization := fun lRanges => lRanges
  SpinPolarizedLDOS := List Int
  newSpinPolarizedLDOS := fun lRanges _ _ _ => lRanges
  calculateMagnetization := fun _ m _ _ _ => .ok m
  calculateSpinPolarizedLDOS := fun _ s _ _ _ => .ok s

end PropertyExtractor

/-! ## ChebyshevExpander -/

namespace Solver

/-- The class `Solver::ChebyshevExpander`: its private members.  A pointer member is `none` when
it is `NULL`; the host lookup table is the array `generatingFunctionLookupTable[n][e]`, the
damping mask the array `damping[c]`. -/
structure ChebyshevExpander where
  scaleFactor : ℚ
  damping : Option (Nat → Cplx)
  generatingFunctionLookupTable : Option (List (List Cplx))
  generatingFunctionLookupTable_device : Option (List (List Cplx))
  lookupTableNumCoefficients : Int
  lookupTableResolution : Int
  lookupTableLowerBound : ℚ
  lookupTableUpperBound : ℚ

namespace ChebyshevExpander

/-- The inline member `setScaleFactor(scaleFactor)`: `this->scaleFactor = scaleFactor;`. -/
def setScaleFactor (s : ChebyshevExpander) (scaleFactor : ℚ) : ChebyshevExpander :=
  { s with scaleFactor := scaleFactor }

/-- The inline member `getScaleFactor()`. -/
def getScaleFactor (s : ChebyshevExpander) : ℚ :=
  s.scaleFactor

/-- The inline member `getLookupTableIsGenerated()`. -/
def getLookupTableIsGenerated (s : ChebyshevExpander) : Bool :=
  if s.generatingFunctionLookupTable ≠ none then true else false

/-- The inline member `getLookupTableIsLoadedGPU()`. -/
def getLookupTableIsLoadedGPU (s : ChebyshevExpander) : Bool :=
  if s.generatingFunctionLookupTable_device ≠ none then true else false

/-- The inline member `setDamping(damping)`. -/
def setDamping (s : ChebyshevExpander) (damping : Option (Nat → Cplx)) : ChebyshevExpander :=
  { s with damping := damping }

/-- An expander that holds a host lookup table with one coefficient and two energies on
`[-1, 1]`, no device table, scale factor 1 and no damping mask. -/
def exampleExpander : ChebyshevExpander where
  scaleFactor := 1
  damping := none
  generatingFunctionLookupTable := some [[⟨1, 0⟩, ⟨0, 1⟩]]
  generatingFunctionLookupTable_device := none
  lookupTableNumCoefficients := 1
  lookupTableResolution := 2
  lookupTableLowerBound := -1
  lookupTableUpperBound := 1

end ChebyshevExpander
end Solver

/-! ## APropertyExtractor -/

/-- What `APropertyExtractor` holds and calls: the energy window of the base class and the
eigenvalues of the solver `aSolver` (`getNumEigenValues()`, `getEigenValues()[n]`).
`indefinite` is the `int` that the platform yields when a `double` that no `int` represents is
converted. -/
structure APropertyExtractor where
  lowerBound : ℚ
  upperBound : ℚ
  energyResolution : Int
  getNumEigenValues : Int
  getEigenValues : Nat → Cplx
  indefinite : Int

namespace APropertyExtractor

open PropertyExtractor in
/-- The function `APropertyExtractor::calculateSpinPolarizedLDOS(pattern, ranges)`: the steps it
takes and its result; the result `none` is the returned `NULL`.  `newHint` stands for the three
allocations of `hint`, `deleteHint` for their release; the loop is the one of `spinIndexLoop`
(with `hint[1][1]` for `hint[0]`).  When no spin index is found the function executes
`Streams::err << "Error in PropertyExtractor::calculateSpinPolarizedLDOS: No spin index
indicated.\n";`, releases `hint` and executes `return NULL;`. -/
def calculateSpinPolarizedLDOS (pe : APropertyExtractor) (base : Base) (pattern ranges : Index) :
    List Step × Except Fatal (Option base.SpinPolarizedLDOS) :=
  match spinIndexLoop base.IDX_SPIN pattern ranges pattern.length 0 with
  | .error e => ([.newHint], .error e)
  | .ok (hint, pattern, ranges) =>
    if hint = -1 then
      ([.newHint,
        .streamsErr
          "Error in PropertyExtractor::calculateSpinPolarizedLDOS: No spin index indicated.\n",
        .deleteHint], .ok none)
    else
      let ranges := base.ensureCompliantRanges pattern ranges
      let lRanges := base.getLoopRanges pattern ranges
      let spinPolarizedLDOS := base.newSpinPolarizedLDOS lRanges pe.lowerBound pe.upperBound
        pe.energyResolution
      match base.calculateSpinPolarizedLDOS .calculateSpinPolarizedLDOSCallback spinPolarizedLDOS
          pattern ranges hint with
      | .error e =>
        ([.newHint, .ensureCompliantRanges, .getLoopRanges, .newProperty, .calculate], .error e)
      | .ok spinPolarizedLDOS =>
        ([.newHint, .ensureCompliantRanges, .getLoopRanges, .newProperty, .calculate,
          .deleteHint], .ok (some spinPolarizedLDOS))

/-- An extractor on the window `[-2, 2)` with four bins and the eigenvalues 0, 1, 2. -/
def exampleAPropertyExtractor : APropertyExtractor where
  lowerBound := -2
  upperBound := 2
  energyResolution := 4
  getNumEigenValues := 3
  getEigenValues := fun n => ⟨n, 0⟩
  indefinite := -2147483648

end APropertyExtractor

/-! ## The index resolver of the exact diagonaliser -/

/-- Modelled from the spec: the index-to-basis-coordinate resolver
`getHoppingAmplitudeSet()->getBasisIndex(index)` of the Hamiltonian/basis collaborator, which is
not among the sources.  It "fails with an unknown index condition for invalid input"
(section 6), and a negative basis index is a fatal configuration error (section 7): the resolver
of the Fock space ends the process for every Index that has a negative subindex. -/
def FockSpace.RejectsNegativeSubindices {RuleSet : Type} (fockSpace : FockSpace RuleSet) : Prop :=
  ∀ index : Index, (∃ k ∈ index, k < 0) → ∃ e, fockSpace.getBasisIndex index = .error e

namespace PropertyExtractor

/-- The Fock space of `exampleFockSpace` with a resolver that knows the Indices without negative
subindex and ends the process for the others. -/
def exampleFockSpaceWithResolver : FockSpace Nat :=
  { exampleFockSpace with
    getBasisIndex := fun index =>
      if index.all (fun k => decide (0 ≤ k)) then .ok 0 else .error (Fatal.collaborator 0) }

/-- The extractor of `exampleExtractor` on `exampleFockSpaceWithResolver`. -/
def exampleExtractorWithResolver : ExactDiagonalizer :=
  { exampleExtractor with
    getFockSpaceBitRegister := exampleFockSpaceWithResolver
    getFockSpaceExtensiveBitRegister := exampleFockSpaceWithResolver }

end PropertyExtractor

/-! ## Serialization of IndexedDataTree -/

/-- The values of the JSON library `json.hpp` (`nlohmann::json`, not among the sources), as far
as the serialization uses them.  A serialization string in `Mode::JSON` is represented by the
JSON value it denotes: `dump()` followed by `nlohmann::json::parse` gives the value back.  The
members of an object are listed in the order in which they are assigned. -/
inductive Json where
  | null
  | boolean (b : Bool)
  | number (n : Int)
  | string (s : String)
  | array (elements : List Json)
  | object (members : List (String × Json))

namespace Json

/-- The value of the first member with the given key. -/
def lookup (key : String) : List (String × Json) → Option Json
  | [] => none
  | (k, v) :: rest => if k = key then some v else lookup key rest

/-- The call `j.at(key)`; `none` stands for the thrown `json::exception` (no object, or no
member with this key). -/
def atKey (key : String) : Json → Option Json
  | object members => lookup key members
  | _ => none

/-- The call `j.get<bool>()`; `none` stands for the thrown `json::exception`. -/
def getBool : Json → Option Bool
  | boolean b => some b
  | _ => none

/-- The call `j.get<int>()`; `none` stands for the thrown `json::exception`. -/
def getInt : Json → Option Int
  | number n => some n
  | boolean b => some (if b then 1 else 0)
  | _ => none

/-- The values that an iteration from `j.begin()` to `j.end()` visits. -/
def iterate : Json → List Json
  | null => []
  | array elements => elements
  | object members => members.map Prod.snd
  | j => [j]

end Json

namespace Serializeable

/-- The enumeration `Serializeable::Mode`. -/
inductive Mode where
  | Debug
  | JSON
  deriving DecidableEq, Repr

end Serializeable

/-- The ways in which the serialization of an `IndexedDataTree` ends the process.

* `unableToParse`: "Unable to parse string as IndexedDataTree<...> '...'."
* `onlyJSONSupported`: "Only Serializeable::Mode::JSON is supported yet." -/
inductive SerializationError where
  | unableToParse
  | onlyJSONSupported
  deriving DecidableEq, Repr

/-- What distinguishes the specialisations `IndexedDataTree<bool>`, `IndexedDataTree<int>`, ...
of `serialize` and of the deserialising constructor: the assignment `j["data"] = data` and the
call `j.at("data").get<Data>()`. -/
structure DataFormat (Data : Type) where
  assign : Data → Json
  get : Json → Option Data

/-- The specialisation for `int`. -/
def DataFormat.int : DataFormat Int where
  assign := Json.number
  get := Json.getInt

/-- The specialisation for `bool`. -/
def DataFormat.bool : DataFormat Bool where
  assign := Json.boolean
  get := Json.getBool

namespace IndexedDataTree

variable {Data : Type}

mutual
/-- The case `Mode::JSON` of `serialize(mode)`: `j["id"]`, `j["indexIncluded"]`, `j["data"]`,
and for every child `j["children"].push_back(json::parse(children.at(n).serialize(mode)))`, so
that a node without children has no member `children`. -/
def serializeJSON (format : DataFormat Data) : IndexedDataTree Data → Json
  | mk children indexIncluded data =>
    .object ([("id", .string "IndexedDataTree"), ("indexIncluded", .boolean indexIncluded),
        ("data", format.assign data)] ++
      (match serializeChildren format children with
      | [] => []
      | elements => [("children", .array elements)]))
/-- The loop of `serialize` over the children. -/
def serializeChildren (format : DataFormat Data) : List (IndexedDataTree Data) → List Json
  | [] => []
  | child :: rest => serializeJSON format child :: serializeChildren format rest
end

/-- The member `serialize(mode)`. -/
def serialize (format : DataFormat Data) (t : IndexedDataTree Data) :
    Serializeable.Mode → Except SerializationError Json
  | .JSON => .ok (serializeJSON format t)
  | _ => TBTKExit SerializationError.onlyJSONSupported

/-- The loop `for(it = children.begin(); it != children.end(); ++it)
this->children.push_back(IndexedDataTree<Data>(it->dump(), mode));`: the children are
constructed in turn, and the process ends with the first construction that ends it. -/
def pushBackAll {α : Type} (construct : α → Except SerializationError (IndexedDataTree Data)) :
    List α → Except SerializationError (List (IndexedDataTree Data))
  | [] => .ok []
  | element :: rest =>
    match construct element with
    | .error e => .error e
    | .ok child =>
      match pushBackAll construct rest with
      | .error e => .error e
      | .ok children => .ok (child :: children)

set_option linter.unusedVariables false in
/-- The constructor `IndexedDataTree(serialization, mode)` of the specialisations for `bool`,
`int`, ...  `validate` is `Serializeable::validate(serialization, id, mode)`, whose source is not
embedded.  A `json::exception` of the outer `try` block ends the process ("Unable to parse");
the one of the inner block (`j.at("children")` finds no member) leaves the node without
children. -/
def fromSerialization (format : DataFormat Data)
    (validate : Json → String → Serializeable.Mode → Bool) (serialization : Json)
    (mode : Serializeable.Mode) : Except SerializationError (IndexedDataTree Data) :=
  TBTKAssert (validate serialization "IndexedDataTree" mode = true)
    SerializationError.unableToParse
    (match mode with
    | .JSON =>
      match (serialization.atKey "indexIncluded").bind Json.getBool with
      | none => TBTKExit SerializationError.unableToParse
      | some indexIncluded =>
        match (serialization.atKey "data").bind format.get with
        | none => TBTKExit SerializationError.unableToParse
        | some data =>
          match h : serialization.atKey "children" with
          | none => .ok (mk [] indexIncluded data)
          | some children =>
            match pushBackAll (fun it => fromSerialization format validate it.1 .JSON)
              children.iterate.attach with
            | .error e => .error e
            | .ok children => .ok (mk children indexIncluded data)
    | _ => TBTKExit SerializationError.onlyJSONSupported)
termination_by sizeOf serialization
decreasing_by
  simp_wf
  obtain ⟨e, he⟩ := it
  have hlookup : ∀ (members : List (String × Json)) (v : Json),
      Json.lookup "children" members = some v → sizeOf v < sizeOf members := by
    intro members
    induction members with
    | nil => intro v hv; cases hv
    | cons m rest ih =>
      intro v hv
      obtain ⟨k, w⟩ := m
      simp only [Json.lookup] at hv
      split_ifs at hv
      · cases hv
        simp only [List.cons.sizeOf_spec, Prod.mk.sizeOf_spec]
        omega
      · have := ih v hv
        simp only [List.cons.sizeOf_spec, Prod.mk.sizeOf_spec]
        omega
  cases serialization with
  | object members =>
    simp only [Json.atKey] at h
    have h1 := hlookup members children h
    simp only [Json.object.sizeOf_spec]
    cases children with
    | null => cases he
    | boolean b => simp only [Json.iterate, List.mem_singleton] at he; subst he; omega
    | number n => simp only [Json.iterate, List.mem_singleton] at he; subst he; omega
    | string s => simp only [Json.iterate, List.mem_singleton] at he; subst he; omega
    | array elements =>
      simp only [Json.iterate] at he
      have := List.sizeOf_lt_of_mem he
      simp only [Json.array.sizeOf_spec] at h1
      omega
    | object members' =>
      simp only [Json.iterate, List.mem_map] at he
      obtain ⟨m, hm, rfl⟩ := he
      have := List.sizeOf_lt_of_mem hm
      obtain ⟨k, w⟩ := m
      simp only [Prod.mk.sizeOf_spec] at this
      simp only [Json.object.sizeOf_spec] at h1
      simp only
      omega
  | _ => simp [Json.atKey] at h

/-- A `validate` that accepts the JSON objects whose member `id` is the given string. -/
def exampleValidate (serialization : Json) (id : String) (mode : Serializeable.Mode) : Bool :=
  match mode, serialization.atKey "id" with
  | .JSON, some (.string s) => s == id
  | _, _ => false

/-- The condition on `validate` under which it accepts what `serialize` writes: a JSON object
whose member `id` is "IndexedDataTree" is valid for the id "IndexedDataTree" in `Mode::JSON`. -/
def AcceptsIndexedDataTree (validate : Json → String → Serializeable.Mode → Bool) : Prop :=
  ∀ members, Json.lookup "id" members = some (.string "IndexedDataTree") →
    validate (.object members) "IndexedDataTree" .JSON = true

/-- A tree of type `IndexedDataTree<int>` with the included Indices `{0}` and `{2, 1}` and a
placeholder node. -/
def exampleIntTree : IndexedDataTree Int :=
  mk [mk [] true 7, mk [] false 0, mk [mk [] false 0, mk [] true (-9)] false 0] false 0

/-- A tree of type `IndexedDataTree<bool>` with the included Index `{1}`. -/
def exampleBoolTree : IndexedDataTree Bool :=
  mk [mk [] false false, mk [] true true] false false

end IndexedDataTree

/-! ## ChebyshevExpander: the moment recursion -/

namespace Solver

/-- Modelled from the spec: the ways in which the operations of the `ChebyshevExpander` whose
code is not among the sources end the process (section 7): an invalid scale factor, an Index
that the basis does not resolve, and a reconstruction without a lookup table. -/
inductive ExpanderError where
  | invalidScaleFactor
  | unknownIndex
  | lookupTableNotGenerated
  deriving DecidableEq, Repr

/-- Modelled from the spec: the Hamiltonian/basis collaborator as the expander consumes it
(section 6), whose code is not among the sources: the basis
size, the index-to-basis-coordinate resolver (`none`: unknown Index), and the sparse-matrix-apply
primitive, which gives for a basis index `from` the list of the pairs (`to`, amplitude). -/
structure Model where
  basisSize : Nat
  getBasisIndex : Index → Option Nat
  hoppingAmplitudes : Nat → List (Nat × Cplx)

/-- A Hilbert-space vector: the dense complex array, as the map from a basis index to its
entry. -/
abbrev HilbertVector := Nat → Cplx

namespace Model

/-- The matrix element `<to|H|from>`: the sum of the amplitudes that the apply primitive lists
for `from` with target `to`. -/
def matrixElement (model : Model) (toBasisIndex fromBasisIndex : Nat) : Cplx :=
  (((model.hoppingAmplitudes fromBasisIndex).filter
    (fun ha => decide (ha.1 = toBasisIndex))).map Prod.snd).sum

end Model

/-- Modelled from the spec: the component ScaledHamiltonian (section 4.1), whose code
(`ChebyshevExpander.cpp`) is not among the sources: `apply(vectorIn) -> vectorOut` computes
`(H/a)·vectorIn`. -/
def ScaledHamiltonian.apply (model : Model) (a : ℚ) (vectorIn : HilbertVector) : HilbertVector :=
  fun c => ((List.range model.basisSize).map
    (fun k => (model.matrixElement c k / a) * vectorIn k)).sum

/-- Modelled from the spec: the component DampingMask (section 4.2), whose code is not among
the sources: `apply(vector) -> vector` multiplies each amplitude by its damping coefficient; an
absent mask is the identity. -/
def DampingMask.apply (damping : Option (Nat → Cplx)) (vector : HilbertVector) : HilbertVector :=
  match damping with
  | none => vector
  | some mask => fun c => mask c * vector c

namespace ChebyshevExpander

/-- Modelled from the spec: the operator `H̃` of section 4.3, "scaled Hamiltonian, optionally
damped": the damping mask is applied after the Hamiltonian application. -/
def applyHamiltonian (s : ChebyshevExpander) (model : Model) (v : HilbertVector) :
    HilbertVector :=
  DampingMask.apply s.damping (ScaledHamiltonian.apply model s.scaleFactor v)

/-- Modelled from the spec: the steps `v_{k+1} = 2 H̃ v_k - v_{k-1}` of section 4.3; `steps`
further vectors are produced from `v_{k-1}` and `v_k`.  The second component counts the
applications of the Hamiltonian: one for every step. -/
def recursionSteps (s : ChebyshevExpander) (model : Model) :
    Nat → HilbertVector → HilbertVector → List HilbertVector × Nat
  | 0, _, _ => ([], 0)
  | steps + 1, vPrevious, vCurrent =>
    let vNext : HilbertVector := fun c => s.applyHamiltonian model vCurrent c * (2 : ℚ) - vPrevious c
    let rest := recursionSteps s model steps vCurrent vNext
    (vNext :: rest.1, rest.2 + 1)

/-- Modelled from the spec: the vectors `v_0 = |from>`, `v_1 = H̃ v_0`, `v_{k+1} = 2 H̃ v_k -
v_{k-1}` of section 4.3 for `n = 0..N-1`, with the number of applications of the Hamiltonian;
for `N = 1` only `v_0` (no matrix application). -/
def recursionVectors (s : ChebyshevExpander) (model : Model) (fromBasisIndex : Nat) :
    Nat → List HilbertVector × Nat
  | 0 => ([], 0)
  | 1 => ([fun c => if c = fromBasisIndex then ⟨1, 0⟩ else 0], 0)
  | steps + 2 =>
    let v0 : HilbertVector := fun c => if c = fromBasisIndex then ⟨1, 0⟩ else 0
    let v1 : HilbertVector := s.applyHamiltonian model v0
    let rest := recursionSteps s model steps v0 v1
    (v0 :: v1 :: rest.1, rest.2 + 1)

/-- Modelled from the spec: the result of the moment recursion (section 4.3, "moment set" of
section 3), with the count of section 8: for every requested `to` Index the moments
`mu_0 .. mu_{N-1}`, and the number of applications of the Hamiltonian in the sweep. -/
structure Moments where
  coefficients : List (List Cplx)
  hamiltonianApplications : Nat

/-- Modelled from the spec: the resolver applied to the `to` Indices in turn; an unknown Index
ends the process (sections 4.3 and 6). -/
def resolveAll (model : Model) : List Index → Except ExpanderError (List Nat)
  | [] => .ok []
  | index :: rest =>
    match model.getBasisIndex index with
    | none => .error .unknownIndex
    | some basisIndex =>
      match resolveAll model rest with
      | .error e => .error e
      | .ok basisIndices => .ok (basisIndex :: basisIndices)

/-- Modelled from the spec: `ChebyshevExpander::calculateCoefficients(to, from, coefficients,
numCoefficients)`, whose code (`ChebyshevExpander.cpp`) is not among the sources; only its
declaration is (section 4.3, MomentRecursion).  One sweep of the recursion for the `from` Index;
the moment `mu_n(to) = <to|v_n>` is taken for every requested `to` at every step.  A zero scale
factor (section 4.1) and an Index that does not resolve (section 4.3) are fatal.  The broadening
is applied later, not in the recursion. -/
def calculateCoefficients (s : ChebyshevExpander) (model : Model) (toIndices : List Index)
    (fromIndex : Index) (numCoefficients : Nat) : Except ExpanderError Moments :=
  if s.scaleFactor = 0 then .error .invalidScaleFactor
  else
    match model.getBasisIndex fromIndex with
    | none => .error .unknownIndex
    | some fromBasisIndex =>
      match resolveAll model toIndices with
      | .error e => .error e
      | .ok toBasisIndices =>
        let sweep := recursionVectors s model fromBasisIndex numCoefficients
        .ok ⟨toBasisIndices.map (fun toBasisIndex => sweep.1.map (fun v => v toBasisIndex)),
          sweep.2⟩

/-- A model with one basis state, resolved from the Index `{0}`, and `<0|H|0> = 1`. -/
def exampleModel : Model where
  basisSize := 1
  getBasisIndex := fun index => if index = [0] then some 0 else none
  hoppingAmplitudes := fun _ => [(0, ⟨1, 0⟩)]

/-- The example expander with the damping mask `1/2` on every basis state. -/
def exampleExpanderWithDamping : ChebyshevExpander :=
  exampleExpander.setDamping (some (fun _ => ⟨1 / 2, 0⟩))

end ChebyshevExpander
end Solver

/-! ## ChebyshevExpander: lookup table and reconstruction -/

namespace Solver

/-- Modelled from the spec: the analytic kernel of the reconstruction (sections 4.4 and 4.5),
whose code is not among the sources and whose formula the spec does not spell out; it is a
parameter here: `generatingFunction a N resolution lowerBound upperBound
n e` is the value `G_n(E_e)` of the retarded generating function, Jackson-kernel coefficient
included, for scale factor `a` at the `e`-th of the `resolution` energies of `[lowerBound,
upperBound]`; `advanced` is the symmetric construction that makes the value of the advanced
kernel from it. -/
structure Kernel where
  generatingFunction : ℚ → Int → Int → ℚ → ℚ → Nat → Nat → Cplx
  advanced : Cplx → Cplx

/-- The enumeration `ChebyshevExpander::Type`. -/
inductive ChebyshevExpander.Type where
  | Advanced
  | Retarded
  | Principal
  | NonPrincipal
  deriving DecidableEq, Repr

namespace ChebyshevExpander

/-- Modelled from the spec: `ChebyshevExpander::generateLookupTable(numCoefficients,
energyResolution, lowerBound, upperBound)`, whose code (`ChebyshevExpander.cpp`) is not among
the sources (section 4.4): the table of the values `G_n(E)` for `n = 0..N-1` over the
`energyResolution` energies is computed for the current scale factor and replaces any existing
table, together with its key; the accelerator mirror is invalidated (section 3). -/
def generateLookupTable (s : ChebyshevExpander) (kernel : Kernel) (numCoefficients : Int)
    (energyResolution : Int) (lowerBound upperBound : ℚ) : ChebyshevExpander :=
  { s with
    generatingFunctionLookupTable := some ((List.range numCoefficients.toNat).map (fun n =>
      (List.range energyResolution.toNat).map (fun e =>
        kernel.generatingFunction s.scaleFactor numCoefficients energyResolution lowerBound
          upperBound n e)))
    generatingFunctionLookupTable_device := none
    lookupTableNumCoefficients := numCoefficients
    lookupTableResolution := energyResolution
    lookupTableLowerBound := lowerBound
    lookupTableUpperBound := upperBound }

/-- Modelled from the spec: `ChebyshevExpander::destroyLookupTable()`, whose code is not among
the sources (section 4.4): the table is released; the accelerator mirror is invalidated
(section 3). -/
def destroyLookupTable (s : ChebyshevExpander) : ChebyshevExpander :=
  { s with
    generatingFunctionLookupTable := none
    generatingFunctionLookupTable_device := none }

/-- Modelled from the spec: the combination of the moments with the kernel values
`generatingFunction n e` (section 4.5), the same for the direct and for the table path.
Retarded: the moments with the retarded kernel; Advanced: the same with the advanced kernel;
Principal: `(Advanced + Retarded) / 2` and NonPrincipal: `(Advanced - Retarded) / 2`,
elementwise. -/
def reconstruct (kernel : Kernel) (generatingFunction : Nat → Nat → Cplx)
    (coefficients : List Cplx) (numCoefficients energyResolution : Nat) :
    ChebyshevExpander.Type → List Cplx
  | .Retarded => (List.range energyResolution).map (fun e =>
      ((List.range numCoefficients).map (fun n =>
        coefficients.getD n 0 * generatingFunction n e)).sum)
  | .Advanced => (List.range energyResolution).map (fun e =>
      ((List.range numCoefficients).map (fun n =>
        coefficients.getD n 0 * kernel.advanced (generatingFunction n e))).sum)
  | .Principal => (List.range energyResolution).map (fun e =>
      (((List.range numCoefficients).map (fun n =>
          coefficients.getD n 0 * kernel.advanced (generatingFunction n e))).sum +
        ((List.range numCoefficients).map (fun n =>
          coefficients.getD n 0 * generatingFunction n e)).sum) / (2 : ℚ))
  | .NonPrincipal => (List.range energyResolution).map (fun e =>
      (((List.range numCoefficients).map (fun n =>
          coefficients.getD n 0 * kernel.advanced (generatingFunction n e))).sum -
        ((List.range numCoefficients).map (fun n =>
          coefficients.getD n 0 * generatingFunction n e)).sum) / (2 : ℚ))

/-- Modelled from the spec: the direct `ChebyshevExpander::generateGreensFunction(coefficients,
numCoefficients, energyResolution, lowerBound, upperBound, type)`, whose code is not among the
sources (section 4.5): the caller supplies bounds and resolution, the kernel is evaluated for
them, and the dense array of `energyResolution` values is returned. -/
def generateGreensFunction (s : ChebyshevExpander) (kernel : Kernel) (coefficients : List Cplx)
    (numCoefficients energyResolution : Int) (lowerBound upperBound : ℚ)
    (type : ChebyshevExpander.Type) : Except ExpanderError (List Cplx) :=
  .ok (reconstruct kernel
    (kernel.generatingFunction s.scaleFactor numCoefficients energyResolution lowerBound
      upperBound)
    coefficients numCoefficients.toNat energyResolution.toNat type)

/-- Modelled from the spec: the table-based overload `ChebyshevExpander::generateGreensFunction(
coefficients, type)`, whose code is not among the sources (sections 4.4 and 4.5).  Its
declaration has the two parameters `coefficients` and `type` and no key: "numCoefficients and
energyResolution are here the values specified in the call to
ChebyshevExpander::generateLookupTable", that is the members `lookupTableNumCoefficients` and
`lookupTableResolution`.  The call is fatal when no table is generated; otherwise the moments
are combined with the entries of the table, for the number of coefficients and the energy
resolution of the table. -/
def generateGreensFunctionWithLookupTable (s : ChebyshevExpander) (kernel : Kernel)
    (coefficients : List Cplx) (type : ChebyshevExpander.Type) :
    Except ExpanderError (List Cplx) :=
  match s.generatingFunctionLookupTable with
  | none => .error .lookupTableNotGenerated
  | some table =>
    .ok (reconstruct kernel (fun n e => (table.getD n []).getD e 0) coefficients
      s.lookupTableNumCoefficients.toNat s.lookupTableResolution.toNat type)

/-- A kernel for the examples: `G_n(E_e) = (n + 1) + i (e + 1) / a`, and complex conjugation. -/
def exampleKernel : Kernel where
  generatingFunction := fun a _ _ _ _ n e => ⟨n + 1, (e + 1) / a⟩
  advanced := Cplx.conj

end ChebyshevExpander
end Solver

/-! ## Energy bins: the density of states and the bins of the Green's function -/

namespace Property

/-- The class `Property::DOS`, as far as `calculateDOS` uses it: the array `data` of `double`
(the source of the class is not embedded). -/
structure DOS where
  data : List ℚ
  deriving DecidableEq

end Property

namespace APropertyExtractor

/-- The bin of an eigenvalue in `calculateDOS`:
`int e = (int)(((real(ev[n]) - lowerBound)/(upperBound - lowerBound))*energyResolution);`. -/
def dosBin (pe : APropertyExtractor) (ev : Cplx) : Int :=
  PropertyExtractor.toInt pe.indefinite
    ((PropertyExtractor.divide (ev.re - pe.lowerBound) (pe.upperBound - pe.lowerBound)).map
      (fun q => q * (pe.energyResolution : ℚ)))

/-- One round of the loop of `calculateDOS` over the eigenvalues: the bin `e` of `ev[n]` and
`if(e >= 0 && e < energyResolution){ dos->data[e] += 1.; }`. -/
def countEigenValue (pe : APropertyExtractor) (data : List ℚ) (n : Nat) : List ℚ :=
  let e := pe.dosBin (pe.getEigenValues n)
  if 0 ≤ e ∧ e < pe.energyResolution then data.set e.toNat (data.getD e.toNat 0 + 1)
  else data

/-- The function `APropertyExtractor::calculateDOS()`.  `dos` is the object that
`new Property::DOS(lowerBound, upperBound, energyResolution)` has built; the loop
`for(int n = 0; n < aSolver->getNumEigenValues(); n++)` runs over it and the object is
returned. -/
def calculateDOS (pe : APropertyExtractor) (dos : Property.DOS) : Property.DOS :=
  { dos with
    data := (List.range pe.getNumEigenValues.toNat).foldl pe.countEigenValue dos.data }

/-- An extractor on the window `[-2, 2)` with four bins (bin width 1) whose solver holds the
single eigenvalue -5/2, which lies below the window. -/
def exampleBelowWindow : APropertyExtractor where
  lowerBound := -2
  upperBound := 2
  energyResolution := 4
  getNumEigenValues := 1
  getEigenValues := fun _ => ⟨-5 / 2, 0⟩
  indefinite := -2147483648

end APropertyExtractor

namespace PropertyExtractor

/-- The extractor `exampleExtractor` (window `[-2, 2)`, four bins of width 1, ground state energy
0) with the state of subspace 1 at energy 5/2: its excitation energy in the Advanced branch is
-5/2, which lies below the window. -/
def exampleExtractorBelowWindow : ExactDiagonalizer :=
  { exampleExtractor with getEigenValue := fun _ subspace _ => 5 / 2 * (subspace : ℚ) }

end PropertyExtractor

/-! # Theorems -/

/-! ## IndexedDataTree -/

namespace IndexedDataTree

variable {Data : Type}

theorem addRec_nil [Inhabited Data] (d : Data) (t : IndexedDataTree Data) :
    addRec d [] t =
      if t.children.length = 0 then .ok (mk t.children true d)
      else .error .longerIndexAdded := by
  simp only [addRec, TBTKAssert]

theorem addRec_cons [Inhabited Data] (d : Data) (c : Int) (rest : Index)
    (t : IndexedDataTree Data) :
    addRec d (c :: rest) t =
      if c < 0 then .error .negativeIndex
      else
        match pushEmptyNodes t.children c with
        | .error e => .error e
        | .ok children =>
          if t.indexIncluded then .error .shorterIndexAdded
          else
            match children[c.toNat]? with
            | none => .error .outOfRange
            | some child =>
              match addRec d rest child with
              | .error e => .error e
              | .ok child' => .ok (mk (children.set c.toNat child') t.indexIncluded t.data) := by
  simp only [addRec, TBTKAssert]
  by_cases hc : c < 0
  · rw [if_neg (by omega), if_pos hc]
  · rw [if_pos (by omega), if_neg hc]
    cases pushEmptyNodes t.children c with
    | error e => rfl
    | ok children => cases hinc : t.indexIncluded <;> simp

theorem getRec_nil (d0 : Data) (t : IndexedDataTree Data) :
    getRec d0 [] t = if t.indexIncluded then .ok (true, t.data) else .ok (false, d0) := by
  simp only [getRec]

theorem getRec_cons (d0 : Data) (c : Int) (rest : Index) (t : IndexedDataTree Data) :
    getRec d0 (c :: rest) t =
      if c < 0 then .error .negativeIndex
      else if t.children.length ≤ c.toNat then .ok (false, d0)
      else
        match t.children[c.toNat]? with
        | none => .error .outOfRange
        | some child => getRec d0 rest child := by
  simp only [getRec, TBTKAssert]
  by_cases hc : c < 0
  · rw [if_neg (by omega), if_pos hc]
  · rw [if_pos (by omega), if_neg hc]

@[simp] theorem children_mk (c : List (IndexedDataTree Data)) (b : Bool) (d : Data) :
    (mk c b d).children = c := rfl

@[simp] theorem indexIncluded_mk (c : List (IndexedDataTree Data)) (b : Bool) (d : Data) :
    (mk c b d).indexIncluded = b := rfl

@[simp] theorem data_mk (c : List (IndexedDataTree Data)) (b : Bool) (d : Data) :
    (mk c b d).data = d := rfl

/-- The loop that creates the empty nodes finishes for a subindex below `INT_MAX`. -/
theorem pushEmptyNodes_of_lt [Inhabited Data] (cs : List (IndexedDataTree Data)) (c : Int)
    (hlt : c < 2147483647) : ∃ cs', pushEmptyNodes cs c = .ok cs' := by
  unfold pushEmptyNodes
  split_ifs with h
  · exact ⟨_, rfl⟩
  · exact ⟨_, rfl⟩

/-- No node is created when the node has a child at the position of the subindex. -/
theorem pushEmptyNodes_of_lt_length [Inhabited Data] (cs : List (IndexedDataTree Data)) (c : Int)
    (h : c.toNat < cs.length) : pushEmptyNodes cs c = .ok cs := by
  unfold pushEmptyNodes
  rw [if_neg (by omega)]

/-- The loop that creates the empty nodes does not finish exactly when it is entered with a
subindex that is not below `INT_MAX`. -/
theorem pushEmptyNodes_error_iff [Inhabited Data] (cs : List (IndexedDataTree Data)) (c : Int) :
    (∃ e, pushEmptyNodes cs c = .error e) ↔ ((cs.length : Int) ≤ c ∧ 2147483647 ≤ c) := by
  unfold pushEmptyNodes
  split_ifs with h1 h2
  · simp only [exists_false, false_iff, not_and, not_le]
    exact fun _ => h2
  · simp only [Except.error.injEq, exists_eq', true_iff]
    exact ⟨h1, by omega⟩
  · simp only [exists_false, false_iff, not_and, not_le]
    intro h
    exact absurd h h1

theorem pushEmptyNodes_error [Inhabited Data] {cs : List (IndexedDataTree Data)} {c : Int}
    {e : TreeError} (h : pushEmptyNodes cs c = .error e) : e = .emptyNodesLoop := by
  unfold pushEmptyNodes at h
  split_ifs at h
  injection h with h
  exact h.symm

theorem pushEmptyNodes_length_gt [Inhabited Data] {cs cs' : List (IndexedDataTree Data)} {c : Int}
    (hc : 0 ≤ c) (h : pushEmptyNodes cs c = .ok cs') : c.toNat < cs'.length := by
  unfold pushEmptyNodes at h
  split_ifs at h with h1 h2
  · injection h with h
    subst h
    simp only [List.length_append, List.length_replicate]; omega
  · injection h with h
    subst h
    omega

theorem pushEmptyNodes_getElem? [Inhabited Data] {cs cs' : List (IndexedDataTree Data)} {c : Int}
    (hc : 0 ≤ c) (h : pushEmptyNodes cs c = .ok cs') (m : Nat) :
    cs'[m]? = if m < cs.length then cs[m]? else if m ≤ c.toNat then some new else none := by
  unfold pushEmptyNodes at h
  split_ifs at h with h1 h2
  · injection h with h
    subst h
    split_ifs with h3 h4
    · exact List.getElem?_append_left h3
    · rw [List.getElem?_append_right (by omega), List.getElem?_replicate]
      rw [if_pos (by omega)]
    · rw [List.getElem?_append_right (by omega), List.getElem?_replicate]
      rw [if_neg (by omega)]
  · injection h with h
    subst h
    split_ifs with h3 h4
    · rfl
    · omega
    · rw [List.getElem?_eq_none (by omega)]

/-- Unfolding of `addRec` at a non-empty list of subindices, when it returns. -/
theorem addRec_cons_ok [Inhabited Data] {d : Data} {c : Int} {rest : Index}
    {t t' : IndexedDataTree Data} (h : addRec d (c :: rest) t = .ok t') :
    0 ≤ c ∧ t.indexIncluded = false ∧
      ∃ cs' child child', pushEmptyNodes t.children c = .ok cs' ∧ cs'[c.toNat]? = some child ∧
        addRec d rest child = .ok child' ∧
        t' = mk (cs'.set c.toNat child') t.indexIncluded t.data := by
  rw [addRec_cons] at h
  by_cases h1 : c < 0
  · rw [if_pos h1] at h
    cases h
  · rw [if_neg h1] at h
    have h3 : 0 ≤ c := by omega
    cases hcs : pushEmptyNodes t.children c with
    | error e =>
      rw [hcs] at h
      cases h
    | ok cs' =>
      rw [hcs] at h
      simp only at h
      split_ifs at h with h2
      refine ⟨h3, by simpa using h2, ?_⟩
      split at h
      · cases h
      · rename_i child hchild
        split at h
        · cases h
        · rename_i child' hchild'
          refine ⟨cs', child, child', rfl, hchild, hchild', ?_⟩
          injection h with h
          exact h.symm

theorem getRec_addRec [Inhabited Data] (d : Data) (i : Index) :
    ∀ (t t' : IndexedDataTree Data), addRec d i t = .ok t' →
      ∀ d0, getRec d0 i t' = .ok (true, d) := by
  induction i with
  | nil =>
    intro t t' h d0
    simp only [addRec_nil, addRec_cons] at h
    split_ifs at h
    injection h with h
    subst h
    simp [getRec_nil, getRec_cons]
  | cons c rest ih =>
    intro t t' h d0
    obtain ⟨hc, _, cs', child, child', hcs, hchild, hrec, rfl⟩ := addRec_cons_ok h
    have hlen := pushEmptyNodes_length_gt hc hcs
    simp only [getRec_nil, getRec_cons, children_mk]
    rw [if_neg (by omega), if_neg (by simp only [List.length_set]; omega)]
    simp only [List.getElem?_set_self hlen]
    exact ih child child' hrec d0

theorem pushEmptyNodes_length [Inhabited Data] {cs cs' : List (IndexedDataTree Data)} {c : Int}
    (hc : 0 ≤ c) (h : pushEmptyNodes cs c = .ok cs') :
    cs'.length = max cs.length (c.toNat + 1) := by
  unfold pushEmptyNodes at h
  split_ifs at h with h1 h2
  · injection h with h
    subst h
    simp only [List.length_append, List.length_replicate]; omega
  · injection h with h
    subst h
    omega

/-- A node without children that is not marked as included answers `false` to every `get` with
non-negative subindices and leaves the reference parameter untouched. -/
theorem getRec_of_no_children (d0 : Data) :
    ∀ (j : Index) (t : IndexedDataTree Data), t.children = [] → t.indexIncluded = false →
      (∀ k ∈ j, (0 : Int) ≤ k) → getRec d0 j t = .ok (false, d0)
  | [], t, _, hinc, _ => by simp [getRec_nil, getRec_cons, hinc]
  | c :: rest, t, hch, _, hj => by
    have hc : (0 : Int) ≤ c := hj c (List.mem_cons_self _ _)
    simp only [getRec_nil, getRec_cons]
    rw [if_neg (by omega), if_pos (by simp [hch])]

theorem getRec_new [Inhabited Data] (d0 : Data) (j : Index) (hj : ∀ k ∈ j, (0 : Int) ≤ k) :
    getRec d0 j (new : IndexedDataTree Data) = .ok (false, d0) :=
  getRec_of_no_children d0 j new rfl rfl hj

theorem getRec_addRec_of_ne [Inhabited Data] (d : Data) (i : Index) :
    ∀ (t t' : IndexedDataTree Data) (j : Index), i ≠ j → (∀ k ∈ j, (0 : Int) ≤ k) →
      addRec d i t = .ok t' → ∀ d0, getRec d0 j t' = getRec d0 j t := by
  induction i with
  | nil =>
    intro t t' j hne hj h d0
    simp only [addRec_nil, addRec_cons] at h
    split_ifs at h with hlen
    injection h with h
    subst h
    cases j with
    | nil => exact absurd rfl hne
    | cons c2 rest2 =>
      have hc2 : ¬ c2 < 0 := not_lt.mpr (hj c2 (List.mem_cons_self _ _))
      have h0 : t.children.length ≤ c2.toNat := by omega
      simp only [getRec_nil, getRec_cons, children_mk, hc2, h0, if_true, if_false]
  | cons c rest ih =>
    intro t t' j hne hj h d0
    obtain ⟨hc, hinc, cs', child, child', hcs, hchild, hrec, rfl⟩ := addRec_cons_ok h
    have hlen := pushEmptyNodes_length hc hcs
    cases j with
    | nil => simp [getRec_nil, getRec_cons]
    | cons c2 rest2 =>
      have hc2 : ¬ c2 < 0 := not_lt.mpr (hj c2 (List.mem_cons_self _ _))
      have hrest2 : ∀ k ∈ rest2, (0 : Int) ≤ k := fun k hk => hj k (List.mem_cons_of_mem _ hk)
      simp only [getRec_nil, getRec_cons, children_mk, List.length_set, hc2, if_false]
      by_cases hcc : c2 = c
      · subst hcc
        have hr : rest ≠ rest2 := fun e => hne (by rw [e])
        have e1 : ¬ cs'.length ≤ c2.toNat := by omega
        simp only [e1, if_false, List.getElem?_set_self (not_le.mp e1)]
        rw [ih child child' rest2 hr hrest2 hrec d0]
        rw [pushEmptyNodes_getElem? hc hcs] at hchild
        by_cases h1 : t.children.length ≤ c2.toNat
        · have e2 : ¬ c2.toNat < t.children.length := by omega
          simp only [e2, if_false, le_refl, if_true, Option.some.injEq] at hchild
          subst hchild
          simp only [h1, if_true]
          exact getRec_new d0 rest2 hrest2
        · have e2 : c2.toNat < t.children.length := by omega
          simp only [e2, if_true] at hchild
          simp only [h1, if_false, hchild]
      · have hkm : c.toNat ≠ c2.toNat := by omega
        rw [List.getElem?_set_ne hkm, pushEmptyNodes_getElem? hc hcs]
        by_cases h1 : c2.toNat < t.children.length
        · have e1 : ¬ cs'.length ≤ c2.toNat := by omega
          have e2 : ¬ t.children.length ≤ c2.toNat := by omega
          simp only [e1, e2, h1, if_true, if_false]
        · have e2 : t.children.length ≤ c2.toNat := by omega
          by_cases h2 : c2.toNat ≤ c.toNat
          · have e1 : ¬ cs'.length ≤ c2.toNat := by omega
            simp only [e1, e2, h1, h2, if_true, if_false]
            exact getRec_new d0 rest2 hrest2
          · have e1 : cs'.length ≤ c2.toNat := by omega
            simp only [e1, e2, if_true]

theorem getRec_new_ne_true [Inhabited Data] (d0 x : Data) (j : Index) :
    getRec d0 j (new : IndexedDataTree Data) ≠ .ok (true, x) := by
  cases j with
  | nil => simp [getRec_nil, getRec_cons, new]
  | cons c rest =>
    simp only [getRec_nil, getRec_cons, new, children_mk, List.length_nil, Nat.zero_le, if_true]
    split_ifs <;> simp

/-- The child into which `addRec` descends: the old child when there is one at that position,
a fresh node otherwise. -/
theorem pushEmptyNodes_getElem?_self [Inhabited Data] {cs cs' : List (IndexedDataTree Data)}
    {c : Int} (hc : 0 ≤ c) (h : pushEmptyNodes cs c = .ok cs') :
    cs'[c.toNat]? = some (if h : c.toNat < cs.length then cs[c.toNat] else new) := by
  rw [pushEmptyNodes_getElem? hc h]
  by_cases h : c.toNat < cs.length
  · simp only [h, if_true, dite_true]
    exact List.getElem?_eq_getElem h
  · simp only [h, if_false, dite_false, le_refl, if_true]

/-- Unfolding of `addRec` at a non-negative head subindex for which the loop that creates the
empty nodes finishes. -/
theorem addRec_cons_of_nonneg [Inhabited Data] (d : Data) (c : Int) (rest : Index)
    (t : IndexedDataTree Data) (hc : 0 ≤ c) {cs' : List (IndexedDataTree Data)}
    (hcs : pushEmptyNodes t.children c = .ok cs') :
    addRec d (c :: rest) t =
      if t.indexIncluded then .error .shorterIndexAdded
      else
        match addRec d rest (if h : c.toNat < t.children.length then t.children[c.toNat] else new)
        with
        | .error e => .error e
        | .ok child' => .ok (mk (cs'.set c.toNat child') t.indexIncluded t.data) := by
  simp only [addRec_nil, addRec_cons, not_lt.mpr hc, if_false, hcs,
    pushEmptyNodes_getElem?_self hc hcs]

/-- At a non-negative head subindex for which the loop that creates the empty nodes does not
finish, `addRec` does not get past the loop. -/
theorem addRec_cons_of_loop [Inhabited Data] (d : Data) (c : Int) (rest : Index)
    (t : IndexedDataTree Data) (hc : 0 ≤ c) {e : TreeError}
    (hcs : pushEmptyNodes t.children c = .error e) :
    addRec d (c :: rest) t = .error .emptyNodesLoop := by
  simp only [addRec_nil, addRec_cons, not_lt.mpr hc, if_false, hcs, pushEmptyNodes_error hcs]

/-- Unfolding of `getRec` at a non-negative head subindex. -/
theorem getRec_cons_of_nonneg (d0 : Data) (c : Int) (rest : Index)
    (t : IndexedDataTree Data) (hc : 0 ≤ c) :
    getRec d0 (c :: rest) t =
      if h : c.toNat < t.children.length then getRec d0 rest t.children[c.toNat]
      else .ok (false, d0) := by
  simp only [getRec_nil, getRec_cons, not_lt.mpr hc, if_false]
  split_ifs with h1 h2 h2
  · omega
  · rfl
  · rw [List.getElem?_eq_getElem h2]
  · omega

/-- With a negative subindex `addRec` returns no tree. -/
theorem addRec_negative_error [Inhabited Data] (d : Data) (i : Index) :
    ∀ (t : IndexedDataTree Data), (∃ k ∈ i, k < 0) → ∃ e, addRec d i t = .error e := by
  induction i with
  | nil => intro t h; obtain ⟨k, hk, _⟩ := h; cases hk
  | cons c rest ih =>
    intro t h
    by_cases hc : c < 0
    · exact ⟨.negativeIndex, by simp [addRec_nil, addRec_cons, hc]⟩
    · have hc' : 0 ≤ c := by omega
      have hrest : ∃ k ∈ rest, k < 0 := by
        obtain ⟨k, hk, hk0⟩ := h
        rcases List.mem_cons.mp hk with rfl | hk
        · exact absurd hk0 hc
        · exact ⟨k, hk, hk0⟩
      cases hcs : pushEmptyNodes t.children c with
      | error e => exact ⟨_, addRec_cons_of_loop d c rest t hc' hcs⟩
      | ok cs' =>
        rw [addRec_cons_of_nonneg d c rest t hc' hcs]
        by_cases hinc : t.indexIncluded = true
        · rw [if_pos hinc]
          exact ⟨_, rfl⟩
        · rw [if_neg hinc]
          obtain ⟨e, he⟩ := ih (if h : c.toNat < t.children.length then t.children[c.toNat]
            else new) hrest
          rw [he]
          exact ⟨e, rfl⟩

/-- With a negative subindex, and every subindex before the first negative one below `INT_MAX`,
`addRec` ends with "Negative indices not allowed" or with "Incompatible indices". -/
theorem addRec_negative [Inhabited Data] (d d0 : Data) (i : Index) :
    ∀ (t : IndexedDataTree Data), (∃ k ∈ i, k < 0) →
      (∀ k ∈ i.takeWhile (fun k => decide (0 ≤ k)), k < 2147483647) →
      (addRec d i t = .error .negativeIndex ∨ addRec d i t = .error .shorterIndexAdded) ∧
      (addRec d i t = .error .shorterIndexAdded ↔
        ∃ p, p < (i.takeWhile (fun k => decide (0 ≤ k))).length ∧
          ∃ x, getRec d0 (i.take p) t = .ok (true, x)) := by
  induction i with
  | nil => intro t h; obtain ⟨k, hk, _⟩ := h; cases hk
  | cons c rest ih =>
    intro t h hsmall
    by_cases hc : c < 0
    · have e : addRec d (c :: rest) t = .error .negativeIndex := by simp [addRec_nil, addRec_cons, hc]
      rw [e]
      refine ⟨Or.inl rfl, ?_⟩
      have : ¬ (0 ≤ c) := by omega
      simp [List.takeWhile_cons, this]
    · have hc' : 0 ≤ c := by omega
      have hrest : ∃ k ∈ rest, k < 0 := by
        obtain ⟨k, hk, hk0⟩ := h
        rcases List.mem_cons.mp hk with rfl | hk
        · exact absurd hk0 hc
        · exact ⟨k, hk, hk0⟩
      have htw : (c :: rest).takeWhile (fun k => decide (0 ≤ k)) =
          c :: rest.takeWhile (fun k => decide (0 ≤ k)) := by
        simp [List.takeWhile_cons, hc']
      rw [htw] at hsmall
      have hlt : c < 2147483647 := hsmall c (List.mem_cons_self _ _)
      have hsmallRest : ∀ k ∈ rest.takeWhile (fun k => decide (0 ≤ k)), k < 2147483647 :=
        fun k hk => hsmall k (List.mem_cons_of_mem _ hk)
      obtain ⟨cs', hcs⟩ := pushEmptyNodes_of_lt t.children c hlt
      rw [addRec_cons_of_nonneg d c rest t hc' hcs]
      by_cases hinc : t.indexIncluded = true
      · simp only [hinc, if_true, true_iff, or_true, true_and]
        refine ⟨0, by simp [List.takeWhile_cons, hc'], t.data, ?_⟩
        simp [getRec_nil, getRec_cons, hinc]
      · have hinc' : t.indexIncluded = false := by simpa using hinc
        rw [if_neg hinc]
        obtain ⟨h1, h2⟩ := ih (if h : c.toNat < t.children.length then t.children[c.toNat]
          else new) hrest hsmallRest
        have e : ∀ (r : Except TreeError (IndexedDataTree Data)) (err : TreeError),
            ((match r with
              | .error e => Except.error e
              | .ok child' => Except.ok (mk (cs'.set c.toNat
                  child') t.indexIncluded t.data)) = .error err ↔ r = .error err) := by
          intro r err; cases r <;> simp
        constructor
        · rcases h1 with h1 | h1
          · exact Or.inl ((e _ _).mpr h1)
          · exact Or.inr ((e _ _).mpr h1)
        · rw [e, h2]
          simp only [List.takeWhile_cons, hc', decide_True, if_true, List.length_cons]
          constructor
          · rintro ⟨p, hp, x, hx⟩
            refine ⟨p + 1, by omega, x, ?_⟩
            rw [List.take_succ_cons, getRec_cons_of_nonneg _ _ _ _ hc']
            split_ifs with hk
            · simpa [hk] using hx
            · simp only [hk, dite_false] at hx
              exact absurd hx (getRec_new_ne_true _ _ _)
          · rintro ⟨p, hp, x, hx⟩
            cases p with
            | zero => simp [getRec_nil, getRec_cons, hinc'] at hx
            | succ p =>
              refine ⟨p, by omega, x, ?_⟩
              rw [List.take_succ_cons, getRec_cons_of_nonneg _ _ _ _ hc'] at hx
              split_ifs at hx with hk
              · simpa [hk] using hx
              · simp at hx

theorem getRec_negative (d0 : Data) (i : Index) :
    ∀ (t : IndexedDataTree Data), (∃ k ∈ i, k < 0) →
      getRec d0 i t =
        if (nodeAt (i.takeWhile (fun k => decide (0 ≤ k))) t).isSome then .error .negativeIndex
        else .ok (false, d0) := by
  induction i with
  | nil => intro t h; obtain ⟨k, hk, _⟩ := h; cases hk
  | cons c rest ih =>
    intro t h
    by_cases hc : c < 0
    · have : ¬ (0 ≤ c) := by omega
      simp [getRec_nil, getRec_cons, hc, List.takeWhile_cons, this, nodeAt]
    · have hc' : 0 ≤ c := by omega
      have hrest : ∃ k ∈ rest, k < 0 := by
        obtain ⟨k, hk, hk0⟩ := h
        rcases List.mem_cons.mp hk with rfl | hk
        · exact absurd hk0 hc
        · exact ⟨k, hk, hk0⟩
      rw [getRec_cons_of_nonneg _ _ _ _ hc']
      simp only [List.takeWhile_cons, hc', decide_True, if_true, nodeAt, hc, if_false]
      split_ifs with hk h2 h2
      · rw [ih _ hrest, if_pos]
        simpa [List.getElem?_eq_getElem hk] using h2
      · rw [ih _ hrest, if_neg]
        simpa [List.getElem?_eq_getElem hk] using h2
      · rw [List.getElem?_eq_none (by omega)] at h2
        simp at h2
      · rfl

theorem addRec_of_no_children [Inhabited Data] (d : Data) (i : Index) :
    ∀ (t : IndexedDataTree Data), t.children = [] → t.indexIncluded = false →
      (∀ k ∈ i, (0 : Int) ≤ k) → (∀ k ∈ i, k < 2147483647) → ∃ t', addRec d i t = .ok t' := by
  induction i with
  | nil => intro t hch _ _ _; exact ⟨mk t.children true d, by simp [addRec_nil, addRec_cons, hch]⟩
  | cons c rest ih =>
    intro t hch hinc hi hlt
    have hc : (0 : Int) ≤ c := hi c (List.mem_cons_self _ _)
    obtain ⟨cs', hcs⟩ := pushEmptyNodes_of_lt t.children c (hlt c (List.mem_cons_self _ _))
    rw [addRec_cons_of_nonneg d c rest t hc hcs]
    simp only [hinc, hch, List.length_nil, Nat.not_lt_zero, dite_false]
    obtain ⟨t', ht'⟩ := ih new rfl rfl (fun k hk => hi k (List.mem_cons_of_mem _ hk))
      (fun k hk => hlt k (List.mem_cons_of_mem _ hk))
    rw [ht']
    exact ⟨_, rfl⟩

/-- Unfolding of `nodeAt` at a non-negative head subindex. -/
theorem nodeAt_cons_of_nonneg (c : Int) (rest : Index) (t : IndexedDataTree Data) (hc : 0 ≤ c) :
    nodeAt (c :: rest) t =
      if h : c.toNat < t.children.length then nodeAt rest t.children[c.toNat] else none := by
  simp only [nodeAt, not_lt.mpr hc, if_false]
  split_ifs with h
  · rw [List.getElem?_eq_getElem h]
  · rw [List.getElem?_eq_none (by omega)]

theorem nodeAt_cons_of_neg (c : Int) (rest : Index) (t : IndexedDataTree Data) (hc : c < 0) :
    nodeAt (c :: rest) t = none := by
  simp [nodeAt, hc]

/-- The Index `j` is included exactly when the node it addresses exists and is marked. -/
theorem getRec_eq_true_iff (d0 x : Data) (j : Index) :
    ∀ (t : IndexedDataTree Data), getRec d0 j t = .ok (true, x) ↔
      ∃ n, nodeAt j t = some n ∧ n.indexIncluded = true ∧ n.data = x := by
  induction j with
  | nil =>
    intro t
    simp only [getRec_nil, getRec_cons, nodeAt, Option.some.injEq, exists_eq_left']
    split_ifs with h <;> simp [h]
  | cons c rest ih =>
    intro t
    by_cases hc : c < 0
    · simp [getRec_nil, getRec_cons, hc, nodeAt]
    · have hc' : 0 ≤ c := by omega
      rw [getRec_cons_of_nonneg _ _ _ _ hc', nodeAt_cons_of_nonneg _ _ _ hc']
      split_ifs with h
      · exact ih _
      · simp

theorem nodeAt_append (i j : Index) :
    ∀ (t : IndexedDataTree Data), nodeAt (i ++ j) t = (nodeAt i t).bind (nodeAt j) := by
  induction i with
  | nil => intro t; rfl
  | cons c rest ih =>
    intro t
    by_cases hc : c < 0
    · simp [nodeAt, hc]
    · have hc' : 0 ≤ c := by omega
      rw [List.cons_append, nodeAt_cons_of_nonneg _ _ _ hc', nodeAt_cons_of_nonneg _ _ _ hc']
      split_ifs with h
      · exact ih _
      · rfl

theorem nodeAt_new [Inhabited Data] (j : Index) (n : IndexedDataTree Data)
    (h : nodeAt j (new : IndexedDataTree Data) = some n) : j = [] ∧ n = new := by
  cases j with
  | nil => simp only [nodeAt, Option.some.injEq] at h; exact ⟨rfl, h.symm⟩
  | cons c rest =>
    simp only [nodeAt, new, children_mk, List.getElem?_nil] at h
    split_ifs at h

theorem children_ne_nil_of_nodeAt (j : Index) (t n : IndexedDataTree Data) (hj : j ≠ [])
    (h : nodeAt j t = some n) : t.children ≠ [] := by
  cases j with
  | nil => exact absurd rfl hj
  | cons c rest =>
    intro hch
    simp only [nodeAt, hch, List.getElem?_nil] at h
    split_ifs at h

/-- When `addRec` ends the process: a negative subindex, a marked node strictly above the end
of the path, or children below the end of the path. -/
theorem addRec_error_iff [Inhabited Data] (d : Data) (i : Index) :
    ∀ (t : IndexedDataTree Data), (∀ k ∈ i, k < 2147483647) →
      ((∃ e, addRec d i t = .error e) ↔
      ((∃ k ∈ i, k < 0) ∨
        (∃ p, p < i.length ∧ ∃ n, nodeAt (i.take p) t = some n ∧ n.indexIncluded = true) ∨
        (∃ n, nodeAt i t = some n ∧ n.children ≠ []))) := by
  induction i with
  | nil =>
    intro t _
    simp only [addRec_nil, addRec_cons, List.not_mem_nil, false_and, exists_false, List.length_nil,
      Nat.not_lt_zero, false_or, nodeAt, Option.some.injEq, exists_eq_left']
    split_ifs with h
    · simp [List.length_eq_zero.mp h]
    · simp only [Except.error.injEq, exists_eq', true_iff]
      exact fun e => h (by simp [e])
  | cons c rest ih =>
    intro t hsmall
    by_cases hc : c < 0
    · have e : addRec d (c :: rest) t = .error .negativeIndex := by simp [addRec_nil, addRec_cons, hc]
      rw [e]
      simp only [Except.error.injEq, exists_eq', true_iff]
      exact Or.inl ⟨c, List.mem_cons_self _ _, hc⟩
    · have hc' : 0 ≤ c := by omega
      obtain ⟨cs', hcs⟩ := pushEmptyNodes_of_lt t.children c (hsmall c (List.mem_cons_self _ _))
      rw [addRec_cons_of_nonneg d c rest t hc' hcs]
      by_cases hinc : t.indexIncluded = true
      · rw [if_pos hinc]
        simp only [Except.error.injEq, exists_eq', true_iff]
        exact Or.inr (Or.inl ⟨0, by simp, t, rfl, hinc⟩)
      · have hinc' : t.indexIncluded = false := by simpa using hinc
        rw [if_neg hinc]
        have e : ∀ (r : Except TreeError (IndexedDataTree Data)),
            ((∃ err : TreeError, (match r with
              | .error e => (Except.error e : Except TreeError (IndexedDataTree Data))
              | .ok child' => Except.ok (mk (cs'.set c.toNat
                  child') t.indexIncluded t.data)) = .error err) ↔ ∃ err, r = .error err) := by
          intro r; cases r <;> simp
        rw [e, ih _ (fun k hk => hsmall k (List.mem_cons_of_mem _ hk))]
        have hA : (∃ k ∈ c :: rest, k < 0) ↔ ∃ k ∈ rest, k < 0 := by
          simp only [List.mem_cons, exists_eq_or_imp, hc, false_or]
        rw [hA]
        refine or_congr Iff.rfl (or_congr ?_ ?_)
        · constructor
          · rintro ⟨p, hp, n, hn, hn'⟩
            refine ⟨p + 1, by simp only [List.length_cons]; omega, n, ?_, hn'⟩
            rw [List.take_succ_cons, nodeAt_cons_of_nonneg _ _ _ hc']
            split_ifs with hk
            · simpa [hk] using hn
            · simp only [hk, dite_false] at hn
              obtain ⟨_, rfl⟩ := nodeAt_new _ _ hn
              simp [new] at hn'
          · rintro ⟨p, hp, n, hn, hn'⟩
            cases p with
            | zero =>
              simp only [List.take_zero, nodeAt, Option.some.injEq] at hn
              subst hn
              exact absurd hn' hinc
            | succ p =>
              simp only [List.length_cons] at hp
              refine ⟨p, by omega, n, ?_, hn'⟩
              rw [List.take_succ_cons, nodeAt_cons_of_nonneg _ _ _ hc'] at hn
              split_ifs at hn with hk
              simpa [hk] using hn
        · rw [nodeAt_cons_of_nonneg _ _ _ hc']
          split_ifs with hk
          · rfl
          · constructor
            · rintro ⟨n, hn, hn'⟩
              obtain ⟨_, rfl⟩ := nodeAt_new _ _ hn
              simp [new] at hn'
            · rintro ⟨n, hn, _⟩
              cases hn

theorem childrenLeadToIncluded_of_no_children (t : IndexedDataTree Data) (h : t.children = []) :
    ChildrenLeadToIncluded t := by
  intro p n hp hn
  cases p with
  | nil =>
    simp only [nodeAt, Option.some.injEq] at hp
    subst hp
    exact absurd h hn
  | cons c rest =>
    simp only [nodeAt, h, List.getElem?_nil] at hp
    split_ifs at hp

theorem childrenLeadToIncluded_child {t child : IndexedDataTree Data} {k : Nat}
    (h : ChildrenLeadToIncluded t) (hk : t.children[k]? = some child) :
    ChildrenLeadToIncluded child := by
  intro p n hp hn
  refine h ((k : Int) :: p) n ?_ hn
  simp only [nodeAt, Int.toNat_ofNat, hk]
  rw [if_neg (by omega)]
  exact hp

theorem childrenLeadToIncluded_mk {t : IndexedDataTree Data}
    (h1 : t.children ≠ [] → ∃ q n', q ≠ [] ∧ nodeAt q t = some n' ∧ n'.indexIncluded = true)
    (h2 : ∀ (k : Nat) (child : IndexedDataTree Data), t.children[k]? = some child →
      ChildrenLeadToIncluded child) :
    ChildrenLeadToIncluded t := by
  intro p n hp hn
  cases p with
  | nil =>
    simp only [nodeAt, Option.some.injEq] at hp
    subst hp
    exact h1 hn
  | cons c rest =>
    simp only [nodeAt] at hp
    split_ifs at hp
    split at hp
    · cases hp
    · rename_i child hchild
      exact h2 _ child hchild rest n hp hn

theorem nodeAt_addRec [Inhabited Data] {d : Data} {i : Index} {t t' : IndexedDataTree Data}
    (h : addRec d i t = .ok t') : ∃ n, nodeAt i t' = some n ∧ n.indexIncluded = true := by
  obtain ⟨n, hn, hn', _⟩ := (getRec_eq_true_iff d d i t').mp (getRec_addRec d i t t' h d)
  exact ⟨n, hn, hn'⟩

theorem childrenLeadToIncluded_new [Inhabited Data] :
    ChildrenLeadToIncluded (new : IndexedDataTree Data) :=
  childrenLeadToIncluded_of_no_children _ rfl

theorem childrenLeadToIncluded_addRec [Inhabited Data] (d : Data) (i : Index) :
    ∀ (t t' : IndexedDataTree Data), ChildrenLeadToIncluded t → addRec d i t = .ok t' →
      ChildrenLeadToIncluded t' := by
  induction i with
  | nil =>
    intro t t' _ h
    simp only [addRec_nil, addRec_cons] at h
    split_ifs at h with hlen
    injection h with h
    subst h
    exact childrenLeadToIncluded_of_no_children _ (by simpa using hlen)
  | cons c rest ih =>
    intro t t' hinv h
    obtain ⟨hc, hinc, cs', child, child', hcs, hchild, hrec, rfl⟩ := addRec_cons_ok h
    have hlen := pushEmptyNodes_length_gt hc hcs
    have hchildInv : ChildrenLeadToIncluded child := by
      rw [pushEmptyNodes_getElem? hc hcs] at hchild
      split_ifs at hchild with h1 h2
      · exact childrenLeadToIncluded_child hinv hchild
      · injection hchild with hchild
        subst hchild
        exact childrenLeadToIncluded_new
    apply childrenLeadToIncluded_mk
    · intro _
      obtain ⟨n, hn, hn'⟩ := nodeAt_addRec hrec
      refine ⟨c :: rest, n, by simp, ?_, hn'⟩
      simp only [nodeAt, children_mk, List.getElem?_set_self hlen]
      rw [if_neg (by omega)]
      exact hn
    · intro m child'' hm
      simp only [children_mk] at hm
      by_cases hmk : c.toNat = m
      · subst hmk
        rw [List.getElem?_set_self hlen] at hm
        injection hm with hm
        subst hm
        exact ih child _ hchildInv hrec
      · rw [List.getElem?_set_ne hmk, pushEmptyNodes_getElem? hc hcs] at hm
        split_ifs at hm with h1 h2
        · exact childrenLeadToIncluded_child hinv hm
        · injection hm with hm
          subst hm
          exact childrenLeadToIncluded_new

theorem childrenLeadToIncluded_of_reachable [Inhabited Data] {t : IndexedDataTree Data}
    (h : Reachable t) : ChildrenLeadToIncluded t := by
  induction h with
  | new => exact childrenLeadToIncluded_new
  | add d i _ hadd ih => exact childrenLeadToIncluded_addRec d i _ _ ih hadd
  | clear _ _ => exact childrenLeadToIncluded_of_no_children _ rfl

/-- For a tree with the invariant: `add` ends the process exactly in the cases (a) a negative
subindex, (b) an included Index that is a proper initial segment of `i`, (c) an included Index of
which `i` is a proper initial segment. -/
theorem addRec_error_iff_of_invariant [Inhabited Data] (d : Data) (i : Index)
    (t : IndexedDataTree Data) (hinv : ChildrenLeadToIncluded t)
    (hsmall : ∀ k ∈ i, k < 2147483647) :
    (∃ e, addRec d i t = .error e) ↔
      ((∃ k ∈ i, k < 0) ∨
        (∃ p, p < i.length ∧ ∃ x, getRec d (i.take p) t = .ok (true, x)) ∨
        (∃ j, j ≠ [] ∧ ∃ x, getRec d (i ++ j) t = .ok (true, x))) := by
  rw [addRec_error_iff d i t hsmall]
  refine or_congr Iff.rfl (or_congr ?_ ?_)
  · constructor
    · rintro ⟨p, hp, n, hn, hn'⟩
      exact ⟨p, hp, n.data, (getRec_eq_true_iff _ _ _ _).mpr ⟨n, hn, hn', rfl⟩⟩
    · rintro ⟨p, hp, x, hx⟩
      obtain ⟨n, hn, hn', _⟩ := (getRec_eq_true_iff _ _ _ _).mp hx
      exact ⟨p, hp, n, hn, hn'⟩
  · constructor
    · rintro ⟨n, hn, hch⟩
      obtain ⟨q, n', hq, hn', hinc⟩ := hinv i n hn hch
      refine ⟨q, hq, n'.data, (getRec_eq_true_iff _ _ _ _).mpr ⟨n', ?_, hinc, rfl⟩⟩
      rw [nodeAt_append, hn]
      exact hn'
    · rintro ⟨j, hj, x, hx⟩
      obtain ⟨n', hn', _, _⟩ := (getRec_eq_true_iff _ _ _ _).mp hx
      rw [nodeAt_append] at hn'
      cases hn : nodeAt i t with
      | none => rw [hn] at hn'; cases hn'
      | some n =>
        rw [hn] at hn'
        exact ⟨n, rfl, children_ne_nil_of_nodeAt j n n' hj hn'⟩

theorem includedHaveNoChildren_of_no_children (t : IndexedDataTree Data) (h : t.children = []) :
    IncludedHaveNoChildren t := by
  intro p n hp _
  cases p with
  | nil =>
    simp only [nodeAt, Option.some.injEq] at hp
    subst hp
    exact h
  | cons c rest =>
    simp only [nodeAt, h, List.getElem?_nil] at hp
    split_ifs at hp

theorem includedHaveNoChildren_child {t child : IndexedDataTree Data} {k : Nat}
    (h : IncludedHaveNoChildren t) (hk : t.children[k]? = some child) :
    IncludedHaveNoChildren child := by
  intro p n hp hn
  refine h ((k : Int) :: p) n ?_ hn
  simp only [nodeAt, Int.toNat_ofNat, hk]
  rw [if_neg (by omega)]
  exact hp

theorem includedHaveNoChildren_mk {t : IndexedDataTree Data}
    (h1 : t.indexIncluded = true → t.children = [])
    (h2 : ∀ (k : Nat) (child : IndexedDataTree Data), t.children[k]? = some child →
      IncludedHaveNoChildren child) :
    IncludedHaveNoChildren t := by
  intro p n hp hn
  cases p with
  | nil =>
    simp only [nodeAt, Option.some.injEq] at hp
    subst hp
    exact h1 hn
  | cons c rest =>
    simp only [nodeAt] at hp
    split_ifs at hp
    split at hp
    · cases hp
    · rename_i child hchild
      exact h2 _ child hchild rest n hp hn

theorem includedHaveNoChildren_addRec [Inhabited Data] (d : Data) (i : Index) :
    ∀ (t t' : IndexedDataTree Data), IncludedHaveNoChildren t → addRec d i t = .ok t' →
      IncludedHaveNoChildren t' := by
  induction i with
  | nil =>
    intro t t' _ h
    simp only [addRec_nil] at h
    split_ifs at h with hlen
    injection h with h
    subst h
    exact includedHaveNoChildren_of_no_children _ (by simpa using hlen)
  | cons c rest ih =>
    intro t t' hinv h
    obtain ⟨hc, hinc, cs', child, child', hcs, hchild, hrec, rfl⟩ := addRec_cons_ok h
    have hlen := pushEmptyNodes_length_gt hc hcs
    have hchildInv : IncludedHaveNoChildren child := by
      rw [pushEmptyNodes_getElem? hc hcs] at hchild
      split_ifs at hchild with h1 h2
      · exact includedHaveNoChildren_child hinv hchild
      · injection hchild with hchild
        subst hchild
        exact includedHaveNoChildren_of_no_children _ rfl
    apply includedHaveNoChildren_mk
    · intro hi
      simp only [indexIncluded_mk, hinc] at hi
      cases hi
    · intro m child'' hm
      simp only [children_mk] at hm
      by_cases hmk : c.toNat = m
      · subst hmk
        rw [List.getElem?_set_self hlen] at hm
        injection hm with hm
        subst hm
        exact ih child _ hchildInv hrec
      · rw [List.getElem?_set_ne hmk, pushEmptyNodes_getElem? hc hcs] at hm
        split_ifs at hm with h1 h2
        · exact includedHaveNoChildren_child hinv hm
        · injection hm with hm
          subst hm
          exact includedHaveNoChildren_of_no_children _ rfl

theorem includedHaveNoChildren_of_reachable [Inhabited Data] {t : IndexedDataTree Data}
    (h : Reachable t) : IncludedHaveNoChildren t := by
  induction h with
  | new => exact includedHaveNoChildren_of_no_children _ rfl
  | add d i _ hadd ih => exact includedHaveNoChildren_addRec d i _ _ ih hadd
  | clear _ _ => exact includedHaveNoChildren_of_no_children _ rfl

theorem nonneg_of_nodeAt (i : Index) :
    ∀ (t n : IndexedDataTree Data), nodeAt i t = some n → ∀ k ∈ i, (0 : Int) ≤ k := by
  induction i with
  | nil => intro _ _ _ k hk; cases hk
  | cons c rest ih =>
    intro t n h k hk
    by_cases hc : c < 0
    · rw [nodeAt_cons_of_neg _ _ _ hc] at h; cases h
    · have hc' : 0 ≤ c := by omega
      rcases List.mem_cons.mp hk with rfl | hk
      · exact hc'
      · rw [nodeAt_cons_of_nonneg _ _ _ hc'] at h
        split_ifs at h with hlt
        exact ih _ n h k hk

/-- On a tree in which marked nodes have no children, `add` with an Index that is already
included returns. -/
theorem addRec_ok_of_included [Inhabited Data] (d : Data) (i : Index)
    (t : IndexedDataTree Data) (hinv : IncludedHaveNoChildren t) (d0 x : Data)
    (hsmall : ∀ k ∈ i, k < 2147483647)
    (h : getRec d0 i t = .ok (true, x)) : ∃ t', addRec d i t = .ok t' := by
  obtain ⟨n, hn, hinc, _⟩ := (getRec_eq_true_iff d0 x i t).mp h
  cases hres : addRec d i t with
  | ok t' => exact ⟨t', rfl⟩
  | error e =>
    exfalso
    rcases (addRec_error_iff d i t hsmall).mp ⟨e, hres⟩ with ⟨k, hk, hk0⟩ | ⟨p, hp, m, hm, hminc⟩ |
      ⟨m, hm, hmch⟩
    · have := nonneg_of_nodeAt i t n hn k hk
      omega
    · have hsplit : nodeAt (i.take p ++ i.drop p) t = some n := by
        rw [List.take_append_drop]; exact hn
      rw [nodeAt_append, hm] at hsplit
      have hdrop : i.drop p ≠ [] := by
        intro e
        have := congrArg List.length e
        simp only [List.length_drop, List.length_nil] at this
        omega
      exact children_ne_nil_of_nodeAt _ m n hdrop hsplit (hinv _ m hm hminc)
    · rw [hn] at hm
      injection hm with hm
      subst hm
      exact hmch (hinv _ n hn hinc)

theorem getRec_congr_children (d1 : Data) (j : Index) (t1 t2 : IndexedDataTree Data)
    (hch : t1.children = t2.children) (h1 : t1.indexIncluded = false)
    (h2 : t2.indexIncluded = false) : getRec d1 j t1 = getRec d1 j t2 := by
  cases j with
  | nil => simp [getRec_nil, getRec_cons, h1, h2]
  | cons c rest => simp only [getRec_nil, getRec_cons, hch]

/-- C3: if `add(d, i)` on a tree `t` returns, then `get` with the Index `i` on the resulting tree
returns `true` and yields exactly `d` (whatever the reference parameter held before). -/
theorem get_after_add_same_index [Inhabited Data] (t t' : IndexedDataTree Data) (d d0 : Data)
    (i : Index) (h : t.add d i = .ok t') : t'.get d0 i = .ok (true, d) :=
  getRec_addRec d i t t' h d0

theorem get_after_add_same_index_witness :
    exampleTree.add 9 [2, 1] = .ok exampleTree2 ∧ exampleTree2.get 3 [2, 1] = .ok (true, 9) :=
  ⟨rfl, get_after_add_same_index exampleTree exampleTree2 9 3 [2, 1] rfl⟩

/-- C4: for distinct Indices `i` and `j`, all subindices of `j` non-negative: if `add(d, i)` on
`t` returns, then `get` with `j` gives the same flag and the same data on the resulting tree as
on `t`. -/
theorem get_after_add_other_index [Inhabited Data] (t t' : IndexedDataTree Data) (d d0 : Data)
    (i j : Index) (hne : i ≠ j) (hj : ∀ k ∈ j, (0 : Int) ≤ k) (h : t.add d i = .ok t') :
    t'.get d0 j = t.get d0 j :=
  getRec_addRec_of_ne d i t t' j hne hj h d0

theorem get_after_add_other_index_witness :
    exampleTree.add 9 [2, 1] = .ok exampleTree2 ∧
      exampleTree2.get 3 [2, 0] = exampleTree.get 3 [2, 0] ∧
      exampleTree.get 3 [2, 0] = .ok (false, 3) :=
  ⟨rfl, get_after_add_other_index exampleTree exampleTree2 9 3 [2, 1] [2, 0] (by decide)
    (by decide) rfl, rfl⟩

/-- C7, as the code has it: for an Index `i` with a negative subindex, `get` ends with "Negative
indices not allowed" exactly when the node addressed by the subindices before the first negative
one exists in `t`; otherwise it returns `false` and leaves the data untouched.  It never returns
`true`. -/
theorem get_negative_index (t : IndexedDataTree Data) (d0 : Data) (i : Index)
    (h : ∃ k ∈ i, k < 0) :
    t.get d0 i =
      if (nodeAt (i.takeWhile (fun k => decide (0 ≤ k))) t).isSome then .error .negativeIndex
      else .ok (false, d0) :=
  getRec_negative d0 i t h

theorem get_negative_index_witness :
    exampleTree.get 3 [0, -1] = .error .negativeIndex ∧
      exampleTree.get 3 [1, -1] = .ok (false, 3) :=
  ⟨get_negative_index exampleTree 3 [0, -1] ⟨-1, by decide, by decide⟩, rfl⟩

/-- C7 as stated fails: on a fresh tree, `get` with the Index `{0, -1}` returns `false`. -/
theorem get_negative_index_returns_false :
    (∃ k ∈ ([0, -1] : Index), k < 0) ∧
      (new : IndexedDataTree Nat).get 5 [0, -1] = .ok (false, 5) ∧
      (new : IndexedDataTree Nat).get 5 [0, -1] ≠ .error .negativeIndex :=
  ⟨⟨-1, by decide, by decide⟩, rfl, by
    intro h
    have h2 : (new : IndexedDataTree Nat).get 5 [0, -1] = .ok (false, 5) := rfl
    rw [h2] at h
    cases h⟩

end IndexedDataTree

/-! ## Exact complex arithmetic -/

namespace Cplx

theorem zero_def : (0 : Cplx) = ⟨0, 0⟩ := rfl
theorem add_def (a b : Cplx) : a + b = ⟨a.re + b.re, a.im + b.im⟩ := rfl
theorem sub_def (a b : Cplx) : a - b = ⟨a.re - b.re, a.im - b.im⟩ := rfl
theorem neg_def (a : Cplx) : -a = ⟨-a.re, -a.im⟩ := rfl
theorem mul_def (a b : Cplx) :
    a * b = ⟨a.re * b.re - a.im * b.im, a.re * b.im + a.im * b.re⟩ := rfl
theorem div_rat_def (a : Cplx) (r : ℚ) : a / r = ⟨a.re / r, a.im / r⟩ := rfl
theorem mul_rat_def (a : Cplx) (r : ℚ) : a * r = ⟨a.re * r, a.im * r⟩ := rfl

end Cplx

/-! ## Green's function of the exact diagonaliser -/

namespace PropertyExtractor

theorem addAt_length (l : List Cplx) (e : Nat) (x : Cplx) : (addAt l e x).length = l.length := by
  simp [addAt]

namespace ExactDiagonalizer

variable (pe : ExactDiagonalizer)

theorem accumulate_length (fockSpace : FockSpace pe.RuleSet) (solver : pe.Solver)
    (fromOperator toOperator : fockSpace.LadderOperator) (energySign : ℚ)
    (fockStateMap0 fockStateMap1 : FockStateMap fockSpace.FockState)
    (subspaceID0 subspaceID1 : Nat) (groundStateEnergy : ℚ)
    (greensFunctionData : List Cplx) (n : Nat) :
    (pe.accumulate fockSpace solver fromOperator toOperator energySign fockStateMap0
      fockStateMap1 subspaceID0 subspaceID1 groundStateEnergy greensFunctionData n).length =
      greensFunctionData.length := by
  unfold accumulate
  simp only
  split_ifs
  · exact addAt_length _ _ _
  · rfl

theorem foldl_accumulate_length (fockSpace : FockSpace pe.RuleSet) (solver : pe.Solver)
    (fromOperator toOperator : fockSpace.LadderOperator) (energySign : ℚ)
    (fockStateMap0 fockStateMap1 : FockStateMap fockSpace.FockState)
    (subspaceID0 subspaceID1 : Nat) (groundStateEnergy : ℚ) (states : List Nat) :
    ∀ (greensFunctionData : List Cplx),
      (states.foldl (pe.accumulate fockSpace solver fromOperator toOperator energySign
        fockStateMap0 fockStateMap1 subspaceID0 subspaceID1 groundStateEnergy)
        greensFunctionData).length = greensFunctionData.length := by
  induction states with
  | nil => intro _; rfl
  | cons n rest ih =>
    intro data
    rw [List.foldl_cons, ih, accumulate_length]

/-- What `calculateForFockSpace` returns carries the energy window of the extractor and an array
of `energyResolution` values. -/
theorem calculateForFockSpace_ok (fockSpace : FockSpace pe.RuleSet) (layout : pe.Layout)
    (toIndex fromIndex : Index) (type : Property.GreensFunction.Type) (subspaceID0 : Nat)
    (solver solver' : pe.Solver) (g : Property.GreensFunction pe.Layout)
    (h : pe.calculateForFockSpace fockSpace layout toIndex fromIndex type subspaceID0 solver =
      .ok (g, solver')) :
    0 ≤ pe.energyResolution ∧ g.energyResolution = pe.energyResolution ∧
      g.data.length = pe.energyResolution.toNat ∧ g.type = type := by
  unfold calculateForFockSpace at h
  simp only [bind, Except.bind, pure, Except.pure] at h
  split at h
  · cases h
  · split_ifs at h with hres
    simp only [Except.ok.injEq, Prod.mk.injEq] at h
    obtain ⟨rfl, _⟩ := h
    refine ⟨by omega, rfl, ?_, rfl⟩
    simp [foldl_accumulate_length]

/-- The default branch of `calculateGreensFunction` (types `Advanced` and `Retarded`). -/
theorem calculateGreensFunction_default (toIndex fromIndex : Index)
    (type : Property.GreensFunction.Type) (solver : pe.Solver)
    (h1 : type ≠ .Principal) (h2 : type ≠ .NonPrincipal) :
    pe.calculateGreensFunction toIndex fromIndex type solver =
      (do
        let memoryLayout ← pe.memoryLayout toIndex fromIndex
        let (subspaceID0, solver) := pe.addSubspace solver pe.getFockStateRuleSet
        if pe.wrapsBitRegister then
          pe.calculateForFockSpace pe.getFockSpaceBitRegister memoryLayout toIndex fromIndex
            type subspaceID0 solver
        else if pe.wrapsExtensiveBitRegister then
          pe.calculateForFockSpace pe.getFockSpaceExtensiveBitRegister memoryLayout toIndex
            fromIndex type subspaceID0 solver
        else TBTKExit Fatal.unknownBitRegisterType) := by
  rw [calculateGreensFunction]
  · exact fun h => h1 h
  · exact fun h => h2 h

theorem calculateGreensFunction_default_ok (toIndex fromIndex : Index)
    (type : Property.GreensFunction.Type) (solver solver' : pe.Solver)
    (g : Property.GreensFunction pe.Layout)
    (h1 : type ≠ .Principal) (h2 : type ≠ .NonPrincipal)
    (h : pe.calculateGreensFunction toIndex fromIndex type solver = .ok (g, solver')) :
    0 ≤ pe.energyResolution ∧ g.energyResolution = pe.energyResolution ∧
      g.data.length = pe.energyResolution.toNat ∧ g.type = type := by
  rw [calculateGreensFunction_default pe toIndex fromIndex type solver h1 h2] at h
  simp only [bind, Except.bind] at h
  split at h
  · cases h
  · split_ifs at h
    · exact calculateForFockSpace_ok pe _ _ _ _ _ _ _ _ _ h
    · exact calculateForFockSpace_ok pe _ _ _ _ _ _ _ _ _ h
    · cases h

/-- Unfolding of the case `Principal` when it returns. -/
theorem calculateGreensFunction_principal_ok (toIndex fromIndex : Index)
    (solver solver' : pe.Solver) (g : Property.GreensFunction pe.Layout)
    (h : pe.calculateGreensFunction toIndex fromIndex .Principal solver = .ok (g, solver')) :
    ∃ layout A solver1 R,
      pe.memoryLayout toIndex fromIndex = .ok layout ∧
      pe.calculateGreensFunction toIndex fromIndex .Advanced solver = .ok (A, solver1) ∧
      pe.calculateGreensFunction toIndex fromIndex .Retarded solver1 = .ok (R, solver') ∧
      0 ≤ pe.energyResolution ∧
      g = ⟨layout, .Principal, pe.lowerBound, pe.upperBound, pe.energyResolution,
        (List.range pe.energyResolution.toNat).map (fun n =>
          (A.data.getD n 0 + R.data.getD n 0) / (2 : ℚ))⟩ := by
  rw [calculateGreensFunction] at h
  simp only [bind, Except.bind, pure, Except.pure] at h
  split at h
  · cases h
  · rename_i layout hlayout
    split at h
    · cases h
    · rename_i a ha
      obtain ⟨A, solver1⟩ := a
      simp only at h
      split at h
      · cases h
      · rename_i r hr
        obtain ⟨R, solver2⟩ := r
        simp only at h
        split_ifs at h with hres
        simp only [Except.ok.injEq, Prod.mk.injEq] at h
        obtain ⟨rfl, rfl⟩ := h
        exact ⟨layout, A, solver1, R, hlayout, ha, hr, by omega, rfl⟩

/-- Unfolding of the case `NonPrincipal` when it returns. -/
theorem calculateGreensFunction_nonPrincipal_ok (toIndex fromIndex : Index)
    (solver solver' : pe.Solver) (g : Property.GreensFunction pe.Layout)
    (h : pe.calculateGreensFunction toIndex fromIndex .NonPrincipal solver = .ok (g, solver')) :
    ∃ layout A solver1 R,
      pe.memoryLayout toIndex fromIndex = .ok layout ∧
      pe.calculateGreensFunction toIndex fromIndex .Advanced solver = .ok (A, solver1) ∧
      pe.calculateGreensFunction toIndex fromIndex .Retarded solver1 = .ok (R, solver') ∧
      0 ≤ pe.energyResolution ∧
      g = ⟨layout, .NonPrincipal, pe.lowerBound, pe.upperBound, pe.energyResolution,
        (List.range pe.energyResolution.toNat).map (fun n =>
          (A.data.getD n 0 - R.data.getD n 0) / (2 : ℚ))⟩ := by
  rw [calculateGreensFunction] at h
  simp only [bind, Except.bind, pure, Except.pure] at h
  split at h
  · cases h
  · rename_i layout hlayout
    split at h
    · cases h
    · rename_i a ha
      obtain ⟨A, solver1⟩ := a
      simp only at h
      split at h
      · cases h
      · rename_i r hr
        obtain ⟨R, solver2⟩ := r
        simp only at h
        split_ifs at h with hres
        simp only [Except.ok.injEq, Prod.mk.injEq] at h
        obtain ⟨rfl, rfl⟩ := h
        exact ⟨layout, A, solver1, R, hlayout, ha, hr, by omega, rfl⟩

end ExactDiagonalizer
end PropertyExtractor

namespace PropertyExtractor

namespace ExactDiagonalizer

theorem exampleExtractor_bin_advanced : exampleExtractor.energyBin (-1) 1 0 = 1 := by
  simp only [energyBin, exampleExtractor, divide, toInt, Option.map]
  norm_num

theorem exampleExtractor_bin_retarded : exampleExtractor.energyBin 1 1 0 = 3 := by
  simp only [energyBin, exampleExtractor, divide, toInt, Option.map]
  norm_num

theorem exampleExtractor_amplitude (operator : Nat) (a b c d : Nat) :
    exampleExtractor.amplitude exampleFockSpace () operator
      (exampleFockSpace.createFockStateMap 0) (exampleFockSpace.createFockStateMap 1) a b c d
      = ⟨1, 0⟩ := by
  simp [amplitude, exampleExtractor, exampleFockSpace, List.range_succ, Cplx.conj,
    Cplx.zero_def, Cplx.add_def, Cplx.mul_def, Cplx.mul_rat_def]

theorem exampleExtractor_advanced :
    exampleExtractor.calculateGreensFunction [0] [0] .Advanced () =
      .ok (⟨([0], [0]), .Advanced, -2, 2, 4, [0, ⟨0, -1⟩, 0, 0]⟩, ()) := by
  rw [calculateGreensFunction_default _ _ _ _ _ (by decide) (by decide)]
  have hb := exampleExtractor_bin_advanced
  have ha := exampleExtractor_amplitude
  simp only [exampleExtractor, exampleFockSpace] at hb ha
  simp [exampleExtractor, exampleFockSpace, calculateForFockSpace, accumulate, hb, ha,
    addAt, bind, Except.bind, pure, Except.pure, List.range_succ,
    Cplx.zero_def, Cplx.add_def, Cplx.mul_def, Cplx.neg_def, Cplx.i]

theorem exampleExtractor_retarded :
    exampleExtractor.calculateGreensFunction [0] [0] .Retarded () =
      .ok (⟨([0], [0]), .Retarded, -2, 2, 4, [0, 0, 0, ⟨0, -1⟩]⟩, ()) := by
  rw [calculateGreensFunction_default _ _ _ _ _ (by decide) (by decide)]
  have hb := exampleExtractor_bin_retarded
  have ha := exampleExtractor_amplitude
  simp only [exampleExtractor, exampleFockSpace] at hb ha
  simp [exampleExtractor, exampleFockSpace, calculateForFockSpace, accumulate, hb, ha,
    addAt, bind, Except.bind, pure, Except.pure, List.range_succ,
    Cplx.zero_def, Cplx.add_def, Cplx.mul_def, Cplx.neg_def, Cplx.i]

end ExactDiagonalizer
end PropertyExtractor

namespace PropertyExtractor
namespace ExactDiagonalizer

variable (pe : ExactDiagonalizer)

theorem exampleExtractor_principal :
    exampleExtractor.calculateGreensFunction [0] [0] .Principal () =
      .ok (⟨([0], [0]), .Principal, -2, 2, 4, [0, ⟨0, -1 / 2⟩, 0, ⟨0, -1 / 2⟩]⟩, ()) := by
  rw [calculateGreensFunction, exampleExtractor_advanced]
  simp only [bind, Except.bind, exampleExtractor_retarded]
  simp [exampleExtractor, bind, Except.bind, pure, Except.pure, List.range_succ,
    Cplx.zero_def, Cplx.add_def, Cplx.div_rat_def]

theorem exampleExtractor_nonPrincipal :
    exampleExtractor.calculateGreensFunction [0] [0] .NonPrincipal () =
      .ok (⟨([0], [0]), .NonPrincipal, -2, 2, 4, [0, ⟨0, -1 / 2⟩, 0, ⟨0, 1 / 2⟩]⟩, ()) := by
  rw [calculateGreensFunction, exampleExtractor_advanced]
  simp only [bind, Except.bind, exampleExtractor_retarded]
  simp [exampleExtractor, bind, Except.bind, pure, Except.pure, List.range_succ,
    Cplx.zero_def, Cplx.sub_def, Cplx.div_rat_def]

theorem getD_eq_of_getElem? {l : List Cplx} {n : Nat} (h : n < l.length) :
    l[n]? = some (l.getD n 0) := by
  simp [List.getD, List.getElem?_eq_getElem h]

/-- C1: when `calculateGreensFunction` returns for the type `Principal`, its two nested calls
(type `Advanced`, then type `Retarded` on the solver as the first call leaves it) have returned
arrays `A` and `R`, and for every bin `0 <= n < energyResolution` the returned array holds
`data[n] = (A[n] + R[n]) / 2`. -/
theorem principal_eq_half_sum (toIndex fromIndex : Index) (solver solver' : pe.Solver)
    (g : Property.GreensFunction pe.Layout)
    (h : pe.calculateGreensFunction toIndex fromIndex .Principal solver = .ok (g, solver')) :
    ∃ A R solver1,
      pe.calculateGreensFunction toIndex fromIndex .Advanced solver = .ok (A, solver1) ∧
      pe.calculateGreensFunction toIndex fromIndex .Retarded solver1 = .ok (R, solver') ∧
      ∀ n : Nat, (n : Int) < pe.energyResolution →
        ∃ a r, A.data[n]? = some a ∧ R.data[n]? = some r ∧
          g.data[n]? = some ((a + r) / (2 : ℚ)) := by
  obtain ⟨layout, A, solver1, R, _, hA, hR, hres, rfl⟩ :=
    calculateGreensFunction_principal_ok pe toIndex fromIndex solver solver' g h
  refine ⟨A, R, solver1, hA, hR, fun n hn => ?_⟩
  obtain ⟨_, _, hlenA, _⟩ := calculateGreensFunction_default_ok pe _ _ _ _ _ _
    (by decide) (by decide) hA
  obtain ⟨_, _, hlenR, _⟩ := calculateGreensFunction_default_ok pe _ _ _ _ _ _
    (by decide) (by decide) hR
  have hn' : n < pe.energyResolution.toNat := by omega
  refine ⟨A.data.getD n 0, R.data.getD n 0, getD_eq_of_getElem? (by omega),
    getD_eq_of_getElem? (by omega), ?_⟩
  simp [List.getElem?_map, List.getElem?_range hn']

theorem principal_eq_half_sum_witness :
    ∃ A R solver1,
      exampleExtractor.calculateGreensFunction [0] [0] .Advanced () = .ok (A, solver1) ∧
      exampleExtractor.calculateGreensFunction [0] [0] .Retarded solver1 = .ok (R, ()) ∧
      ∀ n : Nat, (n : Int) < exampleExtractor.energyResolution →
        ∃ a r, A.data[n]? = some a ∧ R.data[n]? = some r ∧
          ([0, ⟨0, -1 / 2⟩, 0, ⟨0, -1 / 2⟩] : List Cplx)[n]? = some ((a + r) / (2 : ℚ)) :=
  principal_eq_half_sum exampleExtractor [0] [0] () ()
    ⟨([0], [0]), .Principal, -2, 2, 4, [0, ⟨0, -1 / 2⟩, 0, ⟨0, -1 / 2⟩]⟩
    exampleExtractor_principal

/-- C2: when `calculateGreensFunction` returns for the type `NonPrincipal`, its two nested calls
(type `Advanced`, then type `Retarded` on the solver as the first call leaves it) have returned
arrays `A` and `R`, and for every bin `0 <= n < energyResolution` the returned array holds
`data[n] = (A[n] - R[n]) / 2`. -/
theorem nonPrincipal_eq_half_difference (toIndex fromIndex : Index) (solver solver' : pe.Solver)
    (g : Property.GreensFunction pe.Layout)
    (h : pe.calculateGreensFunction toIndex fromIndex .NonPrincipal solver = .ok (g, solver')) :
    ∃ A R solver1,
      pe.calculateGreensFunction toIndex fromIndex .Advanced solver = .ok (A, solver1) ∧
      pe.calculateGreensFunction toIndex fromIndex .Retarded solver1 = .ok (R, solver') ∧
      ∀ n : Nat, (n : Int) < pe.energyResolution →
        ∃ a r, A.data[n]? = some a ∧ R.data[n]? = some r ∧
          g.data[n]? = some ((a - r) / (2 : ℚ)) := by
  obtain ⟨layout, A, solver1, R, _, hA, hR, hres, rfl⟩ :=
    calculateGreensFunction_nonPrincipal_ok pe toIndex fromIndex solver solver' g h
  refine ⟨A, R, solver1, hA, hR, fun n hn => ?_⟩
  obtain ⟨_, _, hlenA, _⟩ := calculateGreensFunction_default_ok pe _ _ _ _ _ _
    (by decide) (by decide) hA
  obtain ⟨_, _, hlenR, _⟩ := calculateGreensFunction_default_ok pe _ _ _ _ _ _
    (by decide) (by decide) hR
  have hn' : n < pe.energyResolution.toNat := by omega
  refine ⟨A.data.getD n 0, R.data.getD n 0, getD_eq_of_getElem? (by omega),
    getD_eq_of_getElem? (by omega), ?_⟩
  simp [List.getElem?_map, List.getElem?_range hn']

theorem nonPrincipal_eq_half_difference_witness :
    ∃ A R solver1,
      exampleExtractor.calculateGreensFunction [0] [0] .Advanced () = .ok (A, solver1) ∧
      exampleExtractor.calculateGreensFunction [0] [0] .Retarded solver1 = .ok (R, ()) ∧
      ∀ n : Nat, (n : Int) < exampleExtractor.energyResolution →
        ∃ a r, A.data[n]? = some a ∧ R.data[n]? = some r ∧
          ([0, ⟨0, -1 / 2⟩, 0, ⟨0, 1 / 2⟩] : List Cplx)[n]? = some ((a - r) / (2 : ℚ)) :=
  nonPrincipal_eq_half_difference exampleExtractor [0] [0] () ()
    ⟨([0], [0]), .NonPrincipal, -2, 2, 4, [0, ⟨0, -1 / 2⟩, 0, ⟨0, 1 / 2⟩]⟩
    exampleExtractor_nonPrincipal

/-- C9: for each of the four types, when `calculateGreensFunction` returns, the returned Green's
function carries `energyResolution` (which is then not negative), its array holds exactly
`energyResolution` values, and every bin `0 <= n < energyResolution` holds a value. -/
theorem greensFunction_has_energyResolution_values (toIndex fromIndex : Index)
    (type : Property.GreensFunction.Type) (solver solver' : pe.Solver)
    (g : Property.GreensFunction pe.Layout)
    (h : pe.calculateGreensFunction toIndex fromIndex type solver = .ok (g, solver')) :
    0 ≤ pe.energyResolution ∧ g.energyResolution = pe.energyResolution ∧
      (g.data.length : Int) = pe.energyResolution ∧
      ∀ n : Nat, (n : Int) < pe.energyResolution → ∃ z, g.data[n]? = some z := by
  have key : 0 ≤ pe.energyResolution ∧ g.energyResolution = pe.energyResolution ∧
      g.data.length = pe.energyResolution.toNat := by
    cases type with
    | Advanced =>
      obtain ⟨h1, h2, h3, _⟩ := calculateGreensFunction_default_ok pe _ _ _ _ _ _
        (by decide) (by decide) h
      exact ⟨h1, h2, h3⟩
    | Retarded =>
      obtain ⟨h1, h2, h3, _⟩ := calculateGreensFunction_default_ok pe _ _ _ _ _ _
        (by decide) (by decide) h
      exact ⟨h1, h2, h3⟩
    | Principal =>
      obtain ⟨layout, A, solver1, R, _, _, _, hres, rfl⟩ :=
        calculateGreensFunction_principal_ok pe toIndex fromIndex solver solver' g h
      exact ⟨hres, rfl, by simp⟩
    | NonPrincipal =>
      obtain ⟨layout, A, solver1, R, _, _, _, hres, rfl⟩ :=
        calculateGreensFunction_nonPrincipal_ok pe toIndex fromIndex solver solver' g h
      exact ⟨hres, rfl, by simp⟩
  obtain ⟨h1, h2, h3⟩ := key
  refine ⟨h1, h2, by omega, fun n hn => ⟨g.data.getD n 0, getD_eq_of_getElem? (by omega)⟩⟩

theorem greensFunction_has_energyResolution_values_witness :
    (([0, 0, 0, ⟨0, -1⟩] : List Cplx).length : Int) = exampleExtractor.energyResolution ∧
      ∀ n : Nat, (n : Int) < exampleExtractor.energyResolution →
        ∃ z, ([0, 0, 0, ⟨0, -1⟩] : List Cplx)[n]? = some z :=
  (greensFunction_has_energyResolution_values exampleExtractor [0] [0] .Retarded () ()
    ⟨([0], [0]), .Retarded, -2, 2, 4, [0, 0, 0, ⟨0, -1⟩]⟩ exampleExtractor_retarded).2.2

end ExactDiagonalizer
end PropertyExtractor

/-! ## Magnetization and spin-polarised LDOS -/

namespace PropertyExtractor

/-- Without an entry equal to `IDX_SPIN` from position `n` on, the loop runs to its end and
leaves `hint[0] = -1`, `pattern` and `ranges` as they were. -/
theorem spinIndexLoop_of_not_mem (IDX_SPIN : Int) (pattern ranges : Index) :
    ∀ (k n : Nat), n + k = pattern.length → (∀ m, n ≤ m → pattern[m]? ≠ some IDX_SPIN) →
      spinIndexLoop IDX_SPIN pattern ranges k n = .ok (-1, pattern, ranges) := by
  intro k
  induction k with
  | zero => intro n _ _; rfl
  | succ k ih =>
    intro n hlen hno
    have hn : n < pattern.length := by omega
    have hne : pattern[n] ≠ IDX_SPIN := by
      intro e
      exact hno n (le_refl _) (by rw [List.getElem?_eq_getElem hn, e])
    simp only [spinIndexLoop, List.getElem?_eq_getElem hn, hne, if_false]
    exact ih (n + 1) (by omega) (fun m hm => hno m (by omega))

theorem spinIndexLoop_of_no_spin (IDX_SPIN : Int) (pattern ranges : Index)
    (h : IDX_SPIN ∉ pattern) :
    spinIndexLoop IDX_SPIN pattern ranges pattern.length 0 = .ok (-1, pattern, ranges) := by
  apply spinIndexLoop_of_not_mem _ _ _ _ _ (by omega)
  intro m _ hm
  exact h (List.getElem?_mem hm)

namespace ExactDiagonalizer

/-- C10: for a pattern without an entry equal to `IDX_SPIN`, `calculateMagnetization` and
`calculateSpinPolarizedLDOS` end with the fatal error "No spin index found."; the only steps
taken are the allocation and the release of `hint`: no property is constructed, `calculate` is
not called, and no result is returned. -/
theorem no_spin_index_is_fatal (pe : ExactDiagonalizer) (base : Base) (pattern ranges : Index)
    (h : base.IDX_SPIN ∉ pattern) :
    calculateMagnetization base pattern ranges =
        ([.newHint, .deleteHint], .error .noSpinIndexFound) ∧
      calculateSpinPolarizedLDOS pe base pattern ranges =
        ([.newHint, .deleteHint], .error .noSpinIndexFound) := by
  constructor
  · simp [calculateMagnetization, spinIndexLoop_of_no_spin _ _ _ h, TBTKExit]
  · simp [calculateSpinPolarizedLDOS, spinIndexLoop_of_no_spin _ _ _ h, TBTKExit]

theorem no_spin_index_is_fatal_witness :
    calculateMagnetization exampleBase [0, -1, 3] [1, 2, 1] =
        ([.newHint, .deleteHint], .error .noSpinIndexFound) ∧
      calculateSpinPolarizedLDOS exampleExtractor exampleBase [0, -1, 3] [1, 2, 1] =
        ([.newHint, .deleteHint], .error .noSpinIndexFound) :=
  no_spin_index_is_fatal exampleExtractor exampleBase [0, -1, 3] [1, 2, 1] (by decide)

end ExactDiagonalizer
end PropertyExtractor

/-! ## IndexedDataTree: reachable trees -/

namespace IndexedDataTree

variable {Data : Type}

/-- C20: in every tree reachable from the empty tree by returning `add` calls and `clear` calls,
no node is both marked `indexIncluded` and has child nodes; no included Index is a proper
initial segment of another included Index; and two included Indices of different length differ
in one of their common positions. -/
theorem reachable_included_nodes_are_leaves [Inhabited Data] (t : IndexedDataTree Data)
    (hr : Reachable t) :
    (∀ p n, nodeAt p t = some n → ¬ (n.indexIncluded = true ∧ n.children ≠ [])) ∧
      (∀ (i j : Index) (d0 d1 x y : Data), j ≠ [] → t.get d0 i = .ok (true, x) →
        t.get d1 (i ++ j) ≠ .ok (true, y)) ∧
      (∀ (i j : Index) (d0 d1 x y : Data), t.get d0 i = .ok (true, x) →
        t.get d1 j = .ok (true, y) → i.length < j.length →
        ∃ p, p < i.length ∧ i[p]? ≠ j[p]?) := by
  have hinv := includedHaveNoChildren_of_reachable hr
  have hsegment : ∀ (i j : Index) (d0 d1 x y : Data), j ≠ [] → t.get d0 i = .ok (true, x) →
      t.get d1 (i ++ j) ≠ .ok (true, y) := by
    intro i j d0 d1 x y hj hi hij
    obtain ⟨n, hn, hinc, _⟩ := (getRec_eq_true_iff d0 x i t).mp hi
    obtain ⟨m, hm, _, _⟩ := (getRec_eq_true_iff d1 y (i ++ j) t).mp hij
    rw [nodeAt_append, hn] at hm
    exact children_ne_nil_of_nodeAt j n m hj hm (hinv i n hn hinc)
  refine ⟨fun p n hp h => h.2 (hinv p n hp h.1), hsegment, ?_⟩
  intro i j d0 d1 x y hi hj hlen
  by_contra hcon
  push_neg at hcon
  have htake : j.take i.length = i := by
    apply List.ext_getElem?
    intro p
    by_cases hp : p < i.length
    · rw [List.getElem?_take_of_lt hp, hcon p hp]
    · rw [List.getElem?_eq_none (by simp only [List.length_take]; omega),
        List.getElem?_eq_none (by omega)]
  have hsplit : i ++ j.drop i.length = j := by
    have h := List.take_append_drop i.length j
    rw [htake] at h
    exact h
  have hdrop : j.drop i.length ≠ [] := by
    intro e
    have := congrArg List.length e
    simp only [List.length_drop, List.length_nil] at this
    omega
  refine hsegment i (j.drop i.length) d0 d1 x y hdrop hi ?_
  rw [hsplit]
  exact hj

theorem reachable_included_nodes_are_leaves_witness :
    Reachable exampleTree2 ∧
      (∀ p n, nodeAt p exampleTree2 = some n → ¬ (n.indexIncluded = true ∧ n.children ≠ [])) ∧
      exampleTree2.get 0 [2, 1] = .ok (true, 9) ∧ exampleTree2.get 0 [2] = .ok (false, 0) :=
  ⟨Reachable.add 9 [2, 1] (Reachable.add 7 [0] Reachable.new rfl) rfl,
    (reachable_included_nodes_are_leaves exampleTree2
      (Reachable.add 9 [2, 1] (Reachable.add 7 [0] Reachable.new rfl) rfl)).1, rfl, rfl⟩

end IndexedDataTree

/-! ## ChebyshevExpander: inline members -/

namespace Solver
namespace ChebyshevExpander

/-- C12, as the code has it: `setScaleFactor(x)` stores every value `x`, zero included, and
changes no other member; `getScaleFactor()` then returns `x`. -/
theorem getScaleFactor_setScaleFactor (s : ChebyshevExpander) (x : ℚ) :
    (s.setScaleFactor x).getScaleFactor = x ∧
      s.setScaleFactor x = { s with scaleFactor := x } :=
  ⟨rfl, rfl⟩

/-- C12 as stated fails: after `setScaleFactor(0)` the call `getScaleFactor()` returns 0. -/
theorem setScaleFactor_zero_is_stored :
    (exampleExpander.setScaleFactor 0).getScaleFactor = 0 :=
  rfl

/-- C13, as the code has it: `setScaleFactor(x)` leaves the lookup table and its key as they
are, so `getLookupTableIsGenerated()` and `getLookupTableIsLoadedGPU()` answer as before the
call. -/
theorem getLookupTableIsGenerated_setScaleFactor (s : ChebyshevExpander) (x : ℚ) :
    (s.setScaleFactor x).getLookupTableIsGenerated = s.getLookupTableIsGenerated ∧
      (s.setScaleFactor x).getLookupTableIsLoadedGPU = s.getLookupTableIsLoadedGPU ∧
      (s.setScaleFactor x).generatingFunctionLookupTable = s.generatingFunctionLookupTable ∧
      (s.setScaleFactor x).lookupTableNumCoefficients = s.lookupTableNumCoefficients ∧
      (s.setScaleFactor x).lookupTableResolution = s.lookupTableResolution ∧
      (s.setScaleFactor x).lookupTableLowerBound = s.lookupTableLowerBound ∧
      (s.setScaleFactor x).lookupTableUpperBound = s.lookupTableUpperBound :=
  ⟨rfl, rfl, rfl, rfl, rfl, rfl, rfl⟩

/-- C13 as stated fails: the example expander holds a lookup table and has scale factor 1;
after `setScaleFactor(2)` the table is still reported as generated. -/
theorem setScaleFactor_keeps_lookup_table :
    exampleExpander.getLookupTableIsGenerated = true ∧
      (2 : ℚ) ≠ exampleExpander.scaleFactor ∧
      (exampleExpander.setScaleFactor 2).getLookupTableIsGenerated = true :=
  ⟨rfl, by simp [exampleExpander], rfl⟩

/-- C14: `getLookupTableIsGenerated()` returns `true` exactly when the host lookup table is held
(`generatingFunctionLookupTable != NULL`), whatever the device pointer is, and
`getLookupTableIsLoadedGPU()` returns `true` exactly when the device table is held, whatever the
host pointer is. -/
theorem lookup_table_flags (s : ChebyshevExpander) :
    (s.getLookupTableIsGenerated = true ↔ s.generatingFunctionLookupTable ≠ none) ∧
      (s.getLookupTableIsGenerated = false ↔ s.generatingFunctionLookupTable = none) ∧
      (∀ device, ({ s with generatingFunctionLookupTable_device := device } :
        ChebyshevExpander).getLookupTableIsGenerated = s.getLookupTableIsGenerated) ∧
      (s.getLookupTableIsLoadedGPU = true ↔ s.generatingFunctionLookupTable_device ≠ none) ∧
      (s.getLookupTableIsLoadedGPU = false ↔ s.generatingFunctionLookupTable_device = none) ∧
      (∀ host, ({ s with generatingFunctionLookupTable := host } :
        ChebyshevExpander).getLookupTableIsLoadedGPU = s.getLookupTableIsLoadedGPU) := by
  refine ⟨?_, ?_, fun _ => rfl, ?_, ?_, fun _ => rfl⟩
  · unfold getLookupTableIsGenerated
    split_ifs with h
    · simp [h]
    · simp [not_not.mp h]
  · unfold getLookupTableIsGenerated
    split_ifs with h
    · simp [h]
    · simp [not_not.mp h]
  · unfold getLookupTableIsLoadedGPU
    split_ifs with h
    · simp [h]
    · simp [not_not.mp h]
  · unfold getLookupTableIsLoadedGPU
    split_ifs with h
    · simp [h]
    · simp [not_not.mp h]

end ChebyshevExpander
end Solver

/-! ## APropertyExtractor: missing spin index -/

namespace APropertyExtractor

open PropertyExtractor

/-- C11, as the code has it: for a pattern without an entry equal to `IDX_SPIN`,
`APropertyExtractor::calculateSpinPolarizedLDOS` does not end the process: it writes the message
"Error in PropertyExtractor::calculateSpinPolarizedLDOS: No spin index indicated." to the error
stream, releases `hint` and returns `NULL` to the caller; these are its only steps: no property
is constructed and `calculate` is not called. -/
theorem calculateSpinPolarizedLDOS_no_spin_index (pe : APropertyExtractor) (base : Base)
    (pattern ranges : Index) (h : base.IDX_SPIN ∉ pattern) :
    calculateSpinPolarizedLDOS pe base pattern ranges =
      ([.newHint,
        .streamsErr
          "Error in PropertyExtractor::calculateSpinPolarizedLDOS: No spin index indicated.\n",
        .deleteHint], .ok none) := by
  unfold calculateSpinPolarizedLDOS
  rw [spinIndexLoop_of_no_spin _ _ _ h]
  simp

theorem calculateSpinPolarizedLDOS_no_spin_index_witness :
    calculateSpinPolarizedLDOS exampleAPropertyExtractor exampleBase [0, -1, 3] [1, 2, 1] =
      ([.newHint,
        .streamsErr
          "Error in PropertyExtractor::calculateSpinPolarizedLDOS: No spin index indicated.\n",
        .deleteHint], .ok none) :=
  calculateSpinPolarizedLDOS_no_spin_index exampleAPropertyExtractor exampleBase [0, -1, 3]
    [1, 2, 1] (by decide)

/-- C11 as stated fails: for the pattern `{0, -1, 3}`, which has no entry `IDX_SPIN = -2`, the
call returns (the value `NULL`) instead of ending the process. -/
theorem calculateSpinPolarizedLDOS_returns_null :
    exampleBase.IDX_SPIN ∉ ([0, -1, 3] : Index) ∧
      (calculateSpinPolarizedLDOS exampleAPropertyExtractor exampleBase [0, -1, 3]
        [1, 2, 1]).2 = .ok none ∧
      ∀ e, (calculateSpinPolarizedLDOS exampleAPropertyExtractor exampleBase [0, -1, 3]
        [1, 2, 1]).2 ≠ .error e := by
  refine ⟨by decide, rfl, ?_⟩
  intro e h
  have h2 : (calculateSpinPolarizedLDOS exampleAPropertyExtractor exampleBase [0, -1, 3]
      [1, 2, 1]).2 = .ok none := rfl
  rw [h2] at h
  cases h

end APropertyExtractor

/-! ## Green's function of the exact diagonaliser: negative subindices -/

namespace PropertyExtractor
namespace ExactDiagonalizer

variable (pe : ExactDiagonalizer)

theorem calculateForFockSpace_error_of_negative (fockSpace : FockSpace pe.RuleSet)
    (hres : fockSpace.RejectsNegativeSubindices) (layout : pe.Layout)
    (toIndex fromIndex : Index) (type : Property.GreensFunction.Type) (subspaceID0 : Nat)
    (solver : pe.Solver)
    (hneg : (∃ k ∈ toIndex, k < 0) ∨ (∃ k ∈ fromIndex, k < 0)) :
    ∃ e, pe.calculateForFockSpace fockSpace layout toIndex fromIndex type subspaceID0 solver =
      .error e := by
  have hops : ∀ (a b : Nat) (sign : ℚ), ∃ e,
      ((do
        let f ← fockSpace.getBasisIndex fromIndex
        let t ← fockSpace.getBasisIndex toIndex
        pure (fockSpace.getOperators f a, fockSpace.getOperators t b, sign)) :
        Except Fatal (fockSpace.LadderOperator × fockSpace.LadderOperator × ℚ)) = .error e := by
    intro a b sign
    cases hf : fockSpace.getBasisIndex fromIndex with
    | error e => exact ⟨e, rfl⟩
    | ok f =>
      cases ht : fockSpace.getBasisIndex toIndex with
      | error e => exact ⟨e, rfl⟩
      | ok t =>
        exfalso
        rcases hneg with hneg | hneg
        · obtain ⟨e, he⟩ := hres toIndex hneg
          rw [he] at ht; cases ht
        · obtain ⟨e, he⟩ := hres fromIndex hneg
          rw [he] at hf; cases hf
  unfold calculateForFockSpace
  cases type with
  | Retarded =>
    obtain ⟨e, he⟩ := hops 0 1 1
    simp only [he]
    exact ⟨e, rfl⟩
  | Advanced =>
    obtain ⟨e, he⟩ := hops 1 0 (-1)
    simp only [he]
    exact ⟨e, rfl⟩
  | Principal => exact ⟨Fatal.onlyRetardedSupported, rfl⟩
  | NonPrincipal => exact ⟨Fatal.onlyRetardedSupported, rfl⟩

theorem calculateGreensFunction_default_error_of_negative
    (hB : pe.getFockSpaceBitRegister.RejectsNegativeSubindices)
    (hE : pe.getFockSpaceExtensiveBitRegister.RejectsNegativeSubindices)
    (toIndex fromIndex : Index) (type : Property.GreensFunction.Type) (solver : pe.Solver)
    (h1 : type ≠ .Principal) (h2 : type ≠ .NonPrincipal)
    (hneg : (∃ k ∈ toIndex, k < 0) ∨ (∃ k ∈ fromIndex, k < 0)) :
    ∃ e, pe.calculateGreensFunction toIndex fromIndex type solver = .error e := by
  rw [calculateGreensFunction_default pe toIndex fromIndex type solver h1 h2]
  simp only [bind, Except.bind]
  cases hl : pe.memoryLayout toIndex fromIndex with
  | error e => exact ⟨e, rfl⟩
  | ok layout =>
    simp only
    split_ifs
    · exact calculateForFockSpace_error_of_negative pe _ hB _ _ _ _ _ _ hneg
    · exact calculateForFockSpace_error_of_negative pe _ hE _ _ _ _ _ _ hneg
    · exact ⟨Fatal.unknownBitRegisterType, rfl⟩

/-- C19: with an index resolver that ends the process for an Index with a negative subindex,
`calculateGreensFunction` called with a `to` or a `from` Index that has a negative subindex ends
the process for each of the four types; it returns no Green's function. -/
theorem calculateGreensFunction_negative_subindex_fails
    (hB : pe.getFockSpaceBitRegister.RejectsNegativeSubindices)
    (hE : pe.getFockSpaceExtensiveBitRegister.RejectsNegativeSubindices)
    (toIndex fromIndex : Index) (type : Property.GreensFunction.Type) (solver : pe.Solver)
    (hneg : (∃ k ∈ toIndex, k < 0) ∨ (∃ k ∈ fromIndex, k < 0)) :
    (∃ e, pe.calculateGreensFunction toIndex fromIndex type solver = .error e) ∧
      ∀ g solver', pe.calculateGreensFunction toIndex fromIndex type solver ≠ .ok (g, solver') := by
  have key : ∃ e, pe.calculateGreensFunction toIndex fromIndex type solver = .error e := by
    have hA := calculateGreensFunction_default_error_of_negative pe hB hE toIndex fromIndex
      .Advanced solver (by decide) (by decide) hneg
    cases type with
    | Advanced => exact hA
    | Retarded =>
      exact calculateGreensFunction_default_error_of_negative pe hB hE toIndex fromIndex
        .Retarded solver (by decide) (by decide) hneg
    | Principal =>
      obtain ⟨e, he⟩ := hA
      rw [calculateGreensFunction, he]
      simp only [bind, Except.bind]
      cases pe.memoryLayout toIndex fromIndex with
      | error e' => exact ⟨e', rfl⟩
      | ok layout => exact ⟨e, rfl⟩
    | NonPrincipal =>
      obtain ⟨e, he⟩ := hA
      rw [calculateGreensFunction, he]
      simp only [bind, Except.bind]
      cases pe.memoryLayout toIndex fromIndex with
      | error e' => exact ⟨e', rfl⟩
      | ok layout => exact ⟨e, rfl⟩
  refine ⟨key, fun g solver' h => ?_⟩
  obtain ⟨e, he⟩ := key
  rw [he] at h
  cases h

theorem exampleFockSpaceWithResolver_rejects :
    exampleFockSpaceWithResolver.RejectsNegativeSubindices := by
  intro index hneg
  refine ⟨Fatal.collaborator 0, ?_⟩
  simpa [exampleFockSpaceWithResolver] using hneg

theorem calculateGreensFunction_negative_subindex_fails_witness :
    (∃ e, exampleExtractorWithResolver.calculateGreensFunction [0] [0, -1] .Principal () =
        .error e) ∧
      ∀ g solver', exampleExtractorWithResolver.calculateGreensFunction [0] [0, -1] .Principal ()
        ≠ .ok (g, solver') :=
  calculateGreensFunction_negative_subindex_fails exampleExtractorWithResolver
    exampleFockSpaceWithResolver_rejects exampleFockSpaceWithResolver_rejects [0] [0, -1]
    .Principal () (Or.inr ⟨-1, by decide, by decide⟩)

end ExactDiagonalizer
end PropertyExtractor

/-! ## Serialization of IndexedDataTree -/

namespace IndexedDataTree

variable {Data : Type}

theorem pushBackAll_map {α β : Type}
    (construct : β → Except SerializationError (IndexedDataTree Data)) (f : α → β)
    (l : List α) :
    pushBackAll construct (l.map f) = pushBackAll (fun a => construct (f a)) l := by
  induction l with
  | nil => rfl
  | cons a rest ih => simp only [List.map_cons, pushBackAll, ih]

theorem pushBackAll_attach {α : Type}
    (construct : α → Except SerializationError (IndexedDataTree Data)) (l : List α) :
    pushBackAll (fun it => construct it.1) l.attach = pushBackAll construct l := by
  have h := pushBackAll_map construct Subtype.val l.attach
  rw [List.attach_map_subtype_val] at h
  exact h.symm

/-- Unfolding of the constructor in `Mode::JSON`. -/
theorem fromSerialization_JSON (format : DataFormat Data)
    (validate : Json → String → Serializeable.Mode → Bool) (serialization : Json) :
    fromSerialization format validate serialization .JSON =
      TBTKAssert (validate serialization "IndexedDataTree" .JSON = true)
        SerializationError.unableToParse
        (match (serialization.atKey "indexIncluded").bind Json.getBool with
        | none => TBTKExit SerializationError.unableToParse
        | some indexIncluded =>
          match (serialization.atKey "data").bind format.get with
          | none => TBTKExit SerializationError.unableToParse
          | some data =>
            match serialization.atKey "children" with
            | none => .ok (mk [] indexIncluded data)
            | some children =>
              match pushBackAll (fun it => fromSerialization format validate it .JSON)
                children.iterate with
              | .error e => .error e
              | .ok children => .ok (mk children indexIncluded data)) := by
  rw [fromSerialization]
  congr 1
  cases (Json.atKey "indexIncluded" serialization).bind Json.getBool with
  | none => rfl
  | some indexIncluded =>
    cases (Json.atKey "data" serialization).bind format.get with
    | none => rfl
    | some data =>
      simp only
      split
      · rename_i h
        simp only [h]
      · rename_i children h
        simp only [h, pushBackAll_attach
          (fun it => fromSerialization format validate it .JSON) children.iterate]

theorem serializeJSON_mk (format : DataFormat Data) (children : List (IndexedDataTree Data))
    (indexIncluded : Bool) (data : Data) :
    serializeJSON format (mk children indexIncluded data) =
      .object ([("id", .string "IndexedDataTree"), ("indexIncluded", .boolean indexIncluded),
          ("data", format.assign data)] ++
        (match serializeChildren format children with
        | [] => []
        | elements => [("children", .array elements)])) := by
  rw [serializeJSON]

mutual
theorem fromSerialization_serializeJSON (format : DataFormat Data)
    (validate : Json → String → Serializeable.Mode → Bool)
    (hformat : ∀ d, format.get (format.assign d) = some d)
    (hvalidate : AcceptsIndexedDataTree validate) :
    ∀ t : IndexedDataTree Data,
      fromSerialization format validate (serializeJSON format t) .JSON = .ok t
  | mk children indexIncluded data => by
    have ih := pushBackAll_serializeChildren format validate hformat hvalidate children
    rw [fromSerialization_JSON, serializeJSON_mk]
    have hv : validate (.object ([("id", .string "IndexedDataTree"),
        ("indexIncluded", .boolean indexIncluded), ("data", format.assign data)] ++
        (match serializeChildren format children with
        | [] => []
        | elements => [("children", .array elements)]))) "IndexedDataTree" .JSON = true :=
      hvalidate _ (by simp [Json.lookup])
    simp only [TBTKAssert, hv, if_true]
    cases children with
    | nil => simp [serializeChildren, Json.atKey, Json.lookup, Json.getBool, hformat]
    | cons child rest =>
      simp only [serializeChildren] at ih ⊢
      simp [Json.atKey, Json.lookup, Json.getBool, hformat, Json.iterate, ih]
theorem pushBackAll_serializeChildren (format : DataFormat Data)
    (validate : Json → String → Serializeable.Mode → Bool)
    (hformat : ∀ d, format.get (format.assign d) = some d)
    (hvalidate : AcceptsIndexedDataTree validate) :
    ∀ children : List (IndexedDataTree Data),
      pushBackAll (fun it => fromSerialization format validate it .JSON)
        (serializeChildren format children) = .ok children
  | [] => by simp [serializeChildren, pushBackAll]
  | child :: rest => by
    have h1 := fromSerialization_serializeJSON format validate hformat hvalidate child
    have h2 := pushBackAll_serializeChildren format validate hformat hvalidate rest
    simp only [serializeChildren, pushBackAll, h1, h2]
end

theorem exampleValidate_accepts : AcceptsIndexedDataTree exampleValidate := by
  intro members h
  simp [exampleValidate, Json.atKey, h]

/-- C15: for every `IndexedDataTree<int>` (and likewise `IndexedDataTree<bool>`) `t`,
`t.serialize(Mode::JSON)` returns a serialization, and the tree constructed from it in
`Mode::JSON` is `t` itself: the same `indexIncluded` flag, the same data and the same children
in the same positions at every node, so that `get` answers alike on both trees.  `validate` is
taken to accept a JSON object whose member `id` is "IndexedDataTree". -/
theorem fromSerialization_serialize (validate : Json → String → Serializeable.Mode → Bool)
    (hvalidate : AcceptsIndexedDataTree validate) :
    (∀ t : IndexedDataTree Int, ∃ j t',
      serialize DataFormat.int t .JSON = .ok j ∧
      fromSerialization DataFormat.int validate j .JSON = .ok t' ∧ t' = t ∧
      ∀ (d : Int) (i : Index), t'.get d i = t.get d i) ∧
    (∀ t : IndexedDataTree Bool, ∃ j t',
      serialize DataFormat.bool t .JSON = .ok j ∧
      fromSerialization DataFormat.bool validate j .JSON = .ok t' ∧ t' = t ∧
      ∀ (d : Bool) (i : Index), t'.get d i = t.get d i) := by
  constructor
  · intro t
    exact ⟨serializeJSON DataFormat.int t, t, rfl,
      fromSerialization_serializeJSON DataFormat.int validate (fun _ => rfl) hvalidate t, rfl,
      fun _ _ => rfl⟩
  · intro t
    exact ⟨serializeJSON DataFormat.bool t, t, rfl,
      fromSerialization_serializeJSON DataFormat.bool validate (fun _ => rfl) hvalidate t, rfl,
      fun _ _ => rfl⟩

theorem fromSerialization_serialize_witness :
    (∃ j t', serialize DataFormat.int exampleIntTree .JSON = .ok j ∧
      fromSerialization DataFormat.int exampleValidate j .JSON = .ok t' ∧ t' = exampleIntTree ∧
      ∀ (d : Int) (i : Index), t'.get d i = exampleIntTree.get d i) ∧
    (∃ j t', serialize DataFormat.bool exampleBoolTree .JSON = .ok j ∧
      fromSerialization DataFormat.bool exampleValidate j .JSON = .ok t' ∧
      t' = exampleBoolTree ∧
      ∀ (d : Bool) (i : Index), t'.get d i = exampleBoolTree.get d i) ∧
    serialize DataFormat.bool exampleBoolTree .JSON = .ok (.object [
      ("id", .string "IndexedDataTree"), ("indexIncluded", .boolean false),
      ("data", .boolean false),
      ("children", .array [
        .object [("id", .string "IndexedDataTree"), ("indexIncluded", .boolean false),
          ("data", .boolean false)],
        .object [("id", .string "IndexedDataTree"), ("indexIncluded", .boolean true),
          ("data", .boolean true)]])]) :=
  ⟨(fromSerialization_serialize exampleValidate exampleValidate_accepts).1 exampleIntTree,
    (fromSerialization_serialize exampleValidate exampleValidate_accepts).2 exampleBoolTree,
    rfl⟩

end IndexedDataTree

/-! ## ChebyshevExpander: the first two moments -/

namespace Cplx

theorem ext_iff' (a b : Cplx) : a = b ↔ a.re = b.re ∧ a.im = b.im := by
  cases a; cases b; simp

theorem mul_zero' (a : Cplx) : a * 0 = 0 := by
  simp [mul_def, zero_def]

theorem mul_one' (a : Cplx) : a * (⟨1, 0⟩ : Cplx) = a := by
  simp [mul_def]

theorem add_zero' (a : Cplx) : a + 0 = a := by
  simp [add_def, zero_def]

theorem zero_add' (a : Cplx) : 0 + a = a := by
  simp [add_def, zero_def]

end Cplx

namespace Solver

/-- A sum in which only the term of `f` can differ from zero. -/
theorem sum_map_mul_unit (g : Nat → Cplx) (f : Nat) :
    ∀ l : List Nat, l.Nodup →
      (l.map (fun k => g k * (if k = f then (⟨1, 0⟩ : Cplx) else 0))).sum =
        if f ∈ l then g f else 0 := by
  intro l
  induction l with
  | nil => intro _; simp
  | cons a rest ih =>
    intro hnd
    rw [List.nodup_cons] at hnd
    rw [List.map_cons, List.sum_cons, ih hnd.2]
    by_cases haf : a = f
    · subst haf
      simp [hnd.1, Cplx.mul_one', Cplx.add_zero']
    · have hfa : ¬ f = a := fun e => haf e.symm
      simp [haf, hfa, Cplx.mul_zero', Cplx.zero_add']

/-- The scaled Hamiltonian applied to the basis vector `|from>` has the entries
`<c|H|from> / a`. -/
theorem ScaledHamiltonian.apply_unit (model : Model) (a : ℚ) (f : Nat)
    (hf : f < model.basisSize) (c : Nat) :
    ScaledHamiltonian.apply model a (fun k => if k = f then ⟨1, 0⟩ else 0) c =
      model.matrixElement c f / a := by
  unfold ScaledHamiltonian.apply
  rw [sum_map_mul_unit (fun k => model.matrixElement c k / a) f _ (List.nodup_range _)]
  simp [hf]

namespace ChebyshevExpander

theorem recursionSteps_length (s : ChebyshevExpander) (model : Model) :
    ∀ (steps : Nat) (vPrevious vCurrent : HilbertVector),
      (recursionSteps s model steps vPrevious vCurrent).1.length = steps ∧
        (recursionSteps s model steps vPrevious vCurrent).2 = steps := by
  intro steps
  induction steps with
  | zero => intro _ _; exact ⟨rfl, rfl⟩
  | succ k ih =>
    intro vPrevious vCurrent
    simp only [recursionSteps, List.length_cons]
    exact ⟨by rw [(ih _ _).1], by rw [(ih _ _).2]⟩

theorem recursionVectors_length (s : ChebyshevExpander) (model : Model) (f : Nat) (N : Nat) :
    (recursionVectors s model f N).1.length = N ∧ (recursionVectors s model f N).2 = N - 1 := by
  match N with
  | 0 => exact ⟨rfl, rfl⟩
  | 1 => exact ⟨rfl, rfl⟩
  | k + 2 =>
    simp only [recursionVectors, List.length_cons]
    exact ⟨by rw [(recursionSteps_length s model k _ _).1],
      by rw [(recursionSteps_length s model k _ _).2]; omega⟩

theorem recursionVectors_zero (s : ChebyshevExpander) (model : Model) (f : Nat) (N : Nat)
    (hN : 1 ≤ N) :
    (recursionVectors s model f N).1[0]? = some (fun c => if c = f then ⟨1, 0⟩ else 0) := by
  match N, hN with
  | 1, _ => rfl
  | k + 2, _ => rfl

theorem recursionVectors_one (s : ChebyshevExpander) (model : Model) (f : Nat) (N : Nat)
    (hN : 2 ≤ N) :
    (recursionVectors s model f N).1[1]? =
      some (s.applyHamiltonian model (fun c => if c = f then ⟨1, 0⟩ else 0)) := by
  match N, hN with
  | k + 2, _ => simp [recursionVectors]

theorem resolveAll_ok (model : Model) :
    ∀ (indices : List Index) (basisIndices : List Nat),
      resolveAll model indices = .ok basisIndices →
      basisIndices.length = indices.length ∧
      ∀ (k : Nat) (index : Index), indices[k]? = some index →
        ∃ b, model.getBasisIndex index = some b ∧ basisIndices[k]? = some b := by
  intro indices
  induction indices with
  | nil =>
    intro bs h
    simp only [resolveAll, Except.ok.injEq] at h
    subst h
    exact ⟨rfl, fun k index hk => by simp at hk⟩
  | cons index rest ih =>
    intro bs h
    simp only [resolveAll] at h
    cases hb : model.getBasisIndex index with
    | none => rw [hb] at h; cases h
    | some b =>
      rw [hb] at h
      cases hr : resolveAll model rest with
      | error e => rw [hr] at h; cases h
      | ok bs' =>
        rw [hr] at h
        simp only [Except.ok.injEq] at h
        subst h
        obtain ⟨hlen, hall⟩ := ih bs' hr
        refine ⟨by simp [hlen], ?_⟩
        intro k idx hk
        cases k with
        | zero =>
          simp only [List.getElem?_cons_zero, Option.some.injEq] at hk
          subst hk
          exact ⟨b, hb, by simp⟩
        | succ k =>
          simp only [List.getElem?_cons_succ] at hk ⊢
          exact hall k idx hk

/-- C16, as the spec has it: when `calculateCoefficients` returns, every requested `to` Index
has its `N` moments, with `mu_0(to) = <to|from>` for `N >= 1` and, for `N >= 2` and a `from`
inside the basis, `mu_1(to) = <to|H̃|from>`, which is `<to|H/a|from>` when no damping mask
is set and `damping(to) * <to|H/a|from>` when one is set; neither depends on `N`.  The
Hamiltonian is applied `N - 1` times in the sweep: for `N = 1` only `mu_0` is produced and the
Hamiltonian is not applied. -/
theorem calculateCoefficients_first_moments (s : ChebyshevExpander) (model : Model)
    (toIndices : List Index) (fromIndex : Index) (N : Nat) (r : Moments)
    (h : s.calculateCoefficients model toIndices fromIndex N = .ok r) :
    ∃ fromBasisIndex, model.getBasisIndex fromIndex = some fromBasisIndex ∧
      r.coefficients.length = toIndices.length ∧
      r.hamiltonianApplications = N - 1 ∧ (N = 1 → r.hamiltonianApplications = 0) ∧
      ∀ (k : Nat) (toIndex : Index), toIndices[k]? = some toIndex →
        ∃ toBasisIndex mu, model.getBasisIndex toIndex = some toBasisIndex ∧
          r.coefficients[k]? = some mu ∧ mu.length = N ∧
          (1 ≤ N → mu[0]? = some (if toBasisIndex = fromBasisIndex then ⟨1, 0⟩ else 0)) ∧
          (2 ≤ N → fromBasisIndex < model.basisSize →
            mu[1]? = some (match s.damping with
              | none => model.matrixElement toBasisIndex fromBasisIndex / s.scaleFactor
              | some mask => mask toBasisIndex *
                  (model.matrixElement toBasisIndex fromBasisIndex / s.scaleFactor))) := by
  unfold calculateCoefficients at h
  split_ifs at h with ha
  cases hf : model.getBasisIndex fromIndex with
  | none => rw [hf] at h; cases h
  | some f =>
    rw [hf] at h
    cases hr : resolveAll model toIndices with
    | error e => rw [hr] at h; cases h
    | ok bs =>
      rw [hr] at h
      simp only [Except.ok.injEq] at h
      subst h
      obtain ⟨hlen, hall⟩ := resolveAll_ok model toIndices bs hr
      have hcount := (recursionVectors_length s model f N).2
      refine ⟨f, rfl, by simp [hlen], hcount, fun hN => by subst hN; rfl, ?_⟩
      intro k toIndex hk
      obtain ⟨b, hb, hbk⟩ := hall k toIndex hk
      refine ⟨b, (recursionVectors s model f N).1.map (fun v => v b), hb, ?_, ?_, ?_, ?_⟩
      · simp [List.getElem?_map, hbk]
      · simp [(recursionVectors_length s model f N).1]
      · intro hN
        simp [List.getElem?_map, recursionVectors_zero s model f N hN]
      · intro hN hfn
        simp only [List.getElem?_map, recursionVectors_one s model f N hN, Option.map_some',
          applyHamiltonian, Option.some.injEq]
        cases hd : s.damping with
        | none => simp [DampingMask.apply, ScaledHamiltonian.apply_unit model _ f hfn]
        | some mask => simp [DampingMask.apply, ScaledHamiltonian.apply_unit model _ f hfn]

theorem exampleExpanderWithDamping_coefficients :
    exampleExpanderWithDamping.calculateCoefficients exampleModel [[0]] [0] 2 =
      .ok ⟨[[⟨1, 0⟩, ⟨1 / 2, 0⟩]], 1⟩ := by
  simp [calculateCoefficients, exampleExpanderWithDamping, exampleExpander, setDamping,
    exampleModel, resolveAll, recursionVectors, recursionSteps, applyHamiltonian,
    DampingMask.apply, ScaledHamiltonian.apply, Model.matrixElement, Cplx.mul_def,
    Cplx.div_rat_def, Cplx.add_def, Cplx.zero_def, List.range_succ]

theorem calculateCoefficients_first_moments_witness :
    ∃ fromBasisIndex, exampleModel.getBasisIndex [0] = some fromBasisIndex ∧
      ([[⟨1, 0⟩, ⟨1 / 2, 0⟩]] : List (List Cplx)).length = ([[0]] : List Index).length ∧
      (1 : Nat) = 2 - 1 ∧ ((2 : Nat) = 1 → (1 : Nat) = 0) ∧
      ∀ (k : Nat) (toIndex : Index), ([[0]] : List Index)[k]? = some toIndex →
        ∃ toBasisIndex mu, exampleModel.getBasisIndex toIndex = some toBasisIndex ∧
          ([[⟨1, 0⟩, ⟨1 / 2, 0⟩]] : List (List Cplx))[k]? = some mu ∧ mu.length = 2 ∧
          (1 ≤ 2 → mu[0]? = some (if toBasisIndex = fromBasisIndex then ⟨1, 0⟩ else 0)) ∧
          (2 ≤ 2 → fromBasisIndex < exampleModel.basisSize →
            mu[1]? = some (match exampleExpanderWithDamping.damping with
              | none => exampleModel.matrixElement toBasisIndex fromBasisIndex /
                  exampleExpanderWithDamping.scaleFactor
              | some mask => mask toBasisIndex *
                  (exampleModel.matrixElement toBasisIndex fromBasisIndex /
                    exampleExpanderWithDamping.scaleFactor))) :=
  calculateCoefficients_first_moments exampleExpanderWithDamping exampleModel [[0]] [0] 2
    ⟨[[⟨1, 0⟩, ⟨1 / 2, 0⟩]], 1⟩ exampleExpanderWithDamping_coefficients

/-- C16 as stated fails: with the damping mask `1/2`, one basis state, `<0|H|0> = 1` and scale
factor 1, the moment `mu_1` is `1/2`, while `<to|H/a|from>` is 1. -/
theorem calculateCoefficients_damped_second_moment :
    exampleExpanderWithDamping.calculateCoefficients exampleModel [[0]] [0] 2 =
        .ok ⟨[[⟨1, 0⟩, ⟨1 / 2, 0⟩]], 1⟩ ∧
      exampleModel.getBasisIndex [0] = some 0 ∧
      exampleModel.matrixElement 0 0 / exampleExpanderWithDamping.scaleFactor = ⟨1, 0⟩ ∧
      (⟨1 / 2, 0⟩ : Cplx) ≠ ⟨1, 0⟩ := by
  refine ⟨exampleExpanderWithDamping_coefficients, rfl, ?_, ?_⟩
  · simp [exampleModel, Model.matrixElement, exampleExpanderWithDamping, exampleExpander,
      setDamping, Cplx.div_rat_def, Cplx.add_def, Cplx.zero_def]
  · intro h
    have := congrArg Cplx.re h
    norm_num at this

end ChebyshevExpander
end Solver

/-! ## ChebyshevExpander: lookup table and reconstruction -/

namespace Solver
namespace ChebyshevExpander

/-- The entries of a freshly generated lookup table are the values of the generating function. -/
theorem lookupTable_entry (g : Nat → Nat → Cplx) (N R n e : Nat) (hn : n < N) (he : e < R) :
    ((((List.range N).map (fun n => (List.range R).map (fun e => g n e))).getD n []).getD e 0) =
      g n e := by
  simp [List.getD, List.getElem?_map, List.getElem?_range hn, List.getElem?_range he]

theorem reconstruct_congr (kernel : Kernel) (g g' : Nat → Nat → Cplx) (coefficients : List Cplx)
    (N R : Nat) (type : ChebyshevExpander.Type)
    (h : ∀ n e, n < N → e < R → g n e = g' n e) :
    reconstruct kernel g coefficients N R type = reconstruct kernel g' coefficients N R type := by
  have inner : ∀ (f : Cplx → Cplx) (e : Nat), e < R →
      ((List.range N).map (fun n => coefficients.getD n 0 * f (g n e))).sum =
        ((List.range N).map (fun n => coefficients.getD n 0 * f (g' n e))).sum := by
    intro f e he
    congr 1
    apply List.map_congr_left
    intro n hn
    rw [h n e (List.mem_range.mp hn) he]
  have inner' := inner (fun x => x)
  simp only at inner'
  cases type <;>
    · simp only [reconstruct]
      apply List.map_congr_left
      intro e he
      rw [List.mem_range] at he
      simp only [inner kernel.advanced e he, inner' e he]

theorem reconstruct_length (kernel : Kernel) (g : Nat → Nat → Cplx) (coefficients : List Cplx)
    (N R : Nat) (type : ChebyshevExpander.Type) :
    (reconstruct kernel g coefficients N R type).length = R := by
  cases type <;> simp [reconstruct]

/-- C17, as the declared overload has it: the table-based `generateGreensFunction(coefficients,
type)` is fatal and returns no array when no lookup table is generated (also after
`destroyLookupTable`).  It has no parameter for a key: after `generateLookupTable` has been
called again with another key, the reconstruction is not fatal; it uses the new table with the
number of coefficients and the energy resolution of the new key, and returns the array of the
direct reconstruction for the new key, which has the new `energyResolution` values. -/
theorem generateGreensFunctionWithLookupTable_fails (s : ChebyshevExpander) (kernel : Kernel)
    (coefficients : List Cplx) (type : ChebyshevExpander.Type) :
    (s.generatingFunctionLookupTable = none →
      s.generateGreensFunctionWithLookupTable kernel coefficients type
        = .error .lookupTableNotGenerated) ∧
    (s.destroyLookupTable.generateGreensFunctionWithLookupTable kernel coefficients type
        = .error .lookupTableNotGenerated) ∧
    (∀ (N R N' R' : Int) (lowerBound upperBound lowerBound' upperBound' : ℚ),
      ∃ data,
        ((s.generateLookupTable kernel N R lowerBound upperBound).generateLookupTable kernel N' R'
          lowerBound' upperBound').generateGreensFunctionWithLookupTable kernel coefficients type
          = .ok data ∧
        s.generateGreensFunction kernel coefficients N' R' lowerBound' upperBound' type
          = .ok data ∧
        data.length = R'.toNat) := by
  refine ⟨?_, rfl, ?_⟩
  · intro h
    simp [generateGreensFunctionWithLookupTable, h]
  · intro N R N' R' lb ub lb' ub'
    refine ⟨reconstruct kernel
      (kernel.generatingFunction s.scaleFactor N' R' lb' ub') coefficients N'.toNat R'.toNat
      type, ?_, rfl, reconstruct_length _ _ _ _ _ _⟩
    simp only [generateGreensFunctionWithLookupTable, generateLookupTable]
    congr 1
    apply reconstruct_congr
    intro n e hn he
    exact lookupTable_entry _ _ _ n e hn he

theorem generateGreensFunctionWithLookupTable_fails_witness :
    exampleExpander.destroyLookupTable.generateGreensFunctionWithLookupTable exampleKernel
        [⟨1, 0⟩] .Retarded = .error .lookupTableNotGenerated :=
  (generateGreensFunctionWithLookupTable_fails exampleExpander.destroyLookupTable exampleKernel
      [⟨1, 0⟩] .Retarded).1 rfl

/-- C17 as stated fails: a table is generated for the key `(1, 2, -1, 1)` and then again for
the key `(1, 3, -1, 1)`; the reconstruction from one moment, which the caller has for the old
key, is not fatal: it returns three values, those of the new table. -/
theorem generateGreensFunctionWithLookupTable_uses_new_table :
    ((1 : Int), (3 : Int), (-1 : ℚ), (1 : ℚ)) ≠ ((1 : Int), (2 : Int), (-1 : ℚ), (1 : ℚ)) ∧
      ((exampleExpander.generateLookupTable exampleKernel 1 2 (-1) 1).generateLookupTable
        exampleKernel 1 3 (-1) 1).generateGreensFunctionWithLookupTable exampleKernel
        [⟨1, 0⟩] .Retarded = .ok [⟨1, 1⟩, ⟨1, 2⟩, ⟨1, 3⟩] ∧
      ∀ e, ((exampleExpander.generateLookupTable exampleKernel 1 2 (-1) 1).generateLookupTable
        exampleKernel 1 3 (-1) 1).generateGreensFunctionWithLookupTable exampleKernel
        [⟨1, 0⟩] .Retarded ≠ .error e := by
  have h1 : ((exampleExpander.generateLookupTable exampleKernel 1 2 (-1) 1).generateLookupTable
      exampleKernel 1 3 (-1) 1).generateGreensFunctionWithLookupTable exampleKernel
      [⟨1, 0⟩] .Retarded = .ok [⟨1, 1⟩, ⟨1, 2⟩, ⟨1, 3⟩] := by
    simp [generateGreensFunctionWithLookupTable, generateLookupTable, reconstruct,
      exampleExpander, exampleKernel, List.range_succ, Cplx.mul_def, Cplx.add_def,
      Cplx.zero_def]
    norm_num
  refine ⟨by decide, h1, ?_⟩
  intro e he
  rw [h1] at he
  cases he

/-- C18: for every moment array, every number of coefficients, energy resolution, bounds and
type, the table-based reconstruction run after `generateLookupTable(N, energyResolution,
lowerBound, upperBound)` returns the array that the direct reconstruction returns for `(N,
energyResolution, lowerBound, upperBound)`, and this array has `energyResolution` values. -/
theorem lookupTable_reconstruction_eq_direct (s : ChebyshevExpander) (kernel : Kernel)
    (coefficients : List Cplx) (N R : Int) (lowerBound upperBound : ℚ)
    (type : ChebyshevExpander.Type) :
    ∃ data,
      (s.generateLookupTable kernel N R lowerBound upperBound).generateGreensFunctionWithLookupTable
        kernel coefficients type = .ok data ∧
      s.generateGreensFunction kernel coefficients N R lowerBound upperBound type = .ok data ∧
      (s.generateLookupTable kernel N R lowerBound upperBound).generateGreensFunction kernel
        coefficients N R lowerBound upperBound type = .ok data ∧
      data.length = R.toNat := by
  refine ⟨reconstruct kernel (kernel.generatingFunction s.scaleFactor N R lowerBound upperBound)
    coefficients N.toNat R.toNat type, ?_, rfl, rfl, reconstruct_length _ _ _ _ _ _⟩
  simp only [generateGreensFunctionWithLookupTable, generateLookupTable]
  congr 1
  apply reconstruct_congr
  intro n e hn he
  exact lookupTable_entry _ _ _ n e hn he

end ChebyshevExpander
end Solver

/-! ## Spin-index detection -/

namespace PropertyExtractor

/-- From counter `n` on, the loop stops at the first position `p` that holds `IDX_SPIN`: it
returns `hint[0] = p`, `pattern` with 0 at `p` and `ranges` with 1 at `p`. -/
theorem spinIndexLoop_of_first (IDX_SPIN : Int) (pattern ranges : Index) (p : Nat)
    (hp : pattern[p]? = some IDX_SPIN) (hr : p < ranges.length) :
    ∀ (k n : Nat), n + k = pattern.length → n ≤ p →
      (∀ q, n ≤ q → q < p → pattern[q]? ≠ some IDX_SPIN) →
      spinIndexLoop IDX_SPIN pattern ranges k n =
        .ok ((p : Int), pattern.set p 0, ranges.set p 1) := by
  have hpl : p < pattern.length := by
    by_contra hcon
    rw [List.getElem?_eq_none (by omega)] at hp
    cases hp
  intro k
  induction k with
  | zero => intro n hlen hn _; omega
  | succ k ih =>
    intro n hlen hn hno
    have hnl : n < pattern.length := by omega
    by_cases hnp : n = p
    · subst hnp
      rw [List.getElem?_eq_getElem hnl] at hp
      simp only [Option.some.injEq] at hp
      simp [spinIndexLoop, List.getElem?_eq_getElem hnl, hp, hr]
    · have hne : pattern[n] ≠ IDX_SPIN := by
        intro e
        exact hno n (le_refl _) (by omega) (by rw [List.getElem?_eq_getElem hnl, e])
      simp only [spinIndexLoop, List.getElem?_eq_getElem hnl, hne, if_false]
      exact ih (n + 1) (by omega) (by omega) (fun q hq hqp => hno q (by omega) hqp)

/-- A pattern that holds `IDX_SPIN` has a first position that holds it. -/
theorem exists_first_spin_index (IDX_SPIN : Int) (pattern : Index) (h : IDX_SPIN ∈ pattern) :
    ∃ p : Nat, pattern[p]? = some IDX_SPIN ∧ ∀ q, q < p → pattern[q]? ≠ some IDX_SPIN := by
  have hex : ∃ p : Nat, pattern[p]? = some IDX_SPIN := by
    obtain ⟨p, hp, hpe⟩ := List.getElem_of_mem h
    exact ⟨p, by rw [List.getElem?_eq_getElem hp, hpe]⟩
  exact ⟨Nat.find hex, Nat.find_spec hex, fun q hq => Nat.find_min hex hq⟩

/-- C21: for a pattern and ranges of equal length in which an entry of the pattern equals
`IDX_SPIN`, let `p` be the first position that holds `IDX_SPIN`.  The detection loop shared by
`ExactDiagonalizer::calculateMagnetization`, `ExactDiagonalizer::calculateSpinPolarizedLDOS` and
`APropertyExtractor::calculateSpinPolarizedLDOS` records `p` as spin index, leaves `pattern` with
0 at `p` and `ranges` with 1 at `p`, and changes no other entry and no length; each of the three
functions goes on with exactly these values: `ensureCompliantRanges`, `getLoopRanges` and
`calculate` receive the changed `pattern` and `ranges`, and `calculate` runs with the spin index
`p` in `hint`. -/
theorem spin_index_detection (pe : ExactDiagonalizer) (ape : APropertyExtractor) (base : Base)
    (pattern ranges : Index) (hlen : pattern.length = ranges.length)
    (hspin : base.IDX_SPIN ∈ pattern) :
    ∃ p : Nat, p < pattern.length ∧ pattern[p]? = some base.IDX_SPIN ∧
      (∀ q, q < p → pattern[q]? ≠ some base.IDX_SPIN) ∧
      spinIndexLoop base.IDX_SPIN pattern ranges pattern.length 0 =
        .ok ((p : Int), pattern.set p 0, ranges.set p 1) ∧
      (pattern.set p 0)[p]? = some 0 ∧ (ranges.set p 1)[p]? = some 1 ∧
      (∀ q, q ≠ p → (pattern.set p 0)[q]? = pattern[q]? ∧ (ranges.set p 1)[q]? = ranges[q]?) ∧
      (pattern.set p 0).length = pattern.length ∧ (ranges.set p 1).length = ranges.length ∧
      ExactDiagonalizer.calculateMagnetization base pattern ranges =
        (let ranges1 := base.ensureCompliantRanges (pattern.set p 0) (ranges.set p 1)
         match base.calculateMagnetization .calculateMagnetizationCallback
            (base.newMagnetization (base.getLoopRanges (pattern.set p 0) ranges1))
            (pattern.set p 0) ranges1 (p : Int) with
         | .error e =>
           ([.newHint, .ensureCompliantRanges, .getLoopRanges, .newProperty, .calculate],
             .error e)
         | .ok magnetization =>
           ([.newHint, .ensureCompliantRanges, .getLoopRanges, .newProperty, .calculate,
             .deleteHint], .ok magnetization)) ∧
      ExactDiagonalizer.calculateSpinPolarizedLDOS pe base pattern ranges =
        (let ranges1 := base.ensureCompliantRanges (pattern.set p 0) (ranges.set p 1)
         match base.calculateSpinPolarizedLDOS .calculateSpinPolarizedLDOSCallback
            (base.newSpinPolarizedLDOS (base.getLoopRanges (pattern.set p 0) ranges1)
              pe.lowerBound pe.upperBound pe.energyResolution)
            (pattern.set p 0) ranges1 (p : Int) with
         | .error e =>
           ([.newHint, .ensureCompliantRanges, .getLoopRanges, .newProperty, .calculate],
             .error e)
         | .ok spinPolarizedLDOS =>
           ([.newHint, .ensureCompliantRanges, .getLoopRanges, .newProperty, .calculate,
             .deleteHint], .ok spinPolarizedLDOS)) ∧
      APropertyExtractor.calculateSpinPolarizedLDOS ape base pattern ranges =
        (let ranges1 := base.ensureCompliantRanges (pattern.set p 0) (ranges.set p 1)
         match base.calculateSpinPolarizedLDOS .calculateSpinPolarizedLDOSCallback
            (base.newSpinPolarizedLDOS (base.getLoopRanges (pattern.set p 0) ranges1)
              ape.lowerBound ape.upperBound ape.energyResolution)
            (pattern.set p 0) ranges1 (p : Int) with
         | .error e =>
           ([.newHint, .ensureCompliantRanges, .getLoopRanges, .newProperty, .calculate],
             .error e)
         | .ok spinPolarizedLDOS =>
           ([.newHint, .ensureCompliantRanges, .getLoopRanges, .newProperty, .calculate,
             .deleteHint], .ok (some spinPolarizedLDOS))) := by
  obtain ⟨p, hp, hfirst⟩ := exists_first_spin_index base.IDX_SPIN pattern hspin
  have hpl : p < pattern.length := by
    by_contra hcon
    rw [List.getElem?_eq_none (by omega)] at hp
    cases hp
  have hpr : p < ranges.length := by omega
  have hloop := spinIndexLoop_of_first base.IDX_SPIN pattern ranges p hp hpr pattern.length 0
    (by omega) (by omega) (fun q _ hq => hfirst q hq)
  have hne : ((p : Int) = -1) = False := by
    apply eq_false
    omega
  refine ⟨p, hpl, hp, hfirst, hloop, ?_, ?_, ?_, ?_, ?_, ?_, ?_, ?_⟩
  · simp [List.getElem?_set, hpl]
  · simp [List.getElem?_set, hpr]
  · intro q hq
    constructor
    · rw [List.getElem?_set_ne (Ne.symm hq)]
    · rw [List.getElem?_set_ne (Ne.symm hq)]
  · simp
  · simp
  · simp only [ExactDiagonalizer.calculateMagnetization, hloop, hne, if_false]
  · simp only [ExactDiagonalizer.calculateSpinPolarizedLDOS, hloop, hne, if_false]
  · simp only [APropertyExtractor.calculateSpinPolarizedLDOS, hloop, hne, if_false]

theorem spin_index_detection_witness :
    ∃ p : Nat, p < 4 ∧ ([0, -2, 3, -2] : Index)[p]? = some (-2) ∧
      (∀ q, q < p → ([0, -2, 3, -2] : Index)[q]? ≠ some (-2)) ∧
      spinIndexLoop (-2) [0, -2, 3, -2] [1, 2, 1, 5] 4 0 =
        .ok ((p : Int), ([0, -2, 3, -2] : Index).set p 0, ([1, 2, 1, 5] : Index).set p 1) := by
  obtain ⟨p, h1, h2, h3, h4, _⟩ := spin_index_detection exampleExtractor
    APropertyExtractor.exampleAPropertyExtractor exampleBase [0, -2, 3, -2] [1, 2, 1, 5] rfl
    (by decide)
  exact ⟨p, h1, h2, h3, h4⟩

theorem exampleBase_spin_index :
    spinIndexLoop exampleBase.IDX_SPIN [0, -2, 3, -2] [1, 2, 1, 5] 4 0 =
        .ok (1, [0, 0, 3, -2], [1, 1, 1, 5]) ∧
      ExactDiagonalizer.calculateMagnetization exampleBase [0, -2, 3, -2] [1, 2, 1, 5] =
        ([.newHint, .ensureCompliantRanges, .getLoopRanges, .newProperty, .calculate,
          .deleteHint], .ok [1, 1, 1, 5]) ∧
      APropertyExtractor.calculateSpinPolarizedLDOS APropertyExtractor.exampleAPropertyExtractor
          exampleBase [0, -2, 3, -2] [1, 2, 1, 5] =
        ([.newHint, .ensureCompliantRanges, .getLoopRanges, .newProperty, .calculate,
          .deleteHint], .ok (some [1, 1, 1, 5])) := by
  refine ⟨rfl, rfl, rfl⟩

end PropertyExtractor

/-! ## Energy bins: the conversion to `int` -/

namespace PropertyExtractor

/-- The conversion to `int` of a finite value lands on a bin `0 <= e < res` in exactly two
ways: bin 0 takes every value in `(-1, 1)`, a bin `e >= 1` the values in `[e, e + 1)`.  The
value `indefinite` of a conversion out of range is assumed not to be a bin. -/
theorem toInt_eq_bin_iff (indefinite res : Int) (x : ℚ) (e : Int)
    (hres : res ≤ 2147483647) (hind : indefinite < 0 ∨ res ≤ indefinite)
    (he0 : 0 ≤ e) (he : e < res) :
    toInt indefinite (some x) = e ↔
      (e = 0 ∧ -1 < x ∧ x < 1) ∨ (1 ≤ e ∧ (e : ℚ) ≤ x ∧ x < e + 1) := by
  have hie : indefinite ≠ e := by omega
  unfold toInt
  by_cases hx : 0 ≤ x
  · simp only [hx, if_true]
    have hfl : 0 ≤ ⌊x⌋ := Int.floor_nonneg.mpr hx
    by_cases hrange : -2147483648 ≤ ⌊x⌋ ∧ ⌊x⌋ ≤ 2147483647
    · simp only [hrange, and_self, if_true]
      rw [Int.floor_eq_iff]
      constructor
      · rintro ⟨h1, h2⟩
        by_cases hz : e = 0
        · left
          subst hz
          refine ⟨rfl, by linarith, ?_⟩
          simpa using h2
        · right
          exact ⟨by omega, h1, h2⟩
      · rintro (⟨rfl, _, h2⟩ | ⟨_, h1, h2⟩)
        · exact ⟨by simpa using hx, by simpa using h2⟩
        · exact ⟨h1, h2⟩
    · simp only [hrange, if_false]
      constructor
      · intro h
        exact absurd h hie
      · intro h
        exfalso
        have hfe : ⌊x⌋ = e := by
          rw [Int.floor_eq_iff]
          rcases h with ⟨rfl, _, h2⟩ | ⟨_, h1, h2⟩
          · exact ⟨by simpa using hx, by simpa using h2⟩
          · exact ⟨h1, h2⟩
        apply hrange
        omega
  · simp only [hx, if_false]
    have hxneg : x < 0 := lt_of_not_ge hx
    have hcl : ⌈x⌉ ≤ 0 := Int.ceil_le.mpr (by simpa using hxneg.le)
    by_cases hrange : -2147483648 ≤ ⌈x⌉ ∧ ⌈x⌉ ≤ 2147483647
    · simp only [hrange, and_self, if_true]
      constructor
      · intro h
        left
        have hz : e = 0 := by omega
        subst hz
        rw [Int.ceil_eq_iff] at h
        refine ⟨rfl, by simpa using h.1, by linarith⟩
      · rintro (⟨rfl, h1, _⟩ | ⟨h0, h1, _⟩)
        · rw [Int.ceil_eq_iff]
          exact ⟨by simpa using h1, by simpa using hxneg.le⟩
        · exfalso
          have : (1 : ℚ) ≤ e := by exact_mod_cast h0
          linarith
    · simp only [hrange, if_false]
      constructor
      · intro h
        exact absurd h hie
      · rintro (⟨rfl, h1, _⟩ | ⟨h0, h1, _⟩)
        · exfalso
          have hc0 : ⌈x⌉ = 0 := by
            rw [Int.ceil_eq_iff]
            exact ⟨by simpa using h1, by simpa using hxneg.le⟩
          apply hrange
          omega
        · exfalso
          have : (1 : ℚ) ≤ e := by exact_mod_cast h0
          linarith

/-- Conversion to `int` of -1/2, a value in `(-1, 0)`: the fractional part is discarded and the
result is 0. -/
theorem toInt_neg_half (indefinite : Int) : toInt indefinite (some (-(1 / 2))) = 0 := by
  have hc : ⌈(-(1 / 2) : ℚ)⌉ = 0 := by
    rw [Int.ceil_eq_iff]
    norm_num
  have hneg : ¬ (0 : ℚ) ≤ -(1 / 2) := by norm_num
  simp only [toInt, hneg, if_false, hc]
  norm_num

/-- The two ways of the conversion, in terms of the energy `v` whose position in the window is
`x = (v - lowerBound)/dE`, with `dE = (upperBound - lowerBound)/energyResolution`. -/
theorem bin_bounds_iff (lowerBound upperBound : ℚ) (energyResolution : Int)
    (hlt : lowerBound < upperBound) (hres : 0 < energyResolution) (v x : ℚ) (e : Int)
    (hx : x = (v - lowerBound) / ((upperBound - lowerBound) / energyResolution)) :
    ((e = 0 ∧ -1 < x ∧ x < 1) ∨ (1 ≤ e ∧ (e : ℚ) ≤ x ∧ x < e + 1)) ↔
      ((e = 0 ∧ lowerBound - (upperBound - lowerBound) / energyResolution < v ∧
          v < lowerBound + (upperBound - lowerBound) / energyResolution) ∨
        (1 ≤ e ∧ lowerBound + e * ((upperBound - lowerBound) / energyResolution) ≤ v ∧
          v < lowerBound + (e + 1) * ((upperBound - lowerBound) / energyResolution))) := by
  have hresq : (0 : ℚ) < energyResolution := by exact_mod_cast hres
  have hdE : 0 < (upperBound - lowerBound) / energyResolution :=
    div_pos (by linarith) hresq
  subst hx
  rw [lt_div_iff₀ hdE, div_lt_iff₀ hdE, le_div_iff₀ hdE, div_lt_iff₀ hdE]
  constructor
  · rintro (⟨h0, h1, h2⟩ | ⟨h0, h1, h2⟩)
    · exact Or.inl ⟨h0, by linarith, by linarith⟩
    · exact Or.inr ⟨h0, by linarith, by linarith⟩
  · rintro (⟨h0, h1, h2⟩ | ⟨h0, h1, h2⟩)
    · exact Or.inl ⟨h0, by linarith, by linarith⟩
    · exact Or.inr ⟨h0, by linarith, by linarith⟩

namespace ExactDiagonalizer

/-- The bin that `calculateGreensFunction` computes for the excitation energy
`w = energySign*(E - groundStateEnergy)`, on a window with `lowerBound < upperBound` and
`0 < energyResolution`: bin 0 takes every `w` with `lowerBound - dE < w < lowerBound + dE`, a
bin `e >= 1` the `w` with `lowerBound + e*dE <= w < lowerBound + (e + 1)*dE`. -/
theorem energyBin_eq_iff (pe : ExactDiagonalizer) (hlt : pe.lowerBound < pe.upperBound)
    (hres : 0 < pe.energyResolution) (hint : pe.energyResolution ≤ 2147483647)
    (hind : pe.indefinite < 0 ∨ pe.energyResolution ≤ pe.indefinite)
    (energySign E groundStateEnergy : ℚ) (e : Int) (he0 : 0 ≤ e) (he : e < pe.energyResolution) :
    pe.energyBin energySign E groundStateEnergy = e ↔
      ((e = 0 ∧
          pe.lowerBound - (pe.upperBound - pe.lowerBound) / pe.energyResolution <
            energySign * (E - groundStateEnergy) ∧
          energySign * (E - groundStateEnergy) <
            pe.lowerBound + (pe.upperBound - pe.lowerBound) / pe.energyResolution) ∨
        (1 ≤ e ∧
          pe.lowerBound + e * ((pe.upperBound - pe.lowerBound) / pe.energyResolution) ≤
            energySign * (E - groundStateEnergy) ∧
          energySign * (E - groundStateEnergy) <
            pe.lowerBound + (e + 1) * ((pe.upperBound - pe.lowerBound) / pe.energyResolution))) := by
  have hresq : (0 : ℚ) < pe.energyResolution := by exact_mod_cast hres
  have hd : pe.upperBound - pe.lowerBound ≠ 0 := by
    intro h
    linarith
  unfold energyBin divide
  simp only [hd, if_false, Option.map]
  rw [toInt_eq_bin_iff pe.indefinite pe.energyResolution _ e hint hind he0 he]
  apply bin_bounds_iff pe.lowerBound pe.upperBound pe.energyResolution hlt hres
  field_simp
  ring

theorem exampleExtractorBelowWindow_bin :
    exampleExtractorBelowWindow.energyBin (-1) (5 / 2) 0 = 0 := by
  have hx : (((4 : Int) : ℚ) * ((-(-2) + -1 * (5 / 2 - 0)) / (2 - (-2))) : ℚ) = -(1 / 2) := by
    norm_num
  have hd : ((2 : ℚ) - (-2) = 0) = False := by
    apply eq_false
    norm_num
  simp only [energyBin, exampleExtractorBelowWindow, exampleExtractor, divide, hd, if_false,
    Option.map, hx]
  exact toInt_neg_half _

theorem exampleExtractorBelowWindow_amplitude (operator : Nat) (a b c d : Nat) :
    exampleExtractorBelowWindow.amplitude exampleFockSpace () operator
      (exampleFockSpace.createFockStateMap 0) (exampleFockSpace.createFockStateMap 1) a b c d
      = ⟨1, 0⟩ := by
  simp [amplitude, exampleExtractorBelowWindow, exampleExtractor, exampleFockSpace,
    List.range_succ, Cplx.conj, Cplx.zero_def, Cplx.add_def, Cplx.mul_def, Cplx.mul_rat_def]

theorem exampleExtractorBelowWindow_advanced :
    exampleExtractorBelowWindow.calculateGreensFunction [0] [0] .Advanced () =
      .ok (⟨([0], [0]), .Advanced, -2, 2, 4, [⟨0, -1⟩, 0, 0, 0]⟩, ()) := by
  rw [calculateGreensFunction_default _ _ _ _ _ (by decide) (by decide)]
  have hb := exampleExtractorBelowWindow_bin
  have ha := exampleExtractorBelowWindow_amplitude
  simp only [exampleExtractorBelowWindow, exampleExtractor, exampleFockSpace] at hb ha
  simp [exampleExtractorBelowWindow, exampleExtractor, exampleFockSpace, calculateForFockSpace,
    accumulate, hb, ha, addAt, bind, Except.bind, pure, Except.pure, List.range_succ,
    Cplx.zero_def, Cplx.add_def, Cplx.mul_def, Cplx.neg_def, Cplx.i]

/-- C22: the Advanced branch of `calculateGreensFunction` on the window `[-2, 2)` with four bins
(`dE = 1`), ground state energy 0 and the state of subspace 1 at energy 5/2.  The excitation
energy `w = energySign*(E - groundStateEnergy) = -5/2` lies below `lowerBound`, so the state
should contribute to no bin; the conversion to `int` discards the fraction of the position
-1/2, the bin is 0, and the amplitude product 1 of the state is added to bin 0: the returned
array is `[-i, 0, 0, 0]` and not the array of zeros. -/
theorem calculateGreensFunction_bin_below_lowerBound :
    -1 * (exampleExtractorBelowWindow.getEigenValue () 1 0 -
        exampleExtractorBelowWindow.getEigenValue () 0 0) <
        exampleExtractorBelowWindow.lowerBound ∧
      exampleExtractorBelowWindow.energyBin (-1)
        (exampleExtractorBelowWindow.getEigenValue () 1 0)
        (exampleExtractorBelowWindow.getEigenValue () 0 0) = 0 ∧
      exampleExtractorBelowWindow.calculateGreensFunction [0] [0] .Advanced () =
        .ok (⟨([0], [0]), .Advanced, -2, 2, 4, [⟨0, -1⟩, 0, 0, 0]⟩, ()) := by
  refine ⟨?_, ?_, exampleExtractorBelowWindow_advanced⟩
  · simp only [exampleExtractorBelowWindow, exampleExtractor]
    norm_num
  · have hb := exampleExtractorBelowWindow_bin
    have hE : exampleExtractorBelowWindow.getEigenValue () 1 0 = 5 / 2 := by
      simp [exampleExtractorBelowWindow]
    have hG : exampleExtractorBelowWindow.getEigenValue () 0 0 = 0 := by
      simp [exampleExtractorBelowWindow]
    rw [hE, hG]
    exact hb

end ExactDiagonalizer
end PropertyExtractor

/-! ## Energy bins: the density of states -/

namespace APropertyExtractor

/-- The bin that `calculateDOS` computes for an eigenvalue with real part `ev.re`, on a window
with `lowerBound < upperBound` and `0 < energyResolution`: bin 0 takes every real part in
`(lowerBound - dE, lowerBound + dE)`, a bin `e >= 1` the real parts in
`[lowerBound + e*dE, lowerBound + (e + 1)*dE)`. -/
theorem dosBin_eq_iff (pe : APropertyExtractor) (hlt : pe.lowerBound < pe.upperBound)
    (hres : 0 < pe.energyResolution) (hint : pe.energyResolution ≤ 2147483647)
    (hind : pe.indefinite < 0 ∨ pe.energyResolution ≤ pe.indefinite)
    (ev : Cplx) (e : Int) (he0 : 0 ≤ e) (he : e < pe.energyResolution) :
    pe.dosBin ev = e ↔
      ((e = 0 ∧ pe.lowerBound - (pe.upperBound - pe.lowerBound) / pe.energyResolution < ev.re ∧
          ev.re < pe.lowerBound + (pe.upperBound - pe.lowerBound) / pe.energyResolution) ∨
        (1 ≤ e ∧
          pe.lowerBound + e * ((pe.upperBound - pe.lowerBound) / pe.energyResolution) ≤ ev.re ∧
          ev.re <
            pe.lowerBound + (e + 1) * ((pe.upperBound - pe.lowerBound) / pe.energyResolution))) := by
  have hresq : (0 : ℚ) < pe.energyResolution := by exact_mod_cast hres
  have hd : pe.upperBound - pe.lowerBound ≠ 0 := by
    intro h
    linarith
  unfold dosBin PropertyExtractor.divide
  simp only [hd, if_false, Option.map]
  rw [PropertyExtractor.toInt_eq_bin_iff pe.indefinite pe.energyResolution _ e hint hind he0 he]
  apply PropertyExtractor.bin_bounds_iff pe.lowerBound pe.upperBound pe.energyResolution hlt hres
  field_simp

theorem exampleBelowWindow_bin : exampleBelowWindow.dosBin ⟨-5 / 2, 0⟩ = 0 := by
  have hx : ((-5 / 2 - (-2)) / (2 - (-2)) * ((4 : Int) : ℚ) : ℚ) = -(1 / 2) := by norm_num
  have hd : ((2 : ℚ) - (-2) = 0) = False := by
    apply eq_false
    norm_num
  simp only [dosBin, exampleBelowWindow, PropertyExtractor.divide, hd, if_false, Option.map, hx]
  exact PropertyExtractor.toInt_neg_half _

/-- C23: `calculateDOS` on the window `[-2, 2)` with four bins (`dE = 1`) and the single
eigenvalue -5/2.  Its real part lies below `lowerBound`, so it should be counted in no bin; the
conversion to `int` discards the fraction of the position -1/2, the bin is 0, and the
eigenvalue is counted in bin 0: from the array of zeros the function returns `[1, 0, 0, 0]`. -/
theorem calculateDOS_counts_below_lowerBound :
    (exampleBelowWindow.getEigenValues 0).re < exampleBelowWindow.lowerBound ∧
      exampleBelowWindow.dosBin (exampleBelowWindow.getEigenValues 0) = 0 ∧
      exampleBelowWindow.calculateDOS ⟨[0, 0, 0, 0]⟩ = ⟨[1, 0, 0, 0]⟩ := by
  have hb := exampleBelowWindow_bin
  refine ⟨?_, hb, ?_⟩
  · simp only [exampleBelowWindow]
    norm_num
  · simp only [exampleBelowWindow] at hb
    simp [calculateDOS, countEigenValue, exampleBelowWindow, hb, List.range_succ]

end APropertyExtractor

end TBTK
